import Mathlib

/-!
Shallow embedding of the splr CDCL SAT solver core (repository jrmuizel/splr)
and proofs about it.  The repository contains source files from several
snapshots of the solver; each section below models the snapshot that the
corresponding functions live in:

* namespace `Splr.P`  — `src/propagator.rs` (AssignStack, VarIdHeap, propagate,
  enqueue, cancel_until);
* namespace `Splr.M`  — `src/clause.rs` / `src/solver_propagate.rs`
  (ClausePack, reduce, garbage_collect, bump_cid, add_clause, iter_watcher);
* namespace `Splr.A`  — `src/search.rs` (Solver::analyze).

Machine integers of the source are modelled by `Nat` (indices never go
negative in the modelled code paths); `f64` activities are modelled by `Rat`.
Out-of-bounds accesses, which panic in Rust, are modelled by `getD` with an
explicit default; theorems carry well-formedness hypotheses that keep every
access in bounds on the paths they describe.
-/

set_option maxHeartbeats 1000000

namespace Splr

/-- Lifted Boolean (`Lbool`) from `types.rs`: `u8` with `LFALSE = 0`, `LTRUE = 1`,
`BOTTOM = 2`.  All solver integer types (`VarId`, `Lit`, `ClauseId`, `Lbool`)
are modelled as plain `Nat` so that arithmetic automation sees them. -/
def LFALSE : Nat := 0

def LTRUE : Nat := 1

def BOTTOM : Nat := 2

def NULL_CLAUSE : Nat := 0

def NULL_LIT : Nat := 0

/-- `types.rs` `Lit::vi`: the variable index of a literal (`lit / 2`). -/
def litVi (l : Nat) : Nat := l / 2

/-- `types.rs` `Lit::negate`: flip bit 0. -/
def litNegate (l : Nat) : Nat := l ^^^ 1

/-- `types.rs` `Lit::positive`. -/
def litPositive (l : Nat) : Bool := l % 2 == 0

/-- `types.rs` `Lit::lbool`. -/
def litLbool (l : Nat) : Nat := if litPositive l then LTRUE else LFALSE

/-- `types.rs` `VarId::lit`: build the literal of variable `v` with polarity `p`. -/
def varLit (v : Nat) (p : Nat) : Nat := if p == LFALSE then 2 * v + 1 else 2 * v

/-- `Vec::swap` on a list of naturals (indices assumed in bounds by callers). -/
def swapL (l : List Nat) (i j : Nat) : List Nat :=
  ((l.set i (l.getD j 0)).set j (l.getD i 0))

namespace P

/-- Modelled from the spec: the per-variable record of spec section 3
(`var.rs` is absent from `src/`); the fields are exactly those that
`propagator.rs` reads and writes. -/
structure Var where
  index : Nat
  assign : Nat
  phase : Nat
  level : Nat
  reason : Nat
  activity : Rat
deriving Repr, DecidableEq

instance : Inhabited Var := ⟨⟨0, BOTTOM, BOTTOM, 0, NULL_CLAUSE, 0⟩⟩

/-- `propagator.rs` `VarIdHeap`: heap of variable ids keyed on activity;
`idxs.[0]` holds the number of live elements. -/
structure VarIdHeap where
  heap : List Nat
  idxs : List Nat
deriving Repr, DecidableEq

/-- The loop body of `propagator.rs` `VarIdHeap::percolate_up`; `vq` and `aq`
are read once before the loop, `q` is the moving position. -/
def percolateUpGo (vars : List Var) (vq : Nat) (aq : Rat) (heap idxs : List Nat)
    (q : Nat) : List Nat × List Nat :=
  if h : q / 2 = 0 then (heap.set q vq, idxs.set vq q)
  else if (vars.getD (heap.getD (q / 2) 0) default).activity < aq then
    percolateUpGo vars vq aq (heap.set q (heap.getD (q / 2) 0))
      (idxs.set (heap.getD (q / 2) 0) q) (q / 2)
  else (heap.set q vq, idxs.set vq q)
termination_by q
decreasing_by omega

/-- `propagator.rs` `VarIdHeap::percolate_up`. -/
def VarIdHeap.percolateUp (vars : List Var) (hp : VarIdHeap) (start : Nat) : VarIdHeap :=
  let vq := hp.heap.getD start 0
  let aq := (vars.getD vq default).activity
  let r := percolateUpGo vars vq aq hp.heap hp.idxs start
  ⟨r.1, r.2⟩

/-- `propagator.rs` `VarIdHeap::contains`: `idxs[v] <= idxs[0]`. -/
def VarIdHeap.contains (hp : VarIdHeap) (v : Nat) : Bool :=
  decide (hp.idxs.getD v 0 ≤ hp.idxs.getD 0 0)

/-- `propagator.rs` `VarIdHeap::insert`. -/
def VarIdHeap.insert (vars : List Var) (hp : VarIdHeap) (vi : Nat) : VarIdHeap :=
  if hp.contains vi then
    hp.percolateUp vars (hp.idxs.getD vi 0)
  else
    let i := hp.idxs.getD vi 0
    let n := hp.idxs.getD 0 0 + 1
    let vn := hp.heap.getD n 0
    let heap1 := swapL hp.heap i n
    let idxs1 := swapL hp.idxs vi vn
    VarIdHeap.percolateUp vars ⟨heap1, idxs1.set 0 n⟩ n

inductive SolverError where
  | Inconsistent
deriving Repr, DecidableEq

/-- `propagator.rs` `AssignStack` (the `state` and statistics fields of the
solver are irrelevant to the claims about this structure and are omitted). -/
structure AssignStack where
  trail : List Nat
  assign : List Nat
  trailLim : List Nat
  qHead : Nat
  varOrder : VarIdHeap
deriving Repr, DecidableEq

/-- `propagator.rs` `AssignStack::enqueue`: the mutated stack and variable are
returned on success; `Err(Inconsistent)` mirrors `SolverError::Inconsistent`. -/
def AssignStack.enqueue (s : AssignStack) (v : Var) (sig : Nat) (cid : Nat)
    (dl : Nat) : Except SolverError (AssignStack × Var) :=
  let val := s.assign.getD v.index BOTTOM
  if val == BOTTOM then
    let v1 : Var := { v with assign := sig, reason := cid, level := dl }
    let v2 : Var := if dl == 0 then { v1 with reason := NULL_CLAUSE, activity := 0 } else v1
    Except.ok
      ({ s with assign := s.assign.set v.index sig,
                trail := s.trail ++ [varLit v.index sig] }, v2)
  else if val == sig then Except.ok (s, v)
  else Except.error SolverError.Inconsistent

/-- One iteration of the rollback loop in `propagator.rs`
`AssignStack::cancel_until`: save the phase, clear the assignment and the
reason, and reinsert the variable into the decision heap. -/
def cancelStep (acc : List Var × List Nat × VarIdHeap) (l : Nat) :
    List Var × List Nat × VarIdHeap :=
  let vi := litVi l
  let v := acc.1.getD vi default
  let v1 : Var := { v with phase := acc.2.1.getD vi BOTTOM,
                           assign := BOTTOM, reason := NULL_CLAUSE }
  let vars1 := acc.1.set vi v1
  (vars1, acc.2.1.set vi BOTTOM, VarIdHeap.insert vars1 acc.2.2 vi)

/-- `propagator.rs` `AssignStack::cancel_until`. -/
def AssignStack.cancelUntil (s : AssignStack) (vars : List Var) (lv : Nat) :
    AssignStack × List Var :=
  if s.trailLim.length ≤ lv then (s, vars)
  else
    let lim := s.trailLim.getD lv 0
    let r := (s.trail.drop lim).foldl cancelStep (vars, s.assign, s.varOrder)
    ({ trail := s.trail.take lim, assign := r.2.1, trailLim := s.trailLim.take lv,
       qHead := lim, varOrder := r.2.2 }, r.1)

/-- The value that position `j` of the heap logically holds while
`percolate_up` is moving the hole at `q` (whose occupant is `vq`). -/
def fOf (heap : List Nat) (q vq j : Nat) : Nat := if j = q then vq else heap.getD j 0

/-- Loop invariant of `percolate_up`: `heap`/`idxs` form a pair of inverse
permutations of `1..N` except that the entry of `vq` in `idxs` may be stale
and position `q` of `heap` is a hole about to be overwritten. -/
structure PUpInv (N vq : Nat) (heap idxs : List Nat) (q : Nat) : Prop where
  hlen : heap.length = N + 1
  ilen : idxs.length = N + 1
  hq1 : 1 ≤ q
  hqN : q ≤ N
  hvq1 : 1 ≤ vq
  hvqN : vq ≤ N
  hval : ∀ j, 1 ≤ j → j ≤ N → 1 ≤ heap.getD j 0 ∧ heap.getD j 0 ≤ N
  linv : ∀ j, 1 ≤ j → j ≤ N → j ≠ q → idxs.getD (heap.getD j 0) 0 = j
  rinv : ∀ v, 1 ≤ v → v ≤ N → v ≠ vq →
    1 ≤ idxs.getD v 0 ∧ idxs.getD v 0 ≤ N ∧ fOf heap q vq (idxs.getD v 0) = v
  finj : ∀ j k, 1 ≤ j → j ≤ N → 1 ≤ k → k ≤ N →
    fOf heap q vq j = fOf heap q vq k → j = k

/-- A well-formed heap array pair: `heap` and `idxs` restrict to mutually
inverse permutations of `1..N`. -/
structure HeapOk (N : Nat) (heap idxs : List Nat) : Prop where
  hlen : heap.length = N + 1
  ilen : idxs.length = N + 1
  hval : ∀ j, 1 ≤ j → j ≤ N → 1 ≤ heap.getD j 0 ∧ heap.getD j 0 ≤ N
  linv : ∀ j, 1 ≤ j → j ≤ N → idxs.getD (heap.getD j 0) 0 = j
  rinv : ∀ v, 1 ≤ v → v ≤ N →
    1 ≤ idxs.getD v 0 ∧ idxs.getD v 0 ≤ N ∧ heap.getD (idxs.getD v 0) 0 = v

/-- Well-formed `VarIdHeap` for `N` variables: inverse permutations plus a
live size of at most `N`. -/
structure HWf (N : Nat) (hp : VarIdHeap) : Prop where
  ok : HeapOk N hp.heap hp.idxs
  size : hp.idxs.getD 0 0 ≤ N

/-! ### The propagator (`AssignStack::propagate`, propagator.rs 89-169) -/

/-- `propagator.rs` `AssignStack::assigned`: `assign[l.vi()] ^ (l & 1)`. -/
def AssignStack.assigned (s : AssignStack) (l : Nat) : Nat :=
  s.assign.getD (litVi l) BOTTOM ^^^ (l &&& 1)

/-- `propagator.rs` `AssignStack::catchup`: `q_head = trail.len()`. -/
def AssignStack.catchup (s : AssignStack) : AssignStack :=
  { s with qHead := s.trail.length }

/-- `propagator.rs` `AssignStack::uncheck_enqueue`: assign `l`'s truth value at
the current decision level with reason `cid` and push it on the trail. -/
def uncheckEnqueue (s : AssignStack) (vars : List Var) (l : Nat) (cid : Nat) :
    AssignStack × List Var :=
  let dl := s.trailLim.length
  let vi := litVi l
  let v := vars.getD vi default
  ({ s with assign := s.assign.set vi (litLbool l), trail := s.trail ++ [l] },
   vars.set vi { v with assign := litLbool l, level := dl, reason := cid })

/-- Modelled from the spec (section 4.4's blocking-literal optimization; this
snapshot's watcher-era `clause.rs` is absent from `src/`): a watch entry is a
blocker literal plus a clause id. -/
structure Watch where
  blocker : Nat
  c : Nat
deriving Repr, DecidableEq

instance : Inhabited Watch := ⟨⟨0, 0⟩⟩

/-- The clause record as `propagate` uses it: only the literal vector is read
and written (modelled from the spec; the watcher-era `clause.rs` is absent). -/
structure PClause where
  lits : List Nat
deriving Repr, DecidableEq

instance : Inhabited PClause := ⟨⟨[]⟩⟩

/-- The clause database as `propagate` sees it: the clause vector and one watch
list per literal (modelled from the spec; the watcher-era `clause.rs` is
absent from `src/`). -/
structure ClauseDB where
  clause : List PClause
  watcher : List (List Watch)
deriving Repr, DecidableEq

/-- Modelled from the spec: `register` links a clause into a literal's watch
list with the given blocker. -/
def ClauseDB.register (cdb : ClauseDB) (lit blocker c : Nat) : ClauseDB :=
  { cdb with watcher := cdb.watcher.set lit (cdb.watcher.getD lit [] ++ [⟨blocker, c⟩]) }

/-- Modelled from the spec: `detach` unlinks the watch at position `n` of a
literal's watch list. -/
def ClauseDB.detach (cdb : ClauseDB) (lit n : Nat) : ClauseDB :=
  { cdb with watcher := cdb.watcher.set lit ((cdb.watcher.getD lit []).eraseIdx n) }

/-- The `for (k, lk) in lits.iter().enumerate().skip(2)` scan of `propagate`:
the first position (and literal) from index 2 on whose assigned value is not
FALSE, i.e. `((lk & 1) ^ assign[lk.vi()]) != 0`. -/
def findNFGo (assign : List Nat) : List Nat → Nat → Option (Nat × Nat)
  | [], _ => none
  | l :: rest, k =>
    if ((l &&& 1) ^^^ assign.getD (litVi l) BOTTOM) != 0 then some (k, l)
    else findNFGo assign rest (k + 1)

/-- The `'next_clause` loop of `propagator.rs` `AssignStack::propagate` over
the watch list of the swept literal `p`, with fuel; `cc`/`ccs` are
`conflict_clause`/`conflict_clause_size`. `Sum.inl` is an in-loop conflict
return (after `catchup`), `Sum.inr` a normal loop exit. -/
def innerLoop (minz : Bool) (p : Nat) :
    Nat → AssignStack → List Var → ClauseDB → Nat → Nat → Nat →
    Option ((AssignStack × List Var × ClauseDB × Nat) ⊕
            (AssignStack × List Var × ClauseDB × Nat × Nat))
  | 0, _, _, _, _, _, _ => none
  | fuel + 1, asn, vars, cdb, n, cc, ccs =>
    if n < (cdb.watcher.getD p []).length then
      let w := (cdb.watcher.getD p []).getD n default
      let bv := asn.assigned w.blocker
      if bv != LTRUE then
        if (cdb.clause.getD w.c default).lits.length == 2 then
          if bv == LFALSE then some (Sum.inl (asn.catchup, vars, cdb, w.c))
          else
            let r := uncheckEnqueue asn vars w.blocker w.c
            innerLoop minz p fuel r.1 r.2 cdb (n + 1) cc ccs
        else
          let falseLit := litNegate p
          let lits := (cdb.clause.getD w.c default).lits
          let r1 := if lits.getD 0 0 == falseLit then
              (lits.getD 1 0,
               { cdb with clause := cdb.clause.set w.c ⟨(lits.set 0 (lits.getD 1 0)).set 1 falseLit⟩ })
            else (lits.getD 0 0, cdb)
          let first := r1.1
          let cdb1 := r1.2
          let fv := asn.assigned first
          if first != w.blocker && (fv == LTRUE) then
            let cdb2 := { cdb1 with watcher := cdb1.watcher.set p ((cdb1.watcher.getD p []).set n ⟨first, w.c⟩) }
            innerLoop minz p fuel asn vars cdb2 (n + 1) cc ccs
          else
            match findNFGo asn.assign ((cdb1.clause.getD w.c default).lits.drop 2) 2 with
            | some kl =>
              let lits1 := (cdb1.clause.getD w.c default).lits
              let cdb2 := ((cdb1.register (litNegate kl.2) first w.c).detach p n)
              let cdb3 := { cdb2 with clause := cdb2.clause.set w.c ⟨(lits1.set 1 kl.2).set kl.1 falseLit⟩ }
              innerLoop minz p fuel asn vars cdb3 n cc ccs
            | none =>
              if fv == LFALSE then
                if !minz then some (Sum.inl (asn.catchup, vars, cdb1, w.c))
                else
                  let r2 := if cc == NULL_CLAUSE || decide ((cdb1.clause.getD w.c default).lits.length < ccs) then (w.c, (cdb1.clause.getD w.c default).lits.length) else (cc, ccs)
                  innerLoop minz p fuel asn vars cdb1 (n + 1) r2.1 r2.2
              else
                let r := uncheckEnqueue asn vars first w.c
                innerLoop minz p fuel r.1 r.2 cdb1 (n + 1) cc ccs
      else innerLoop minz p fuel asn vars cdb (n + 1) cc ccs
    else some (Sum.inr (asn, vars, cdb, cc, ccs))

/-- `propagator.rs` `AssignStack::propagate` (89-169), with fuel: sweep trail
literals while `remains()`, scanning each swept literal's watch list; on an
in-loop conflict or a deferred (`with_learnt_minimization`) conflict, catch up
`q_head` and return the conflict's id; else return `NULL_CLAUSE`. -/
def propagate (minz : Bool) : Nat → AssignStack → List Var → ClauseDB →
    Option (AssignStack × List Var × ClauseDB × Nat)
  | 0, _, _, _ => none
  | fuel + 1, asn, vars, cdb =>
    if asn.qHead < asn.trail.length then
      let p := asn.trail.getD asn.qHead 0
      let asn1 := { asn with qHead := asn.qHead + 1 }
      match innerLoop minz p fuel asn1 vars cdb 0 NULL_CLAUSE 3 with
      | none => none
      | some (Sum.inl (a2, v2, c2, cid)) => some (a2, v2, c2, cid)
      | some (Sum.inr (a2, v2, c2, cc, _)) =>
        if cc != NULL_CLAUSE then some (a2.catchup, v2, c2, cc)
        else propagate minz fuel a2 v2 c2
    else some (asn, vars, cdb, NULL_CLAUSE)

/-- Well-formedness of one watch entry `w` on literal `q`'s list: the clause
has at least two distinct literals without duplicates, watches `¬q` in one of
its first two positions, its literals' variables are in range, and a binary
clause's blocker is its other watched literal. -/
structure WatchOK (assign : List Nat) (cls : List PClause) (q : Nat) (w : Watch) : Prop where
  twoLe : 2 ≤ (cls.getD w.c default).lits.length
  watchL : (cls.getD w.c default).lits.getD 0 0 = litNegate q ∨
    (cls.getD w.c default).lits.getD 1 0 = litNegate q
  bounds : ∀ l ∈ (cls.getD w.c default).lits, litVi l < assign.length
  nodup : (cls.getD w.c default).lits.Nodup
  blockPair : (cls.getD w.c default).lits.length = 2 →
    ((cls.getD w.c default).lits.getD 0 0 = litNegate q ∧
      w.blocker = (cls.getD w.c default).lits.getD 1 0) ∨
    ((cls.getD w.c default).lits.getD 1 0 = litNegate q ∧
      w.blocker = (cls.getD w.c default).lits.getD 0 0)

/-- Well-formedness of the propagator state: every trail literal is assigned
TRUE, every watch entry is coherent, no clause appears twice on one watch
list, and the propagation head is within the trail. -/
structure PWf (asn : AssignStack) (cdb : ClauseDB) : Prop where
  trailT : ∀ l ∈ asn.trail, asn.assigned l = LTRUE
  watch : ∀ q, ∀ w ∈ cdb.watcher.getD q [], WatchOK asn.assign cdb.clause q w
  uniq : ∀ q, ((cdb.watcher.getD q []).map Watch.c).Nodup
  qh : asn.qHead ≤ asn.trail.length

/-- The returned conflict: a real clause all of whose literals are false. -/
def allFalse (asn : AssignStack) (cls : List PClause) (cid : Nat) : Prop :=
  2 ≤ (cls.getD cid default).lits.length ∧
  ∀ l ∈ (cls.getD cid default).lits, asn.assigned l = LFALSE


/-- Witness state for propagate: variable 1 is true (literal 2) and queued,
clause 1 = [3, 4] is watched at literal 2 with blocker 4. -/
def exAsnP : AssignStack := ⟨[2], [BOTTOM, LTRUE, BOTTOM], [], 0, ⟨[], []⟩⟩

def exVarsP : List Var := [default, default, default]

def exCdbP : ClauseDB :=
  ⟨[⟨[]⟩, ⟨[3, 4]⟩], [[], [], [⟨4, 1⟩], [], [], []]⟩

end P

namespace M

/-- Modelled from the spec: the per-variable record of spec section 3 for the
`clause.rs`/`solver_propagate.rs` snapshot (that snapshot's `var.rs` is absent
from `src/`); fields are the ones the modelled functions read and write. -/
structure Var where
  assign : Nat
  phase : Nat
  level : Nat
  reason : Nat
  activity : Rat
deriving Repr, DecidableEq

instance : Inhabited Var := ⟨⟨BOTTOM, BOTTOM, 0, NULL_CLAUSE, 0⟩⟩

/-- Modelled from the spec: `Vec<Var>::assigned` (that snapshot's `var.rs` is
absent from `src/`); the xor encoding is documented by the comment at
`solver_propagate.rs` line 53: `((lk & 1) as u8) ^ self.vars[lk.vi()].assign`
is equivalent to `assigned(lk)`. -/
def assigned (vars : List Var) (l : Nat) : Nat :=
  Nat.xor (vars.getD (litVi l) default).assign (l % 2)

/-- `clause.rs` `ClauseFlag` bit positions (`Kind0 = 0`, `Kind1 = 1`). -/
def flagDead : Nat := 2

def flagLocked : Nat := 3

def flagLearnt : Nat := 4

def flagJustUsed : Nat := 5

/-- `clause.rs` `Clause`; the two-element arrays `lit` and `next_watcher` are
modelled as the field pairs `lit0/lit1` and `nw0/nw1`. -/
structure Clause where
  index : Nat
  lit0 : Nat
  lit1 : Nat
  nw0 : Nat
  nw1 : Nat
  lits : List Nat
  rank : Nat
  flags : Nat
  activity : Rat
deriving Repr, DecidableEq

instance : Inhabited Clause := ⟨⟨0, NULL_LIT, NULL_LIT, NULL_CLAUSE, NULL_CLAUSE, [], 0, 0, 0⟩⟩

/-- Read `lit[i]` of a clause. -/
def Clause.litI (c : Clause) (i : Nat) : Nat := if i = 0 then c.lit0 else c.lit1

/-- Read `next_watcher[i]` of a clause. -/
def Clause.nwI (c : Clause) (i : Nat) : Nat := if i = 0 then c.nw0 else c.nw1

/-- Write `lit[i]` of a clause. -/
def Clause.setLitI (c : Clause) (i v : Nat) : Clause :=
  if i = 0 then { c with lit0 := v } else { c with lit1 := v }

/-- Write `next_watcher[i]` of a clause. -/
def Clause.setNwI (c : Clause) (i v : Nat) : Clause :=
  if i = 0 then { c with nw0 := v } else { c with nw1 := v }

/-- `clause.rs` `Clause::get_flag`: `flags & (1 << flag) != 0`. -/
def Clause.getFlag (c : Clause) (k : Nat) : Bool := c.flags.testBit k

/-- `clause.rs` `Clause::set_flag`: clear the bit, then or in the value (the
`u32` complement is modelled on 32 bits). -/
def Clause.setFlag (c : Clause) (k : Nat) (b : Bool) : Clause :=
  { c with flags := (c.flags &&& (4294967295 ^^^ (1 <<< k))) ||| ((if b then 1 else 0) <<< k) }

/-- `clause.rs` `Clause::new`: the first two literals become the watches, the
rest the body; flags hold the kind bits and the Learnt bit. -/
def Clause.mkNew (kind : Nat) (learnt : Bool) (rank : Nat) (v : List Nat) : Clause :=
  { index := 0, lit0 := v.getD 0 0, lit1 := v.getD 1 0, nw0 := NULL_CLAUSE,
    nw1 := NULL_CLAUSE, lits := v.drop 2, rank := rank,
    flags := Nat.lor kind (Nat.shiftLeft (if learnt then 1 else 0) 4), activity := 0 }

/-- Modelled from the spec: the `GARBAGE_LIT` and `RECYCLE_LIT` sentinels of
the in-place collection trick (spec sections 3 and 9); this snapshot's
`types.rs` is absent from `src/`.  The garbage list head lives at
`watcher[GARBAGE_LIT.negate()]` and the recycle list head at
`watcher[RECYCLE_LIT.negate()]`; ordinary watch lists start at index 2. -/
def GARBAGE_LIT : Nat := 1

def RECYCLE_LIT : Nat := 0

/-- `clause.rs` `ClauseKind` discriminants. -/
def kindRemovable : Nat := 0

def kindPermanent : Nat := 1

def kindBinclause : Nat := 2

/-- `clause.rs` `ClauseKind::tag`: the kind in bits 60.. of a clause id. -/
def kindTag (k : Nat) : Nat := k * 2 ^ 60

def CLAUSE_INDEX_MASK : Nat := 2 ^ 60 - 1

/-- `clause.rs` `ClauseIdIndexEncoding::to_kind`: `cid >> 60`. -/
def toKind (cid : Nat) : Nat := cid >>> 60

/-- `clause.rs` `ClauseIdIndexEncoding::to_index`: `cid & CLAUSE_INDEX_MASK`. -/
def toIndex (cid : Nat) : Nat := Nat.land cid CLAUSE_INDEX_MASK

/-- `clause.rs` `ClausePack` (the cached `init_size`, `tag`, `mask` and
`index_bits` fields are constants or functions of `kind` and are recomputed
on the fly). -/
structure ClausePack where
  kind : Nat
  clauses : List Clause
  touched : List Bool
  permutation : List Nat
  watcher : List Nat
deriving Repr, DecidableEq

instance : Inhabited ClausePack := ⟨⟨0, [], [], [], []⟩⟩

/-- `clause.rs` `ClausePack::id_from`: `cix | tag`. -/
def ClausePack.idFrom (cp : ClausePack) (cix : Nat) : Nat := Nat.lor cix (kindTag cp.kind)

/-- `clause.rs` `ClauseListIter` (iterator state of `iter_watcher`). -/
structure ClauseListIter where
  target : Nat
  next_index : Nat
deriving Repr, DecidableEq

/-- `clause.rs` `ClausePack::iter_watcher`. -/
def ClausePack.iterWatcher (cp : ClausePack) (p : Nat) : ClauseListIter :=
  ⟨p, cp.watcher.getD (litNegate p) 0⟩

/-- `clause.rs` `impl Iterator for ClauseListIter`: one `next()` call; returns
the yielded clause, if any, and the advanced iterator state. -/
def iterNext (vec : List Clause) (it : ClauseListIter) : Option Clause × ClauseListIter :=
  if it.next_index == NULL_CLAUSE then (none, it)
  else
    let c := vec.getD it.next_index default
    let ni := c.nwI (if c.lit0 == it.target then 0 else 1)
    (some (vec.getD ni default), ⟨it.target, ni⟩)

/-- Drain a `ClauseListIter`, collecting every clause it yields. -/
def iterAll (vec : List Clause) (it : ClauseListIter) : Nat → List Clause
  | 0 => []
  | fuel + 1 =>
    match iterNext vec it with
    | (none, _) => []
    | (some c, it1) => c :: iterAll vec it1 fuel

/-- `clause.rs` `ClauseList::push_garbage` acting on the garbage list head:
returns the new head, the mutated clause and the unlink target (the old
`next_watcher[index]`). -/
def pushGarbage (gHead : Nat) (c : Clause) (index : Nat) : Nat × Clause × Nat :=
  let other := index ^^^ 1
  let c1 := c.setLitI index GARBAGE_LIT
  let next := c1.nwI index
  if c1.litI other == GARBAGE_LIT then (gHead, c1.setNwI index (c1.nwI other), next)
  else (c1.index, c1.setNwI index gHead, next)

/-- Read the slot a `pri` pointer designates: the list head `watcher[l]` or a
clause's `next_watcher` entry. -/
def readPri (cp : ClausePack) (l : Nat) (pri : Option (Nat × Nat)) : Nat :=
  match pri with
  | none => cp.watcher.getD l 0
  | some (cj, k) => (cp.clauses.getD cj default).nwI k

/-- Write the slot a `pri` pointer designates. -/
def writePri (cp : ClausePack) (l : Nat) (pri : Option (Nat × Nat)) (x : Nat) : ClausePack :=
  match pri with
  | none => { cp with watcher := cp.watcher.set l x }
  | some (cj, k) =>
    { cp with clauses := cp.clauses.set cj ((cp.clauses.getD cj default).setNwI k x) }

/-- The slot of a clause whose watched literal's negation is `l`:
`(c.lit[0].negate() != l) as usize` of the source. -/
def slotOf (c : Clause) (l : Nat) : Nat := if litNegate c.lit0 == l then 0 else 1

/-- The unlink sweep of `clause.rs` `GC::garbage_collect` over one touched
watch list `l`: dead clauses are pushed onto the garbage list, live clauses
keep the chain. -/
def sweepLoop (l : Nat) : Nat → ClausePack → Option (Nat × Nat) → Nat → Option ClausePack
  | 0, _, _, _ => none
  | fuel + 1, cp, pri, ci =>
    if ci == NULL_CLAUSE then some cp
    else
      let c := cp.clauses.getD ci default
      if ¬ c.getFlag flagDead then
        let pri1 : Option (Nat × Nat) := some (ci, if litVi c.lit0 == litVi l then 0 else 1)
        sweepLoop l fuel cp pri1 (readPri cp l pri1)
      else
        let index := slotOf c l
        let gIdx := litNegate GARBAGE_LIT
        let r := pushGarbage (cp.watcher.getD gIdx 0) c index
        let cp1 := { cp with clauses := cp.clauses.set ci r.2.1
                             watcher := cp.watcher.set gIdx r.1 }
        let cp2 := writePri cp1 l pri r.2.2
        sweepLoop l fuel cp2 pri r.2.2

/-- The touched-list loop of `garbage_collect`: `for l in 2..watcher.len()`. -/
def gcSweepAll (F : Nat) : Nat → ClausePack → Nat → Option ClausePack
  | 0, cp, _ => some cp
  | k + 1, cp, l =>
    if cp.touched.getD l false then
      let cp1 := { cp with touched := cp.touched.set l false }
      match sweepLoop l F cp1 none (cp1.watcher.getD l 0) with
      | none => none
      | some cp2 => gcSweepAll F k cp2 (l + 1)
    else gcSweepAll F k cp (l + 1)

/-- The recycle phase of `garbage_collect`: walk the garbage list, moving
fully collected clauses (both watch slots GARBAGE) to the recycle list. -/
def recycleLoop : Nat → ClausePack → Option (Nat × Nat) → Nat → Option ClausePack
  | 0, _, _, _ => none
  | fuel + 1, cp, pri, ci =>
    if ci == NULL_CLAUSE then some cp
    else
      let gIdx := litNegate GARBAGE_LIT
      let rIdx := litNegate RECYCLE_LIT
      let c := cp.clauses.getD ci default
      if c.lit0 == GARBAGE_LIT && c.lit1 == GARBAGE_LIT then
        let next := c.nw0
        let cp1 := writePri cp gIdx pri next
        let recycled := cp1.watcher.getD rIdx 0
        let cA := cp1.clauses.getD ci default
        let c1 := ({ cA with lit0 := RECYCLE_LIT, lit1 := RECYCLE_LIT
                             nw0 := recycled, nw1 := recycled }).setFlag flagLocked true
        let cp2 := { cp1 with clauses := cp1.clauses.set ci c1
                              watcher := cp1.watcher.set rIdx ci }
        recycleLoop fuel cp2 pri next
      else
        let index := if c.lit0 == GARBAGE_LIT then 0 else 1
        recycleLoop fuel cp (some (ci, index)) (c.nwI index)

/-- `clause.rs` `GC::garbage_collect`, with fuel `F` bounding both loop
families (the source loops terminate because the watch chains are finite). -/
def garbage_collect (F : Nat) (cp : ClausePack) : Option ClausePack :=
  match gcSweepAll F (cp.watcher.length - 2) cp 2 with
  | none => none
  | some cp1 => recycleLoop F cp1 none (cp1.watcher.getD (litNegate GARBAGE_LIT) 0)

/-- The scratch-array update of `clause.rs` `GC::reset_lbd`: mark a level as
seen under `key` and count it if it is new and non-zero. -/
def lbdFold (vars : List Var) (key : Nat) (acc : List Nat × Nat) (l : Nat) : List Nat × Nat :=
  let lv := (vars.getD (litVi l) default).level
  if acc.1.getD lv 0 != key && lv != 0 then (acc.1.set lv key, acc.2 + 1) else acc

/-- One clause of `clause.rs` `GC::reset_lbd`: skip dead clauses, else count
the clause's distinct non-zero levels into its rank, threading the scratch
array. -/
def resetStep (vars : List Var) (acc : List Clause × List Nat) (i : Nat) :
    List Clause × List Nat :=
  let c := acc.1.getD i default
  if c.getFlag flagDead then acc
  else
    let r := ((c.lit0 :: c.lit1 :: []) ++ c.lits).foldl (lbdFold vars c.index) (acc.2, 0)
    (acc.1.set i { c with rank := r.2 }, r.1)

/-- `clause.rs` `GC::reset_lbd`: recompute each live clause's rank as the
number of distinct non-zero decision levels among its literals
(`for c in &mut self.clauses[1..]`). -/
def reset_lbd (cp : ClausePack) (vars : List Var) : ClausePack :=
  let temp0 : List Nat := List.replicate vars.length 0
  { cp with clauses :=
      (((List.range cp.clauses.length).drop 1).foldl (resetStep vars)
        (cp.clauses, temp0)).1 }

/-- `clause.rs` `GC::new_clause`: recycle a collected record if available,
else allocate a fresh one; insert it at the head of both watch lists. -/
def new_clause (cp : ClausePack) (v : List Nat) (rank : Nat) (learnt locked : Bool) :
    ClausePack × Nat :=
  let rIdx := litNegate RECYCLE_LIT
  if cp.watcher.getD rIdx 0 != NULL_CLAUSE then
    let cix := cp.watcher.getD rIdx 0
    let cOld := cp.clauses.getD cix default
    let watcher1 := cp.watcher.set rIdx cOld.nw0
    let c1 := { cOld with lit0 := v.getD 0 0, lit1 := v.getD 1 0, lits := v.drop 2
                          rank := rank, flags := 0 }
    let c2 := { (c1.setFlag flagLocked locked).setFlag flagLearnt learnt with activity := 0 }
    let w0 := litNegate (v.getD 0 0)
    let w1 := litNegate (v.getD 1 0)
    let c3 := { c2 with nw0 := watcher1.getD w0 0, nw1 := watcher1.getD w1 0 }
    ({ cp with clauses := cp.clauses.set cix c3
               watcher := (watcher1.set w0 cix).set w1 cix }, cp.idFrom cix)
  else
    let c := (Clause.mkNew cp.kind learnt rank v).setFlag flagLocked locked
    let cix := cp.clauses.length
    let w0 := litNegate c.lit0
    let w1 := litNegate c.lit1
    let c1 := { c with index := cix, nw0 := cp.watcher.getD w0 0
                       nw1 := cp.watcher.getD w1 0 }
    ({ cp with clauses := cp.clauses ++ [c1]
               watcher := (cp.watcher.set w0 cix).set w1 cix }, cp.idFrom cix)

/-- Modelled from the spec: the `Solver` record of this snapshot (its
`solver.rs` is absent from `src/`); only fields used by the modelled
`ClauseManagement` and `SolveSAT` functions appear: the three clause packs
indexed by `ClauseKind`, the variable array, the trail with its level
markers, the clause activity increment and the reduction threshold. -/
structure Solver where
  cp : List ClausePack
  vars : List Var
  trail : List Nat
  trail_lim : List Nat
  cla_inc : Rat
  next_reduction : Nat
deriving Repr, DecidableEq

/-- `solver_propagate.rs` `Solver::decision_level` (via `trail_lim.len()`). -/
def decision_level (s : Solver) : Nat := s.trail_lim.length

/-- `clause.rs` `ClauseManagement::bump_cid`: add `cla_inc` to the clause's
activity; if the result exceeds 1e20, scale the activity of every Learnt
clause of the Removable pack and the increment by 1e-20.  `f64` arithmetic is
idealized as exact rational arithmetic: `1.0e20` is exactly representable in
`f64`; `1.0e-20` is idealized by the exact rational. -/
def bump_cid (s : Solver) (cid : Nat) : Solver :=
  let k := toKind cid
  let i := toIndex cid
  let pack := s.cp.getD k default
  let c := pack.clauses.getD i default
  let a := c.activity + s.cla_inc
  let pack1 := { pack with clauses := pack.clauses.set i { c with activity := a } }
  let s1 := { s with cp := s.cp.set k pack1 }
  if (100000000000000000000 : Rat) < a then
    let rem := s1.cp.getD kindRemovable default
    let rem1 := { rem with clauses := rem.clauses.map (fun cl =>
      if cl.getFlag flagLearnt then
        { cl with activity := cl.activity * (1 / 100000000000000000000) }
      else cl) }
    { s1 with cp := s1.cp.set kindRemovable rem1
              cla_inc := s1.cla_inc * (1 / 100000000000000000000) }
  else s1

/-- `solver_propagate.rs` `SolveSAT::enqueue`: assign an unassigned variable,
record level and reason, lock the reason clause and push the trail; on an
assigned variable succeed exactly when the value matches. -/
def enqueue (s : Solver) (l : Nat) (cid : Nat) : Bool × Solver :=
  let sig := litLbool l
  let val := (s.vars.getD (litVi l) default).assign
  if val == BOTTOM then
    let dl := decision_level s
    let v := s.vars.getD (litVi l) default
    let v1 := { v with assign := sig, level := dl, reason := cid }
    let k := toKind cid
    let i := toIndex cid
    let pack := s.cp.getD k default
    let pc := pack.clauses.getD i default
    let pack1 := { pack with clauses := pack.clauses.set i (pc.setFlag flagLocked true) }
    (true, { s with vars := s.vars.set (litVi l) v1, cp := s.cp.set k pack1
                    trail := s.trail ++ [l] })
  else (val == sig, s)

/-- The normalization loop of `clause.rs` `ClauseManagement::add_clause`
over the sorted literal list: returns `none` when the loop returns `true`
early (a satisfied literal or a tautology pair), else the compacted list.
`lastLit` is the variable `l_` of the source. -/
def normClause (vars : List Var) : List Nat → Nat → Option (List Nat)
  | [], _ => some []
  | li :: rest, lastLit =>
    if assigned vars li == LTRUE || litNegate li == lastLit then none
    else if assigned vars li != LFALSE && li != lastLit then
      match normClause vars rest li with
      | none => none
      | some w => some (li :: w)
    else normClause vars rest lastLit

/-- `clause.rs` `ClauseManagement::add_clause`: sort, normalize, then route
by the remaining length (empty: UNSAT, unit: enqueue, otherwise install via
`new_clause` as Binclause exactly when the length is 2, else Permanent).
`v.sort_unstable()` is modelled by insertion sort: on a list of naturals the
sorted permutation is unique, so every correct sort yields the same list. -/
def add_clause (s : Solver) (v : List Nat) : Bool × Solver :=
  let sorted := List.insertionSort (fun a b => a ≤ b) v
  match normClause s.vars sorted NULL_LIT with
  | none => (true, s)
  | some w =>
    let kind := if w.length == 2 then kindBinclause else kindPermanent
    match w with
    | [] => (false, s)
    | [l] => enqueue s l NULL_CLAUSE
    | _ =>
      let r := new_clause (s.cp.getD kind default) w 0 false false
      (true, { s with cp := s.cp.set kind r.1 })

/-- The live, non-locked clause indices collected by
`ClauseManagement::reduce`: `(1..clauses.len()).filter(!Dead && !Locked)`. -/
def reducePerm (pack : ClausePack) : List Nat :=
  ((List.range pack.clauses.length).drop 1).filter (fun i =>
    !(pack.clauses.getD i default).getFlag flagDead &&
    !(pack.clauses.getD i default).getFlag flagLocked)

/-- `clause.rs` `impl Ord for Clause` as a boolean "less or equal": rank
ascending, then activity descending, ties equal. -/
def cmpLe (cls : List Clause) (a b : Nat) : Bool :=
  let ca := cls.getD a default
  let cb := cls.getD b default
  if ca.rank < cb.rank then true
  else if cb.rank < ca.rank then false
  else if cb.activity < ca.activity then true
  else if ca.activity < cb.activity then false
  else true

/-- The permutation after `reduce`'s sort: `permutation[1..].sort_by(cmp)`
leaves the first collected index in place and stably sorts the rest
(`sort_by` is a stable sort; insertion sort with a ties-true comparator is
stable, so the results agree). -/
def reduceSorted (pack : ClausePack) : List Nat :=
  match reducePerm pack with
  | [] => []
  | p0 :: rest => p0 :: List.insertionSort (fun a b => cmpLe pack.clauses a b = true) rest

/-- One iteration of `reduce`'s marking loop: clear JustUsed, or mark Dead
and touch both watched-literal negations. -/
def markStep (pack : ClausePack) (ci : Nat) : ClausePack :=
  let c := pack.clauses.getD ci default
  if c.getFlag flagJustUsed then
    { pack with clauses := pack.clauses.set ci (c.setFlag flagJustUsed false) }
  else
    { pack with clauses := pack.clauses.set ci (c.setFlag flagDead true)
                touched := (pack.touched.set (litNegate c.lit0) true).set
                  (litNegate c.lit1) true }

/-- `clause.rs` `ClauseManagement::reduce` on the Removable pack: collect and
sort the live non-locked indices, mark the worse half, bump `next_reduction`
by 1000 when the median rank is at most 4, garbage collect, recompute LBDs
and add the 200-step (`DB_INC_SIZE`); `none` models the panic on an empty
permutation and garbage-collection fuel exhaustion. -/
def reduce (F : Nat) (s : Solver) : Option Solver :=
  let pack := s.cp.getD kindRemovable default
  match reducePerm pack with
  | [] => none
  | _ :: _ =>
    let permutation := reduceSorted pack
    let nc := permutation.length
    let keep := nc / 2
    let extra := if (pack.clauses.getD (permutation.getD keep 0) default).rank ≤ 4
                 then 1000 else 0
    let pack2 := (permutation.drop keep).foldl markStep pack
    match garbage_collect F pack2 with
    | none => none
    | some pack3 =>
      let pack4 := reset_lbd pack3 s.vars
      some { s with cp := s.cp.set kindRemovable pack4
                    next_reduction := s.next_reduction + extra + 200 }

/-- Following watcher links along literal `l`'s list, as the commented-out
walker in `garbage_collect` does: from clause `ci`, the next clause is
`next_watcher[(lit[0].negate() != l) as usize]`. -/
def nextO (cp : ClausePack) (l ci : Nat) : Nat :=
  (cp.clauses.getD ci default).nwI (slotOf (cp.clauses.getD ci default) l)

/-- `chainO cp l ci sp` holds when `sp` is exactly the sequence of clause
indices reached from `ci` by following `l`'s watcher links down to
`NULL_CLAUSE`. -/
def chainO (cp : ClausePack) (l : Nat) : Nat → List Nat → Bool
  | ci, [] => ci == NULL_CLAUSE
  | ci, cj :: sp => ci == cj && !(ci == NULL_CLAUSE) && chainO cp l (nextO cp l ci) sp

/-- Following the garbage list: from clause `ci` the next garbage clause is
`next_watcher[(lit[0] != GARBAGE_LIT) as usize]`. -/
def nextG (cp : ClausePack) (ci : Nat) : Nat :=
  (cp.clauses.getD ci default).nwI
    (if (cp.clauses.getD ci default).lit0 == GARBAGE_LIT then 0 else 1)

/-- `chainG cp ci sp`: `sp` is the garbage list from `ci`. -/
def chainG (cp : ClausePack) : Nat → List Nat → Bool
  | ci, [] => ci == NULL_CLAUSE
  | ci, cj :: sp => ci == cj && !(ci == NULL_CLAUSE) && chainG cp (nextG cp ci) sp

/-- Well-formedness of one element `cj` of literal `l`'s watch list: a real
clause index whose `slotOf`-slot watches `l` honestly (`lit[slot] = l.negate()`
and `lit[0] ≠ l`, so the vi-based and negate-based slot computations agree),
and whose other watched literal is a real literal while the clause is live. -/
structure EElem (cp : ClausePack) (l cj : Nat) : Prop where
  ne : cj ≠ NULL_CLAUSE
  lt : cj < cp.clauses.length
  idx : (cp.clauses.getD cj default).index = cj
  l0 : (cp.clauses.getD cj default).lit0 ≠ l
  watch : (cp.clauses.getD cj default).litI (slotOf (cp.clauses.getD cj default) l)
    = litNegate l
  live2 : (cp.clauses.getD cj default).getFlag flagDead = false →
    2 ≤ (cp.clauses.getD cj default).litI (slotOf (cp.clauses.getD cj default) l ^^^ 1)

/-- Invariant of the garbage list during collection: it is a chain from the
garbage head, without duplicates, of dead clauses each carrying at least one
`GARBAGE_LIT` watch slot, and conversely every clause with a `GARBAGE_LIT`
watch slot is on it. -/
structure GInv (cp : ClausePack) (gsp : List Nat) : Prop where
  chain : chainG cp (cp.watcher.getD (litNegate GARBAGE_LIT) 0) gsp = true
  nodup : gsp.Nodup
  elems : ∀ d ∈ gsp, d ≠ NULL_CLAUSE ∧ d < cp.clauses.length ∧
    (cp.clauses.getD d default).getFlag flagDead = true ∧
    ((cp.clauses.getD d default).lit0 = GARBAGE_LIT ∨
     (cp.clauses.getD d default).lit1 = GARBAGE_LIT)
  char : ∀ cj, cj < cp.clauses.length →
    ((cp.clauses.getD cj default).lit0 = GARBAGE_LIT ∨
     (cp.clauses.getD cj default).lit1 = GARBAGE_LIT) → cj ∈ gsp

/-- The `pri` cursor of the sweep points at the slot whose current value is
`ci`, and when it designates a clause slot that clause is outside both the
unprocessed tail and the garbage list. -/
structure PriOK (cp : ClausePack) (l : Nat) (pri : Option (Nat × Nat))
    (sp gsp : List Nat) (ci : Nat) : Prop where
  read : readPri cp l pri = ci
  fresh : ∀ c0 k0, pri = some (c0, k0) → c0 ∉ sp ∧ c0 ∉ gsp ∧
    c0 < cp.clauses.length ∧ c0 ≠ NULL_CLAUSE
  slot : ∀ c0 k0, pri = some (c0, k0) → k0 = 0 ∨ k0 = 1

/-- What one sweep of list `l` may and may not change, relative to the
unprocessed tail `sp` and the cursor `pri`. -/
structure SweepFrame (cp cp' : ClausePack) (l : Nat) (sp : List Nat)
    (pri : Option (Nat × Nat)) : Prop where
  clen : cp'.clauses.length = cp.clauses.length
  wlen : cp'.watcher.length = cp.watcher.length
  tch : cp'.touched = cp.touched
  watcher : ∀ w, w ≠ litNegate GARBAGE_LIT → (pri = none → w ≠ l) →
    cp'.watcher.getD w 0 = cp.watcher.getD w 0
  flags : ∀ cj, (cp'.clauses.getD cj default).flags = (cp.clauses.getD cj default).flags
  idx : ∀ cj, (cp'.clauses.getD cj default).index = (cp.clauses.getD cj default).index
  untouched : ∀ cj, cj ∉ sp → (∀ c0 k0, pri = some (c0, k0) → cj ≠ c0) →
    cp'.clauses.getD cj default = cp.clauses.getD cj default
  priHolder : ∀ c0 k0, pri = some (c0, k0) →
    (cp'.clauses.getD c0 default).lit0 = (cp.clauses.getD c0 default).lit0 ∧
    (cp'.clauses.getD c0 default).lit1 = (cp.clauses.getD c0 default).lit1 ∧
    ∀ k, k = 0 ∨ k = 1 → k ≠ k0 →
      (cp'.clauses.getD c0 default).nwI k = (cp.clauses.getD c0 default).nwI k
  spLive : ∀ cj ∈ sp, (cp.clauses.getD cj default).getFlag flagDead = false →
    (cp'.clauses.getD cj default).lit0 = (cp.clauses.getD cj default).lit0 ∧
    (cp'.clauses.getD cj default).lit1 = (cp.clauses.getD cj default).lit1 ∧
    ∀ k, k = 0 ∨ k = 1 → k ≠ slotOf (cp.clauses.getD cj default) l →
      (cp'.clauses.getD cj default).nwI k = (cp.clauses.getD cj default).nwI k
  spDead : ∀ cj ∈ sp, (cp.clauses.getD cj default).getFlag flagDead = true →
    (cp'.clauses.getD cj default).litI (slotOf (cp.clauses.getD cj default) l)
      = GARBAGE_LIT ∧
    (cp'.clauses.getD cj default).litI (slotOf (cp.clauses.getD cj default) l ^^^ 1)
      = (cp.clauses.getD cj default).litI (slotOf (cp.clauses.getD cj default) l ^^^ 1) ∧
    ∀ k, k = 0 ∨ k = 1 → k ≠ slotOf (cp.clauses.getD cj default) l →
      (cp'.clauses.getD cj default).nwI k = (cp.clauses.getD cj default).nwI k

/-- A fully processed watch list: a duplicate-free chain of live well-formed
clauses from the list head. -/
structure CleanChain (cp : ClausePack) (j : Nat) (sp : List Nat) : Prop where
  chain : chainO cp j (cp.watcher.getD j 0) sp = true
  nodup : sp.Nodup
  live : ∀ cj ∈ sp, (cp.clauses.getD cj default).getFlag flagDead = false
  elems : ∀ cj ∈ sp, EElem cp j cj

/-- The invariant of `garbage_collect`'s touched-list loop just before list
`l` is processed: lists below `l` are clean, lists at or above `l` are
well-formed chains whose dead members are covered by their `touched` bit,
and the garbage list satisfies its invariant. -/
structure AllInv (cp : ClausePack) (W l : Nat) (spines : Nat → List Nat)
    (gsp : List Nat) : Prop where
  wlen : cp.watcher.length = W
  tlen : cp.touched.length = cp.watcher.length
  ginv : GInv cp gsp
  done : ∀ j, 2 ≤ j → j < W → j < l → CleanChain cp j (spines j)
  todo : ∀ j, 2 ≤ j → j < W → l ≤ j →
    chainO cp j (cp.watcher.getD j 0) (spines j) = true ∧ (spines j).Nodup ∧
    (∀ cj ∈ spines j, EElem cp j cj) ∧
    (∀ cj ∈ spines j, (cp.clauses.getD cj default).getFlag flagDead = true →
      cp.touched.getD j false = true)

/-- `clause.rs` `Clause::null`: the placeholder stored at index 0 of every
pack (`RANK_NULL = 0`). -/
def nullClause : Clause :=
  { index := 0, lit0 := NULL_LIT, lit1 := NULL_LIT, nw0 := NULL_CLAUSE,
    nw1 := NULL_CLAUSE, lits := [], rank := 0, flags := 0, activity := 0 }

/-- Example pack: literal 2's watch list (head `watcher[3]`) holds clause 1
then clause 2; both clauses watch literal 2 in slot 0. -/
def exPack9 : ClausePack :=
  { kind := kindPermanent
    clauses := [nullClause,
      { index := 1, lit0 := 2, lit1 := 4, nw0 := 2, nw1 := NULL_CLAUSE,
        lits := [], rank := 1, flags := kindPermanent, activity := 0 },
      { index := 2, lit0 := 2, lit1 := 6, nw0 := NULL_CLAUSE, nw1 := NULL_CLAUSE,
        lits := [], rank := 1, flags := kindPermanent, activity := 0 }]
    touched := List.replicate 8 false
    permutation := []
    watcher := [0, 0, 0, 1, 0, 0, 0, 0] }

/-- Example clause: a Permanent (non-Learnt) clause whose activity sits at
the overflow threshold. -/
def exPermClause : Clause :=
  { index := 1, lit0 := 2, lit1 := 4, nw0 := NULL_CLAUSE, nw1 := NULL_CLAUSE,
    lits := [], rank := 1, flags := kindPermanent, activity := 100000000000000000000 }

/-- Example clause: a Learnt Removable clause (flag bit 4) whose activity
sits at the overflow threshold. -/
def exLearntClause : Clause :=
  { index := 1, lit0 := 2, lit1 := 4, nw0 := NULL_CLAUSE, nw1 := NULL_CLAUSE,
    lits := [], rank := 2, flags := 16, activity := 100000000000000000000 }

/-- Example solver: the Permanent pack holds `exPermClause` at index 1;
bumping it overflows the threshold. -/
def exSolver7 : Solver :=
  { cp := [⟨kindRemovable, [nullClause], [], [], []⟩,
           ⟨kindPermanent, [nullClause, exPermClause], [], [], []⟩,
           ⟨kindBinclause, [nullClause], [], [], []⟩]
    vars := [], trail := [], trail_lim := [], cla_inc := 1, next_reduction := 0 }

/-- Example solver: the Removable pack holds `exLearntClause` at index 1;
bumping it with increment `1e20` overflows the threshold. -/
def exSolver7r : Solver :=
  { cp := [⟨kindRemovable, [nullClause, exLearntClause], [], [], []⟩,
           ⟨kindPermanent, [nullClause], [], [], []⟩,
           ⟨kindBinclause, [nullClause], [], [], []⟩]
    vars := [], trail := [], trail_lim := [], cla_inc := 100000000000000000000,
    next_reduction := 0 }

/-- Modelled from the spec: remove duplicates of a sorted literal list by
comparing each literal against the last kept one (the "dedupe" step of the
spec's `add_clause` normalization); the initial comparand is `NULL_LIT`,
matching the loop variable initialization. -/
def dedupAdjFrom : Nat → List Nat → List Nat
  | _, [] => []
  | lastLit, x :: xs =>
    if x == lastLit then dedupAdjFrom lastLit xs else x :: dedupAdjFrom x xs

/-- Modelled from the spec: `add_clause` normalization as the spec describes
it — sort the literals; report `none` (clause can be dropped) when some
literal is already satisfied or the clause is a tautology (contains a
literal and its negation); otherwise drop falsified literals and duplicate
literals. -/
def specNormalize (vars : List Var) (v : List Nat) : Option (List Nat) :=
  let sorted := List.insertionSort (fun a b => a ≤ b) v
  if sorted.any (fun l => assigned vars l == LTRUE)
      || sorted.any (fun l => sorted.contains (litNegate l)) then none
  else some (dedupAdjFrom NULL_LIT (sorted.filter (fun l => !(assigned vars l == LFALSE))))

/-- Example Removable pack for exercising `reduce`: four live non-locked
Learnt binary clauses over variables 1-4, all of rank 5 and activity 0, with
consistent intrusive watch lists (for each clause and slot `k`,
`next_watcher[k]` continues the list `watcher[lit[k].negate()]`). -/
def exPack3 : ClausePack :=
  { kind := kindRemovable
    clauses := [nullClause,
      ⟨1, 2, 4, 2, 3, [], 5, 16, 0⟩, ⟨2, 2, 6, 4, 3, [], 5, 16, 0⟩,
      ⟨3, 4, 6, 0, 0, [], 5, 16, 0⟩, ⟨4, 8, 2, 0, 0, [], 5, 16, 0⟩]
    touched := List.replicate 10 false
    permutation := []
    watcher := [0, 0, 0, 1, 0, 1, 0, 2, 0, 4] }

/-- Example solver around `exPack3`; all five variables unassigned at level
0, so the recomputed LBD ranks are 0. -/
def exSolver3 : Solver :=
  { cp := [exPack3,
           ⟨kindPermanent, [nullClause], [], [], []⟩,
           ⟨kindBinclause, [nullClause], [], [], []⟩]
    vars := List.replicate 5 default, trail := [], trail_lim := [], cla_inc := 1,
    next_reduction := 0 }

/-- Example pack for garbage collection: clause 1 (watching lists 3 and 5) is
Dead with both lists touched; clause 2 (watching lists 3 and 4) is live. -/
def exPack4 : ClausePack :=
  { kind := kindPermanent
    clauses := [nullClause,
      ⟨1, 2, 4, 2, 0, [], 1, 4, 0⟩,
      ⟨2, 2, 5, 0, 0, [], 1, 0, 0⟩]
    touched := [false, false, false, true, false, true]
    permutation := []
    watcher := [0, 0, 0, 1, 2, 1] }

/-- The watch-list spines of `exPack4`. -/
def exSpines4 : Nat → List Nat :=
  fun j => if j = 3 then [1, 2] else if j = 4 then [2] else if j = 5 then [1] else []

/-- Example solver for exercising `add_clause`: three empty packs and three
unassigned variables. -/
def exSolver8 : Solver :=
  { cp := [⟨kindRemovable, [nullClause], [], [], []⟩,
           ⟨kindPermanent, [nullClause], [], [], []⟩,
           ⟨kindBinclause, [nullClause], [], [], []⟩]
    vars := List.replicate 3 default, trail := [], trail_lim := [], cla_inc := 1,
    next_reduction := 0 }

end M


namespace A

/-- `types.rs`: `pub const NULL_LIT: Lit = 0`. -/
def NULL_LIT : Nat := 0

/-- `search.rs` uses `self.vars[vi].level / .reason / .assign` and an activity;
the record mirrors the solver's per-variable data used by `analyze`. -/
structure AVar where
  assign : Nat
  level : Nat
  reason : Nat
  activity : Rat
deriving Repr, DecidableEq

instance : Inhabited AVar := ⟨⟨BOTTOM, 0, NULL_CLAUSE, 0⟩⟩

/-- A clause of the single clause vector of `search.rs` (`self.clauses[ci]`):
`rank` (LBD), literals, and an activity. -/
structure AClause where
  activity : Rat
  rank : Nat
  lits : List Nat
deriving Repr, DecidableEq

instance : Inhabited AClause := ⟨⟨0, 0, []⟩⟩

/-- The solver state touched by `Solver::analyze` (search.rs:168-313). -/
structure ASolver where
  vars : List AVar
  clauses : List AClause
  trail : List Nat
  trailLim : List Nat
  anSeen : List Nat
  anLearntLits : List Nat
  anStack : List Nat
  anToClear : List Nat
  anLastDl : List Nat
  varInc : Rat
  claInc : Rat
deriving Repr, DecidableEq

/-- Modelled from the spec (this snapshot's solver.rs is absent from src):
`bump_vi` adds the variable-activity increment to the variable's activity. -/
def ASolver.bump_vi (s : ASolver) (vi : Nat) : ASolver :=
  let v := s.vars.getD vi default
  { s with vars := s.vars.set vi { v with activity := v.activity + s.varInc } }

/-- Modelled from the spec (solver.rs absent from src): `bump_ci` adds the
clause-activity increment to the clause's activity. -/
def ASolver.bump_ci (s : ASolver) (ci : Nat) : ASolver :=
  let c := s.clauses.getD ci default
  { s with clauses := s.clauses.set ci { c with activity := c.activity + s.claInc } }

/-- Modelled from the spec (the A-era `lbd_of` body is absent from src; the
clause.rs:650 one belongs to the pack-era solver): the LBD of a literal list is
the number of distinct nonzero decision levels among its variables. -/
def lbd_of (s : ASolver) (lits : List Nat) : Nat :=
  (((lits.map (fun l => (s.vars.getD (litVi l) default).level)).filter
    (fun lv => lv != 0)).dedup).length

/-- The seen/learnt marking pass of `analyze` over one clause's literals
(search.rs:195-223), threading the backtrack level `b` and `path_cnt`. -/
def analyzeScan (dl : Nat) : List Nat → ASolver → Nat → Int → ASolver × Nat × Int
  | [], s, b, pc => (s, b, pc)
  | q :: rest, s, b, pc =>
    let vi := litVi q
    let l := (s.vars.getD vi default).level
    if s.anSeen.getD vi 0 == 0 && decide (0 < l) then
      let s1 := s.bump_vi vi
      let s2 := { s1 with anSeen := s1.anSeen.set vi 1 }
      if dl ≤ l then
        let s3 := if 0 < (s2.vars.getD vi default).reason then
            { s2 with anLastDl := s2.anLastDl ++ [q] } else s2
        analyzeScan dl rest s3 b (pc + 1)
      else
        analyzeScan dl rest { s2 with anLearntLits := s2.anLearntLits ++ [q] } (max b l) pc
    else analyzeScan dl rest s b pc

/-- The trail walk `while an_seen[trail[ti].vi()] == 0 { ti -= 1 }`
(search.rs:225-231), returning the index found. -/
def findSeen (s : ASolver) : Nat → Option Nat
  | 0 => if s.anSeen.getD (litVi (s.trail.getD 0 0)) 0 == 0 then none else some 0
  | ti + 1 => if s.anSeen.getD (litVi (s.trail.getD (ti + 1) 0)) 0 == 0 then findSeen s ti
      else some (ti + 1)

/-- The main resolution loop of `analyze` (search.rs:181-245), with fuel:
bump / re-rank the clause, scan its literals, walk the trail to the next seen
literal `p`, clear its mark, and stop when `path_cnt` drops to zero; returns
the state, the final `p` and the backtrack level `b`. -/
def analyzeLoop (dl : Nat) : Nat → ASolver → Nat → Nat → Nat → Nat → Int →
    Option (ASolver × Nat × Nat)
  | 0, _, _, _, _, _, _ => none
  | fuel + 1, s, ci, p, ti, b, pc =>
    let c := s.clauses.getD ci default
    let d := c.rank
    let s1 := if 0 < d then
        let sA := s.bump_ci ci
        let nblevel := lbd_of sA c.lits
        if 2 < d && decide (nblevel + 1 < d) then
          { sA with clauses := sA.clauses.set ci { (sA.clauses.getD ci default) with rank := nblevel } }
        else sA
      else s
    let r := analyzeScan dl (c.lits.drop (if p == NULL_LIT then 0 else 1)) s1 b pc
    match findSeen r.1 ti with
    | none => none
    | some ti2 =>
      let p2 := r.1.trail.getD ti2 0
      let vi2 := litVi p2
      let ci2 := (r.1.vars.getD vi2 default).reason
      let s3 := { r.1 with anSeen := r.1.anSeen.set vi2 0 }
      let pc3 := r.2.2 - 1
      if pc3 ≤ 0 then some (s3, p2, r.2.1)
      else analyzeLoop dl fuel s3 ci2 p2 (ti2 - 1) r.2.1 pc3

/-- The level bitmap of the simplify phase (search.rs:262-267):
`level_map[level % 256] = true` for each kept literal. -/
def buildLevelMap (s : ASolver) : List Bool :=
  (s.anLearntLits.drop 1).foldl
    (fun m l => m.set ((s.vars.getD (litVi l) default).level % 256) true)
    (List.replicate 256 false)

/-- The seen-mark unwinding of `analyze_removable`'s failure path
(search.rs:337-341): pop `an_to_clear` down to `top1`, clearing marks. -/
def clearTo (top1 : Nat) : Nat → ASolver → ASolver
  | 0, s => s
  | k + 1, s =>
    let l := s.anToClear.getLast?.getD 0
    clearTo top1 k { s with anToClear := s.anToClear.dropLast, anSeen := s.anSeen.set (litVi l) 0 }

/-- The inner literal scan of `analyze_removable` (search.rs:327-343): mark and
push unseen literals with a reason and a mapped level, or fail and unwind. -/
def removableScan (levelMap : List Bool) (top1 : Nat) : List Nat → ASolver → ASolver × Bool
  | [], s => (s, true)
  | q :: rest, s =>
    let vi := litVi q
    let lv := (s.vars.getD vi default).level % 256
    if s.anSeen.getD vi 0 != 1 && lv != 0 then
      if (s.vars.getD vi default).reason != NULL_CLAUSE && levelMap.getD lv false then
        removableScan levelMap top1 rest { s with anSeen := s.anSeen.set vi 1, anStack := s.anStack ++ [q], anToClear := s.anToClear ++ [q] }
      else (clearTo top1 (s.anToClear.length - top1) s, false)
    else removableScan levelMap top1 rest s

/-- The stack loop of `analyze_removable` (search.rs:318-345), with fuel. -/
def removableLoop (levelMap : List Bool) (top1 : Nat) : Nat → ASolver →
    Option (ASolver × Bool)
  | 0, _ => none
  | fuel + 1, s =>
    match s.anStack.getLast? with
    | none => some (s, true)
    | some sl =>
      let s0 := { s with anStack := s.anStack.dropLast }
      let ci := (s0.vars.getD (litVi sl) default).reason
      let c := s0.clauses.getD ci default
      let r := removableScan levelMap top1 c.lits s0
      if r.2 then removableLoop levelMap top1 fuel r.1
      else some (r.1, false)

/-- `Solver::analyze_removable` (search.rs:314-346): clear the stack, push the
candidate, remember the `an_to_clear` watermark, and run the stack loop. -/
def analyze_removable (fuel : Nat) (s : ASolver) (l : Nat) (levelMap : List Bool) :
    Option (ASolver × Bool) :=
  removableLoop levelMap s.anToClear.length fuel { s with anStack := [l] }

/-- The in-place compaction loop of the simplify phase (search.rs:270-287):
keep position `i` (moving it to `j`) when its variable is a decision or not
removable; on `i = n` truncate to `j + 1` and return `j`. -/
def simplifyLoop (levelMap : List Bool) (rfuel : Nat) (n : Nat) :
    Nat → Nat → Nat → ASolver → Option (ASolver × Nat)
  | 0, _, _, _ => none
  | fuel + 1, i, j, s =>
    if i == n then some ({ s with anLearntLits := s.anLearntLits.take (j + 1) }, j)
    else
      let l := s.anLearntLits.getD i 0
      if (s.vars.getD (litVi l) default).reason == NULL_CLAUSE then
        simplifyLoop levelMap rfuel n fuel (i + 1) (j + 1)
          { s with anLearntLits := s.anLearntLits.set j l }
      else
        match analyze_removable rfuel s l levelMap with
        | none => none
        | some (s2, rem) =>
          if !rem then
            simplifyLoop levelMap rfuel n fuel (i + 1) (j + 1)
              { s2 with anLearntLits := s2.anLearntLits.set j l }
          else simplifyLoop levelMap rfuel n fuel (i + 1) j s2

/-- The glucose heuristic pass (search.rs:290-299): re-bump variables of
`an_last_dl` whose reason clause is longer than the learnt clause. -/
def glucoseBump : List Nat → ASolver → Nat → ASolver
  | [], s, _ => s
  | l :: rest, s, r =>
    let vi := litVi l
    let ci := (s.vars.getD vi default).reason
    let len := (s.clauses.getD ci default).lits.length
    glucoseBump rest (if r < len then s.bump_vi vi else s) r

/-- The final seen-clearing pass over `an_to_clear` (search.rs:301-303). -/
def clearSeen : List Nat → ASolver → ASolver
  | [], s => s
  | l :: rest, s => clearSeen rest { s with anSeen := s.anSeen.set (litVi l) 0 }

/-- `Solver::analyze` (search.rs:168-313), with fuel: reset marks, run the
resolution loop from the conflict clause, install the asserting literal at
position 0, run the simplify phase, the glucose pass, and the cleanup; returns
the backtrack level and the learnt clause. -/
def analyze (fuel : Nat) (s : ASolver) (confl : Nat) :
    Option (ASolver × Nat × List Nat) :=
  let s0 := { s with anSeen := s.anSeen.map (fun _ => 0), anLearntLits := [0] }
  let dl := s0.trailLim.length
  match analyzeLoop dl fuel s0 confl NULL_LIT (s0.trail.length - 1) 0 0 with
  | none => none
  | some (s1, p, b) =>
    let s2 := { s1 with anLearntLits := s1.anLearntLits.set 0 (litNegate p) }
    let n := s2.anLearntLits.length
    let l0 := s2.anLearntLits.getD 0 0
    let s3 := { s2 with anStack := [], anToClear := l0 :: s2.anLearntLits.drop 1 }
    let levelMap := buildLevelMap s2
    match simplifyLoop levelMap fuel n (n + 1) 1 1 s3 with
    | none => none
    | some (s4, j) =>
      let s5 := { s4 with anLearntLits := s4.anLearntLits.take j }
      let r := s5.anLearntLits.length
      let s6 := glucoseBump s5.anLastDl s5 r
      let s7 := { s6 with anLastDl := [] }
      let s8 := clearSeen s7.anToClear s7
      some (s8, b, s8.anLearntLits)

/-- The number of marked variables at the conflict decision level: the main
loop's `path_cnt` counts exactly these. -/
def seenDlCard (vars0 : List AVar) (seen : List Nat) (dl : Nat) : Nat :=
  ((List.range vars0.length).filter
    (fun vi => seen.getD vi 0 == 1 && ((vars0.getD vi default).level == dl))).length

/-- Coherence of an intermediate `analyze` state with the entry state: the
fields `analyze` never changes (levels, reasons, trail, clause literals) and
the seen-array length. -/
structure SCo (s0 s : ASolver) : Prop where
  lev : ∀ x, (s.vars.getD x default).level = (s0.vars.getD x default).level
  rsn : ∀ x, (s.vars.getD x default).reason = (s0.vars.getD x default).reason
  vlen : s.vars.length = s0.vars.length
  trail : s.trail = s0.trail
  tlim : s.trailLim = s0.trailLim
  slen : s.anSeen.length = s0.vars.length
  cl : ∀ x, (s.clauses.getD x default).lits = (s0.clauses.getD x default).lits

/-- The seen-array invariant of the resolution loop: marks are 0/1 and every
marked variable sits on the trail at or below the walk cursor. -/
structure SInv (s0 s : ASolver) (ti : Nat) : Prop where
  vals : ∀ x, s.anSeen.getD x 0 = 0 ∨ s.anSeen.getD x 0 = 1
  pos : ∀ x, s.anSeen.getD x 0 = 1 → ∃ j, j ≤ ti ∧ j < s0.trail.length ∧
    litVi (s0.trail.getD j 0) = x

/-- The learnt-literal invariant: the list is `0 :: tail` and every tail
literal has a positive level bounded by the running backtrack level `b`,
itself below the conflict level. -/
structure LInv (s0 s : ASolver) (b : Nat) : Prop where
  shape : ∃ t, s.anLearntLits = 0 :: t ∧ ∀ l ∈ t,
    0 < (s0.vars.getD (litVi l) default).level ∧
    (s0.vars.getD (litVi l) default).level ≤ b
  blt : b < s0.trailLim.length

/-- Precondition on a literal list scanned by the resolution loop: every
variable is in bounds and on the trail at or below the walk cursor. -/
def ScanOK (s0 : ASolver) (ti : Nat) (L : List Nat) : Prop :=
  ∀ q ∈ L, litVi q < s0.vars.length ∧
    ∃ j, j ≤ ti ∧ j < s0.trail.length ∧ litVi (s0.trail.getD j 0) = litVi q


/-- Witness solver for analyze: three variables all assigned at level 1
(trail [2, 4, 6], decision literal 2), reason clauses 1 and 2, and conflict
clause 3 = [3, 7]. -/
def exAnSolver : ASolver :=
  { vars := [default, ⟨1, 1, 0, 0⟩, ⟨1, 1, 1, 0⟩, ⟨1, 1, 2, 0⟩],
    clauses := [⟨0, 0, []⟩, ⟨0, 0, [4, 3]⟩, ⟨0, 0, [6, 5]⟩, ⟨0, 0, [3, 7]⟩],
    trail := [2, 4, 6],
    trailLim := [0],
    anSeen := [0, 0, 0, 0],
    anLearntLits := [],
    anStack := [],
    anToClear := [],
    anLastDl := [],
    varInc := 1,
    claInc := 1 }

end A

end Splr

namespace Splr

/-! ### Basic list lemmas -/

theorem getD_set_self {l : List Nat} {i : Nat} (a : Nat) (h : i < l.length) :
    (l.set i a).getD i 0 = a := by
  simp [List.getD, List.getElem?_set, h]

theorem getD_set_ne {l : List Nat} {i j : Nat} (a : Nat) (h : i ≠ j) :
    (l.set i a).getD j 0 = l.getD j 0 := by
  simp [List.getD, List.getElem?_set, h]

theorem getDv_set_self {α : Type} {l : List α} {i : Nat} (a d : α) (h : i < l.length) :
    (l.set i a).getD i d = a := by
  simp [List.getD, List.getElem?_set, h]

theorem getDv_set_ne {α : Type} {l : List α} {i j : Nat} (a d : α) (h : i ≠ j) :
    (l.set i a).getD j d = l.getD j d := by
  simp [List.getD, List.getElem?_set, h]

theorem getDv_map {α β : Type} (f : α → β) {l : List α} {j : Nat} (d : β) (d0 : α)
    (h : j < l.length) : (l.map f).getD j d = f (l.getD j d0) := by
  simp [List.getD, List.getElem?_map, List.getElem?_eq_getElem h]

theorem getDv_set_set {α : Type} {l : List α} {i : Nat} (a b d : α) (h : i < l.length) :
    ((l.set i a).set i b).getD i d = b := by
  apply getDv_set_self
  rw [List.length_set]
  exact h

/-! ### Literal arithmetic -/

theorem litNegate_two_mul (k : Nat) : litNegate (2 * k) = 2 * k + 1 := by
  have h1 : (2 * k) = Nat.bit false k := by simp [Nat.bit]
  have h2 : (1 : Nat) = Nat.bit true 0 := rfl
  rw [litNegate, h1, h2, Nat.xor_bit]
  simp [Nat.bit]

theorem litNegate_two_mul_add_one (k : Nat) : litNegate (2 * k + 1) = 2 * k := by
  have h1 : (2 * k + 1) = Nat.bit true k := by simp [Nat.bit]
  have h2 : (1 : Nat) = Nat.bit true 0 := rfl
  rw [litNegate, h1, h2, Nat.xor_bit]
  simp [Nat.bit]

theorem litNegate_parts (l : Nat) :
    (l % 2 = 0 ∧ litNegate l = l + 1) ∨ (l % 2 = 1 ∧ l = litNegate l + 1) := by
  rcases Nat.mod_two_eq_zero_or_one l with h | h
  · left
    refine ⟨h, ?_⟩
    obtain ⟨k, hk⟩ : ∃ k, l = 2 * k := ⟨l / 2, by omega⟩
    subst hk
    exact litNegate_two_mul k
  · right
    refine ⟨h, ?_⟩
    obtain ⟨k, hk⟩ : ∃ k, l = 2 * k + 1 := ⟨l / 2, by omega⟩
    subst hk
    rw [litNegate_two_mul_add_one]

theorem litNegate_invol (l : Nat) : litNegate (litNegate l) = l :=
  Nat.xor_cancel_right 1 l

theorem litNegate_ne (l : Nat) : litNegate l ≠ l := by
  have := litNegate_parts l
  omega

theorem litVi_negate (l : Nat) : litVi (litNegate l) = litVi l := by
  have := litNegate_parts l
  unfold litVi
  omega

namespace P

/-! ### Heap lemmas for cancel_until -/

theorem base_ok {N vq : Nat} {heap idxs : List Nat} {q : Nat}
    (H : PUpInv N vq heap idxs q) :
    HeapOk N (heap.set q vq) (idxs.set vq q) ∧
    (idxs.set vq q).getD 0 0 = idxs.getD 0 0 ∧
    (idxs.set vq q).getD vq 0 ≤ q ∧
    (∀ v, 1 ≤ v → v ≤ N → (idxs.set vq q).getD v 0 ≤ max q (idxs.getD v 0)) := by
  obtain ⟨hlen, ilen, hq1, hqN, hvq1, hvqN, hval, linv, rinv, finj⟩ := H
  have hqh : q < heap.length := by omega
  have hvi : vq < idxs.length := by omega
  refine ⟨⟨by simp [hlen], by simp [ilen], ?_, ?_, ?_⟩, ?_, ?_, ?_⟩
  · intro j h1 hN
    by_cases hj : j = q
    · rw [hj, getD_set_self vq hqh]; exact ⟨hvq1, hvqN⟩
    · rw [getD_set_ne vq (Ne.symm hj)]; exact hval j h1 hN
  · intro j h1 hN
    by_cases hj : j = q
    · rw [hj, getD_set_self vq hqh, getD_set_self q hvi]
    · rw [getD_set_ne vq (Ne.symm hj)]
      have hne : heap.getD j 0 ≠ vq := by
        intro he
        apply hj
        apply finj j q h1 hN hq1 hqN
        simp only [fOf, if_neg hj, if_pos rfl]
        exact he
      rw [getD_set_ne q (Ne.symm hne)]
      exact linv j h1 hN hj
  · intro v h1 hN
    by_cases hv : v = vq
    · rw [hv, getD_set_self q hvi]
      exact ⟨hq1, hqN, by rw [getD_set_self vq hqh]⟩
    · rw [getD_set_ne q (Ne.symm hv)]
      obtain ⟨b1, b2, hf⟩ := rinv v h1 hN hv
      have hne : idxs.getD v 0 ≠ q := by
        intro he
        rw [he] at hf
        simp only [fOf, if_pos rfl] at hf
        exact hv hf.symm
      refine ⟨b1, b2, ?_⟩
      rw [getD_set_ne vq (Ne.symm hne)]
      simp only [fOf, if_neg hne] at hf
      exact hf
  · rw [getD_set_ne q (by omega : vq ≠ 0)]
  · rw [getD_set_self q hvi]
  · intro v h1 hN
    by_cases hv : v = vq
    · rw [hv, getD_set_self q hvi]; exact le_max_left _ _
    · rw [getD_set_ne q (Ne.symm hv)]; exact le_max_right _ _

theorem step_inv {N vq : Nat} {heap idxs : List Nat} {q : Nat}
    (H : PUpInv N vq heap idxs q) (h0 : q / 2 ≠ 0) :
    PUpInv N vq (heap.set q (heap.getD (q / 2) 0))
      (idxs.set (heap.getD (q / 2) 0) q) (q / 2) := by
  obtain ⟨hlen, ilen, hq1, hqN, hvq1, hvqN, hval, linv, rinv, finj⟩ := H
  set p := q / 2 with hp
  set vp := heap.getD p 0 with hvp
  have hpq : p ≠ q := by omega
  have hp1 : 1 ≤ p := by omega
  have hpN : p ≤ N := by omega
  have hvpb : 1 ≤ vp ∧ vp ≤ N := hval p hp1 hpN
  have hqh : q < heap.length := by omega
  have hvpi : vp < idxs.length := by omega
  have hvpvq : vp ≠ vq := by
    intro he
    apply hpq
    apply finj p q hp1 hpN hq1 hqN
    simp only [fOf, if_neg hpq, if_pos rfl]
    rw [← hvp]
    exact he
  refine ⟨by simp [hlen], by simp [ilen], hp1, hpN, hvq1, hvqN, ?_, ?_, ?_, ?_⟩
  · intro j h1 hN
    by_cases hj : j = q
    · rw [hj, getD_set_self vp hqh]; exact hvpb
    · rw [getD_set_ne vp (Ne.symm hj)]; exact hval j h1 hN
  · intro j h1 hN hjp
    by_cases hj : j = q
    · rw [hj, getD_set_self vp hqh, getD_set_self q hvpi]
    · rw [getD_set_ne vp (Ne.symm hj)]
      have hne : heap.getD j 0 ≠ vp := by
        intro he
        apply hjp
        apply finj j p h1 hN hp1 hpN
        simp only [fOf, if_neg hj, if_neg hpq]
        rw [he, hvp]
      rw [getD_set_ne q (Ne.symm hne)]
      exact linv j h1 hN hj
  · intro v h1 hN hv
    by_cases hvvp : v = vp
    · rw [hvvp, getD_set_self q hvpi]
      refine ⟨hq1, hqN, ?_⟩
      simp only [fOf, if_neg (Ne.symm hpq)]
      rw [getD_set_self vp hqh]
    · rw [getD_set_ne q (Ne.symm hvvp)]
      obtain ⟨b1, b2, hf⟩ := rinv v h1 hN hv
      have hneq : idxs.getD v 0 ≠ q := by
        intro he
        rw [he] at hf
        simp only [fOf, if_pos rfl] at hf
        exact hv hf.symm
      have hnep : idxs.getD v 0 ≠ p := by
        intro he
        rw [he] at hf
        simp only [fOf, if_neg hpq] at hf
        apply hvvp
        rw [← hf, hvp]
      refine ⟨b1, b2, ?_⟩
      simp only [fOf, if_neg hnep]
      rw [getD_set_ne vp (Ne.symm hneq)]
      simp only [fOf, if_neg hneq] at hf
      exact hf
  · intro j k hj1 hjN hk1 hkN he
    have key : ∀ i, 1 ≤ i → i ≤ N →
        fOf (heap.set q vp) p vq i =
          fOf heap q vq (if i = p then q else if i = q then p else i) := by
      intro i hi1 hiN
      by_cases hip : i = p
      · rw [if_pos hip]
        simp [fOf, hip]
      · by_cases hiq : i = q
        · rw [if_neg hip, if_pos hiq]
          simp only [fOf, if_neg hip, if_neg hpq]
          rw [hiq, getD_set_self vp hqh, hvp]
        · rw [if_neg hip, if_neg hiq]
          simp only [fOf, if_neg hip, if_neg hiq]
          rw [getD_set_ne vp (Ne.symm hiq)]
    rw [key j hj1 hjN, key k hk1 hkN] at he
    have hb : ∀ i, 1 ≤ i → i ≤ N →
        1 ≤ (if i = p then q else if i = q then p else i) ∧
          (if i = p then q else if i = q then p else i) ≤ N := by
      intro i hi1 hiN
      split_ifs <;> omega
    have := finj _ _ (hb j hj1 hjN).1 (hb j hj1 hjN).2 (hb k hk1 hkN).1 (hb k hk1 hkN).2 he
    split_ifs at this <;> omega

theorem percGo_ok (vars : List Var) (aq : Rat) {N vq : Nat} :
    ∀ q heap idxs, PUpInv N vq heap idxs q →
      HeapOk N (percolateUpGo vars vq aq heap idxs q).1
        (percolateUpGo vars vq aq heap idxs q).2 ∧
      (percolateUpGo vars vq aq heap idxs q).2.getD 0 0 = idxs.getD 0 0 ∧
      (percolateUpGo vars vq aq heap idxs q).2.getD vq 0 ≤ q ∧
      ∀ v, 1 ≤ v → v ≤ N →
        (percolateUpGo vars vq aq heap idxs q).2.getD v 0 ≤ max q (idxs.getD v 0) := by
  intro q
  induction q using Nat.strong_induction_on with
  | _ q IH =>
    intro heap idxs H
    rw [percolateUpGo]
    by_cases h0 : q / 2 = 0
    · rw [dif_pos h0]
      exact base_ok H
    · rw [dif_neg h0]
      by_cases hlt : (vars.getD (heap.getD (q / 2) 0) default).activity < aq
      · rw [if_pos hlt]
        have Hs := step_inv H h0
        have hrec := IH (q / 2) (by omega) _ _ Hs
        obtain ⟨hok, h60, h7, h8⟩ := hrec
        have hil := H.ilen
        have hq1b := H.hq1
        have hqNb := H.hqN
        obtain ⟨hvp1, hvpN⟩ := H.hval (q / 2) (by omega) (by omega)
        have hdq : q / 2 ≤ q := Nat.div_le_self q 2
        have hvp0 : heap.getD (q / 2) 0 ≠ 0 := by omega
        have hvpl : heap.getD (q / 2) 0 < idxs.length := by omega
        refine ⟨hok, ?_, ?_, ?_⟩
        · rw [h60, getD_set_ne q hvp0]
        · exact le_trans h7 hdq
        · intro v h1 hN
          refine le_trans (h8 v h1 hN) ?_
          by_cases hv : heap.getD (q / 2) 0 = v
          · rw [← hv, getD_set_self q hvpl]
            omega
          · rw [getD_set_ne q hv]
            omega
      · rw [if_neg hlt]
        exact base_ok H

theorem insert_ok (vars : List Var) {N : Nat} {hp : VarIdHeap} {vi : Nat}
    (W : HWf N hp) (h1 : 1 ≤ vi) (hN : vi ≤ N) :
    HWf N (VarIdHeap.insert vars hp vi) ∧
    (VarIdHeap.insert vars hp vi).contains vi = true ∧
    ∀ w, 1 ≤ w → w ≤ N → hp.contains w = true →
      (VarIdHeap.insert vars hp vi).contains w = true := by
  obtain ⟨⟨hlen, ilen, hval, linv, rinv⟩, hsize⟩ := W
  obtain ⟨hi1, hiN, hheapi⟩ := rinv vi h1 hN
  rw [VarIdHeap.insert]
  by_cases hc : hp.contains vi = true
  · rw [if_pos hc]
    rw [VarIdHeap.contains, decide_eq_true_iff] at hc
    rw [VarIdHeap.percolateUp]
    rw [hheapi]
    have Hinv : PUpInv N vi hp.heap hp.idxs (hp.idxs.getD vi 0) := by
      refine ⟨hlen, ilen, hi1, hiN, h1, hN, hval, ?_, ?_, ?_⟩
      · intro j hj1 hjN _
        exact linv j hj1 hjN
      · intro v hv1 hvN hvvi
        obtain ⟨b1, b2, b3⟩ := rinv v hv1 hvN
        refine ⟨b1, b2, ?_⟩
        have hne : hp.idxs.getD v 0 ≠ hp.idxs.getD vi 0 := by
          intro he
          apply hvvi
          rw [← b3, he, hheapi]
        simp only [fOf, if_neg hne]
        exact b3
      · intro j k hj1 hjN hk1 hkN he
        have hfj : ∀ i, 1 ≤ i → i ≤ N →
            fOf hp.heap (hp.idxs.getD vi 0) vi i = hp.heap.getD i 0 := by
          intro i hi1b hiNb
          by_cases hii : i = hp.idxs.getD vi 0
          · rw [fOf, if_pos hii, hii, hheapi]
          · rw [fOf, if_neg hii]
        rw [hfj j hj1 hjN, hfj k hk1 hkN] at he
        have := linv j hj1 hjN
        rw [he] at this
        rw [linv k hk1 hkN] at this
        exact this.symm
    obtain ⟨hok, h6, h7, h8⟩ := percGo_ok vars (vars.getD vi default).activity _ _ _ Hinv
    refine ⟨⟨hok, by rw [h6]; exact hsize⟩, ?_, ?_⟩
    · rw [VarIdHeap.contains, decide_eq_true_iff]
      simp only
      rw [h6]
      exact le_trans h7 hc
    · intro w hw1 hwN hw
      rw [VarIdHeap.contains, decide_eq_true_iff] at hw
      rw [VarIdHeap.contains, decide_eq_true_iff]
      simp only
      rw [h6]
      refine le_trans (h8 w hw1 hwN) ?_
      have : hp.idxs.getD vi 0 ≤ hp.idxs.getD 0 0 := hc
      omega
  · rw [if_neg hc]
    rw [VarIdHeap.contains, decide_eq_true_iff] at hc
    push_neg at hc
    have hszlt : hp.idxs.getD 0 0 < N := by omega
    set n := hp.idxs.getD 0 0 + 1 with hn
    have hnN : n ≤ N := by omega
    have hn1 : 1 ≤ n := by omega
    obtain ⟨hvn1, hvnN⟩ := hval n hn1 hnN
    set vn := hp.heap.getD n 0 with hvn
    set i := hp.idxs.getD vi 0 with hi
    have hivn : hp.idxs.getD vn 0 = n := by rw [hvn]; exact linv n hn1 hnN
    have hvin : i ≠ n → vi ≠ vn := by
      intro hne he
      apply hne
      rw [hi, he, hivn]
    have hlen1 : (swapL hp.heap i n).length = N + 1 := by
      simp only [swapL, List.length_set]
      exact hlen
    have hbHn : n < (hp.heap.set i (hp.heap.getD n 0)).length := by
      simp only [List.length_set]
      omega
    have hbHi : i < hp.heap.length := by omega
    have hbIvn : vn < (hp.idxs.set vi (hp.idxs.getD vn 0)).length := by
      simp only [List.length_set]
      omega
    have hbIvi : vi < hp.idxs.length := by omega
    have hbIvi2 : vi < (hp.idxs.set vi (hp.idxs.getD vi 0)).length := by
      simp only [List.length_set]
      omega
    have hbI0 : 0 < (swapL hp.idxs vi vn).length := by
      simp only [swapL, List.length_set]
      omega
    have h0vi : (0 : Nat) ≠ vi := by omega
    have h0vn : (0 : Nat) ≠ vn := by omega
    have heap1n : (swapL hp.heap i n).getD n 0 = vi := by
      rw [swapL, getD_set_self _ hbHn]
      exact hheapi
    have heap1i : i ≠ n → (swapL hp.heap i n).getD i 0 = vn := by
      intro hin
      rw [swapL, getD_set_ne _ (Ne.symm hin), getD_set_self _ hbHi]
    have heap1o : ∀ j, j ≠ i → j ≠ n → (swapL hp.heap i n).getD j 0 = hp.heap.getD j 0 := by
      intro j hji hjn
      rw [swapL, getD_set_ne _ (Ne.symm hjn), getD_set_ne _ (Ne.symm hji)]
    have idxs1vi : (swapL hp.idxs vi vn).getD vi 0 = n := by
      by_cases hvv : vi = vn
      · rw [swapL]
        simp only [← hvv]
        rw [getD_set_self _ hbIvi2]
        rw [hvv]
        exact hivn
      · rw [swapL, getD_set_ne _ (Ne.symm hvv), getD_set_self _ hbIvi]
        exact hivn
    have idxs1vn : (swapL hp.idxs vi vn).getD vn 0 = i := by
      rw [swapL, getD_set_self _ hbIvn]
    have idxs1o : ∀ v, v ≠ vi → v ≠ vn → (swapL hp.idxs vi vn).getD v 0 = hp.idxs.getD v 0 := by
      intro v hvvi hvvn
      rw [swapL, getD_set_ne _ (Ne.symm hvvn), getD_set_ne _ (Ne.symm hvvi)]
    set idxs2 := (swapL hp.idxs vi vn).set 0 n with hidxs2
    have ilen2 : idxs2.length = N + 1 := by
      rw [hidxs2]
      simp only [swapL, List.length_set]
      exact ilen
    have idxs2vi : idxs2.getD vi 0 = n := by
      rw [hidxs2, getD_set_ne _ h0vi, idxs1vi]
    have idxs2vn : idxs2.getD vn 0 = i := by
      rw [hidxs2, getD_set_ne _ h0vn, idxs1vn]
    have idxs2o : ∀ v, v ≠ 0 → v ≠ vi → v ≠ vn → idxs2.getD v 0 = hp.idxs.getD v 0 := by
      intro v hv0 hvvi hvvn
      rw [hidxs2, getD_set_ne _ (Ne.symm hv0), idxs1o v hvvi hvvn]
    have idxs20 : idxs2.getD 0 0 = n := by
      rw [hidxs2, getD_set_self _ hbI0]
    have hinj : ∀ j k, 1 ≤ j → j ≤ N → 1 ≤ k → k ≤ N →
        hp.heap.getD j 0 = hp.heap.getD k 0 → j = k := by
      intro j k hj1 hjN hk1 hkN he
      have := linv j hj1 hjN
      rw [he, linv k hk1 hkN] at this
      exact this.symm
    have Hinv : PUpInv N vi (swapL hp.heap i n) idxs2 n := by
      refine ⟨hlen1, ilen2, hn1, hnN, h1, hN, ?_, ?_, ?_, ?_⟩
      · intro j hj1 hjN
        by_cases hjn : j = n
        · rw [hjn, heap1n]; exact ⟨h1, hN⟩
        · by_cases hji : j = i
          · rw [hji, heap1i (by omega)]
            exact ⟨hvn1, hvnN⟩
          · rw [heap1o j hji hjn]
            exact hval j hj1 hjN
      · intro j hj1 hjN hjn
        by_cases hji : j = i
        · rw [hji, heap1i (by omega), idxs2vn]
        · rw [heap1o j hji hjn]
          have hne1 : hp.heap.getD j 0 ≠ vi := by
            intro he
            apply hji
            have := linv j hj1 hjN
            rw [he] at this
            rw [← this]
          have hne2 : hp.heap.getD j 0 ≠ vn := by
            intro he
            exact hjn (hinj j n hj1 hjN hn1 hnN (by rw [he, hvn]))
          rw [idxs2o _ (by have := hval j hj1 hjN; omega) hne1 hne2]
          exact linv j hj1 hjN
      · intro v hv1 hvN hvvi
        by_cases hvvn : v = vn
        · rw [hvvn, idxs2vn]
          have hin : i ≠ n := by
            intro he
            apply hvvi
            rw [hvvn, hvn, ← he, hheapi]
          refine ⟨hi1, hiN, ?_⟩
          simp only [fOf]
          rw [if_neg (by omega : i ≠ n), heap1i hin]
        · obtain ⟨b1, b2, b3⟩ := rinv v hv1 hvN
          rw [idxs2o v (by omega) hvvi hvvn]
          refine ⟨b1, b2, ?_⟩
          have hne1 : hp.idxs.getD v 0 ≠ i := by
            intro he
            apply hvvi
            rw [← b3, he, hheapi]
          have hne2 : hp.idxs.getD v 0 ≠ n := by
            intro he
            apply hvvn
            rw [← b3, he, ← hvn]
          rw [fOf, if_neg hne2, heap1o _ hne1 hne2]
          exact b3
      · intro j k hj1 hjN hk1 hkN he
        have key : ∀ m, 1 ≤ m → m ≤ N →
            fOf (swapL hp.heap i n) n vi m =
              hp.heap.getD (if m = n then i else if m = i then n else m) 0 := by
          intro m hm1 hmN
          by_cases hmn : m = n
          · rw [if_pos hmn, fOf, if_pos hmn, ← hheapi]
          · rw [if_neg hmn, fOf, if_neg hmn]
            by_cases hmi : m = i
            · rw [if_pos hmi, hmi, heap1i (by omega), hvn]
            · rw [if_neg hmi, heap1o m hmi hmn]
        rw [key j hj1 hjN, key k hk1 hkN] at he
        have hb : ∀ m, 1 ≤ m → m ≤ N →
            1 ≤ (if m = n then i else if m = i then n else m) ∧
              (if m = n then i else if m = i then n else m) ≤ N := by
          intro m hm1 hmN
          split_ifs <;> omega
        have := hinj _ _ (hb j hj1 hjN).1 (hb j hj1 hjN).2 (hb k hk1 hkN).1 (hb k hk1 hkN).2 he
        split_ifs at this <;> omega
    rw [VarIdHeap.percolateUp]
    simp only
    rw [heap1n]
    obtain ⟨hok, h6, h7, h8⟩ := percGo_ok vars (vars.getD vi default).activity _ _ _ Hinv
    rw [idxs20] at h6
    refine ⟨⟨hok, by rw [h6]; omega⟩, ?_, ?_⟩
    · rw [VarIdHeap.contains, decide_eq_true_iff]
      simp only
      rw [h6]
      exact h7
    · intro w hw1 hwN hw
      rw [VarIdHeap.contains, decide_eq_true_iff] at hw
      rw [VarIdHeap.contains, decide_eq_true_iff]
      simp only
      rw [h6]
      have hwvi : w ≠ vi := by
        intro he
        rw [he] at hw
        omega
      have hwvn : w ≠ vn := by
        intro he
        rw [he, hivn] at hw
        omega
      refine le_trans (h8 w hw1 hwN) ?_
      rw [idxs2o w (by omega) hwvi hwvn]
      omega

theorem cancelFold_spec (N : Nat) : ∀ (ps : List Nat) (vars : List Var)
    (asg : List Nat) (ord : VarIdHeap),
    (∀ l ∈ ps, 1 ≤ litVi l ∧ litVi l ≤ N) →
    (ps.map litVi).Nodup →
    vars.length = N + 1 → asg.length = N + 1 → HWf N ord →
    (ps.foldl cancelStep (vars, asg, ord)).1.length = N + 1 ∧
    (ps.foldl cancelStep (vars, asg, ord)).2.1.length = N + 1 ∧
    HWf N (ps.foldl cancelStep (vars, asg, ord)).2.2 ∧
    (∀ w, w ∉ ps.map litVi →
      (ps.foldl cancelStep (vars, asg, ord)).1.getD w default = vars.getD w default ∧
      (ps.foldl cancelStep (vars, asg, ord)).2.1.getD w BOTTOM = asg.getD w BOTTOM) ∧
    (∀ w, 1 ≤ w → w ≤ N → ord.contains w = true →
      (ps.foldl cancelStep (vars, asg, ord)).2.2.contains w = true) ∧
    (∀ l ∈ ps,
      ((ps.foldl cancelStep (vars, asg, ord)).1.getD (litVi l) default).phase =
        asg.getD (litVi l) BOTTOM ∧
      ((ps.foldl cancelStep (vars, asg, ord)).1.getD (litVi l) default).assign = BOTTOM ∧
      ((ps.foldl cancelStep (vars, asg, ord)).1.getD (litVi l) default).reason =
        NULL_CLAUSE ∧
      (ps.foldl cancelStep (vars, asg, ord)).2.1.getD (litVi l) BOTTOM = BOTTOM ∧
      (ps.foldl cancelStep (vars, asg, ord)).2.2.contains (litVi l) = true) := by
  intro ps
  induction ps with
  | nil =>
    intro vars asg ord hb hnd hvl hal hw
    refine ⟨hvl, hal, hw, ?_, ?_, ?_⟩
    · intro w _; exact ⟨rfl, rfl⟩
    · intro w _ _ hcw; exact hcw
    · intro l hl; cases hl
  | cons l ps IH =>
    intro vars asg ord hb hnd hvl hal hw
    obtain ⟨hl1, hlN⟩ := hb l (List.mem_cons_self l ps)
    have hbt : ∀ x ∈ ps, 1 ≤ litVi x ∧ litVi x ≤ N := by
      intro x hx; exact hb x (List.mem_cons_of_mem l hx)
    have hndt : (ps.map litVi).Nodup := (List.nodup_cons.mp (by simpa using hnd)).2
    have hni : litVi l ∉ ps.map litVi := (List.nodup_cons.mp (by simpa using hnd)).1
    obtain ⟨v1, hv1⟩ : ∃ x : Var, ({ vars.getD (litVi l) default with
        phase := asg.getD (litVi l) BOTTOM, assign := BOTTOM,
        reason := NULL_CLAUSE } : Var) = x := ⟨_, rfl⟩
    obtain ⟨vars1, hvars1⟩ : ∃ x, vars.set (litVi l) v1 = x := ⟨_, rfl⟩
    obtain ⟨asg1, hasg1⟩ : ∃ x, asg.set (litVi l) BOTTOM = x := ⟨_, rfl⟩
    obtain ⟨ord1, hord1⟩ : ∃ x, VarIdHeap.insert vars1 ord (litVi l) = x := ⟨_, rfl⟩
    have hstep : List.foldl cancelStep (vars, asg, ord) (l :: ps) =
        List.foldl cancelStep (vars1, asg1, ord1) ps := by
      rw [List.foldl_cons]
      have : cancelStep (vars, asg, ord) l = (vars1, asg1, ord1) := by
        rw [cancelStep]
        simp only
        rw [hv1, hvars1, hasg1, hord1]
      rw [this]
    rw [hstep]
    have hvl1 : vars1.length = N + 1 := by rw [← hvars1]; simp [hvl]
    have hal1 : asg1.length = N + 1 := by rw [← hasg1]; simp [hal]
    have hwf0 : HWf N ord1 := by
      rw [← hord1]
      exact (insert_ok vars1 hw hl1 hlN).1
    have hcvi : ord1.contains (litVi l) = true := by
      rw [← hord1]
      exact (insert_ok vars1 hw hl1 hlN).2.1
    have hcpres : ∀ w, 1 ≤ w → w ≤ N → ord.contains w = true →
        ord1.contains w = true := by
      intro w hw1 hwN hcw
      rw [← hord1]
      exact (insert_ok vars1 hw hl1 hlN).2.2 w hw1 hwN hcw
    obtain ⟨f1, f2, f3, f4, f5, f6⟩ := IH vars1 asg1 ord1 hbt hndt hvl1 hal1 hwf0
    have hv1phase : v1.phase = asg.getD (litVi l) BOTTOM := by rw [← hv1]
    have hv1assign : v1.assign = BOTTOM := by rw [← hv1]
    have hv1reason : v1.reason = NULL_CLAUSE := by rw [← hv1]
    refine ⟨f1, f2, f3, ?_, ?_, ?_⟩
    · intro w hwm
      have hwvi : w ≠ litVi l := by
        intro he
        exact (hwm (by simp [he])).elim
      have hwt : w ∉ ps.map litVi := by
        intro hx
        exact hwm (by simp [hx])
      obtain ⟨g1, g2⟩ := f4 w hwt
      constructor
      · rw [g1, ← hvars1, getDv_set_ne _ _ (fun h => hwvi h.symm)]
      · rw [g2, ← hasg1, getDv_set_ne _ _ (fun h => hwvi h.symm)]
    · intro w hw1 hwN hcw
      exact f5 w hw1 hwN (hcpres w hw1 hwN hcw)
    · intro x hx
      rcases List.mem_cons.mp hx with hx | hx
      · subst hx
        obtain ⟨g1, g2⟩ := f4 (litVi x) hni
        have hvlt : litVi x < vars.length := by omega
        have halt : litVi x < asg.length := by omega
        have hgv : vars1.getD (litVi x) default = v1 := by
          rw [← hvars1, getDv_set_self _ _ hvlt]
        refine ⟨?_, ?_, ?_, ?_, ?_⟩
        · rw [g1, hgv, hv1phase]
        · rw [g1, hgv, hv1assign]
        · rw [g1, hgv, hv1reason]
        · rw [g2, ← hasg1, getDv_set_self _ _ halt]
        · exact f5 (litVi x) hl1 hlN hcvi
      · obtain ⟨hx1, hxN⟩ := hbt x hx
        have hxvi : litVi x ≠ litVi l := by
          intro he
          apply hni
          rw [← he]
          exact List.mem_map_of_mem litVi hx
        obtain ⟨g1, g2, g3, g4, g5⟩ := f6 x hx
        refine ⟨?_, g2, g3, g4, g5⟩
        rw [g1, ← hasg1, getDv_set_ne _ _ (fun h => hxvi h.symm)]

/-- C10: for every level `lv` at or above the current decision level
(`trail_lim.len() <= lv`), `cancel_until(lv)` is a no-op: the trail,
`trail_lim`, `q_head`, every variable record and the decision heap are all
left unchanged. -/
theorem cancelUntil_noop (s : AssignStack) (vars : List Var) (lv : Nat)
    (h : s.trailLim.length ≤ lv) :
    AssignStack.cancelUntil s vars lv = (s, vars) := by
  rw [AssignStack.cancelUntil, if_pos h]

theorem cancelUntil_noop_witness :
    AssignStack.cancelUntil ⟨[2, 5], [2, 1, 2, 0], [0, 1], 2, ⟨[0, 1, 2], [1, 1, 2]⟩⟩
        [⟨0, 2, 2, 0, 0, 0⟩, ⟨1, 1, 2, 1, 0, 0⟩, ⟨2, 0, 2, 2, 1, 0⟩] 2 =
      (⟨[2, 5], [2, 1, 2, 0], [0, 1], 2, ⟨[0, 1, 2], [1, 1, 2]⟩⟩,
       [⟨0, 2, 2, 0, 0, 0⟩, ⟨1, 1, 2, 1, 0, 0⟩, ⟨2, 0, 2, 2, 1, 0⟩]) :=
  cancelUntil_noop _ _ 2 (by decide)

/-- C5 counterexample: the claim says a successful enqueue of an unassigned
variable records the given reason, but at decision level 0 the code resets
the reason to `NULL_CLAUSE`: enqueueing variable 1 with reason 5 at level 0
stores reason 0. -/
theorem enqueue_level0_reason_cex :
    AssignStack.enqueue ⟨[], [BOTTOM, BOTTOM], [], 0, ⟨[0, 1], [1, 1]⟩⟩
        ⟨1, BOTTOM, BOTTOM, 0, NULL_CLAUSE, 0⟩ LTRUE 5 0 =
      Except.ok (⟨[2], [BOTTOM, LTRUE], [], 0, ⟨[0, 1], [1, 1]⟩⟩,
        ⟨1, LTRUE, BOTTOM, 0, NULL_CLAUSE, 0⟩) ∧ NULL_CLAUSE ≠ 5 := by
  constructor
  · rfl
  · decide

/-- C5 (amended): `enqueue(v, sig, cid, dl)` with `v` unassigned (BOTTOM)
returns `Ok`, assigns the sign, records the level and pushes the literal on
the trail, recording the given reason except at decision level 0, where the
reason is reset to `NULL_CLAUSE` (and the activity zeroed); with `v` already
assigned equal to `sig` it returns `Ok` leaving the state unchanged; with `v`
assigned the opposite sign it fails with `Inconsistent` leaving the state
unchanged. -/
theorem enqueue_spec (s : AssignStack) (v : Var) (sig cid dl : Nat)
    (hidx : v.index < s.assign.length) :
    (s.assign.getD v.index BOTTOM = BOTTOM →
      ∃ s1 v1, AssignStack.enqueue s v sig cid dl = Except.ok (s1, v1) ∧
        v1.assign = sig ∧ v1.level = dl ∧
        v1.reason = (if dl = 0 then NULL_CLAUSE else cid) ∧
        v1.index = v.index ∧ v1.phase = v.phase ∧
        s1.trail = s.trail ++ [varLit v.index sig] ∧
        s1.assign.getD v.index BOTTOM = sig ∧
        (∀ w, w ≠ v.index → s1.assign.getD w BOTTOM = s.assign.getD w BOTTOM) ∧
        s1.trailLim = s.trailLim ∧ s1.qHead = s.qHead ∧ s1.varOrder = s.varOrder) ∧
    (s.assign.getD v.index BOTTOM = sig → sig ≠ BOTTOM →
      AssignStack.enqueue s v sig cid dl = Except.ok (s, v)) ∧
    (s.assign.getD v.index BOTTOM ≠ BOTTOM → s.assign.getD v.index BOTTOM ≠ sig →
      AssignStack.enqueue s v sig cid dl = Except.error SolverError.Inconsistent) := by
  refine ⟨?_, ?_, ?_⟩
  · intro hb
    have he : AssignStack.enqueue s v sig cid dl =
        Except.ok ({ s with assign := s.assign.set v.index sig,
                            trail := s.trail ++ [varLit v.index sig] },
          if dl = 0 then
            { v with assign := sig, level := dl, reason := NULL_CLAUSE, activity := 0 }
          else { v with assign := sig, level := dl, reason := cid }) := by
      simp only [AssignStack.enqueue, hb, beq_self_eq_true, if_true]
      by_cases hdl : dl = 0
      · rw [if_pos (by simpa using hdl), if_pos hdl]
      · rw [if_neg (by simpa using hdl), if_neg hdl]
    rw [he]
    refine ⟨_, _, rfl, by by_cases hdl : dl = 0 <;> simp [hdl],
      by by_cases hdl : dl = 0 <;> simp [hdl],
      by by_cases hdl : dl = 0 <;> simp [hdl],
      by by_cases hdl : dl = 0 <;> simp [hdl],
      by by_cases hdl : dl = 0 <;> simp [hdl],
      rfl, getDv_set_self sig BOTTOM hidx, ?_, rfl, rfl, rfl⟩
    intro w hwv
    exact getDv_set_ne _ _ (fun h => hwv h.symm)
  · intro hs hsb
    simp only [AssignStack.enqueue, hs]
    rw [if_neg (by simpa using hsb), if_pos (by simp)]
  · intro hb hs
    simp only [AssignStack.enqueue]
    rw [if_neg (by simpa using hb), if_neg (by simpa using hs)]

theorem enqueue_spec_witness :
    ((AssignStack.enqueue ⟨[], [BOTTOM, BOTTOM], [0], 1, ⟨[0, 1], [1, 1]⟩⟩
        ⟨1, BOTTOM, BOTTOM, 0, NULL_CLAUSE, 0⟩ LTRUE 7 1).toOption.map
      (fun p => (p.2.reason, p.2.assign, p.1.trail))) = some (7, LTRUE, [2]) := by
  obtain ⟨s1, v1, heq, ha, hl, hr, hi, hp, htr, _⟩ :=
    (enqueue_spec ⟨[], [BOTTOM, BOTTOM], [0], 1, ⟨[0, 1], [1, 1]⟩⟩
      ⟨1, BOTTOM, BOTTOM, 0, NULL_CLAUSE, 0⟩ LTRUE 7 1 (by decide)).1 (by decide)
  rw [heq]
  have hr7 : v1.reason = 7 := by rw [hr]; decide
  have htr2 : s1.trail = [2] := by rw [htr]; decide
  simp [Except.toOption, hr7, ha, htr2]

/-- C6: for every level `lv` below the current decision level,
`cancel_until(lv)` truncates the trail to `trail_lim[lv]`, and for every
popped variable sets `phase` to its previous assignment, clears its
assignment to BOTTOM and its reason to NULL_CLAUSE, and reinserts it into
the decision heap; `trail_lim` is truncated to length `lv` and `q_head` is
set to the new trail length. -/
theorem cancelUntil_spec (N : Nat) (s : AssignStack) (vars : List Var) (lv : Nat)
    (hlv : lv < s.trailLim.length)
    (hlim : s.trailLim.getD lv 0 ≤ s.trail.length)
    (hvl : vars.length = N + 1) (hal : s.assign.length = N + 1)
    (hpop : ∀ l ∈ s.trail.drop (s.trailLim.getD lv 0), 1 ≤ litVi l ∧ litVi l ≤ N)
    (hnodup : ((s.trail.drop (s.trailLim.getD lv 0)).map litVi).Nodup)
    (hsync : ∀ w, w ≤ N → s.assign.getD w BOTTOM = (vars.getD w default).assign)
    (hheap : HWf N s.varOrder) :
    (AssignStack.cancelUntil s vars lv).1.trail = s.trail.take (s.trailLim.getD lv 0) ∧
    (AssignStack.cancelUntil s vars lv).1.trailLim = s.trailLim.take lv ∧
    (AssignStack.cancelUntil s vars lv).1.qHead =
      (AssignStack.cancelUntil s vars lv).1.trail.length ∧
    ∀ l ∈ s.trail.drop (s.trailLim.getD lv 0),
      ((AssignStack.cancelUntil s vars lv).2.getD (litVi l) default).phase =
        (vars.getD (litVi l) default).assign ∧
      ((AssignStack.cancelUntil s vars lv).2.getD (litVi l) default).assign = BOTTOM ∧
      ((AssignStack.cancelUntil s vars lv).2.getD (litVi l) default).reason =
        NULL_CLAUSE ∧
      (AssignStack.cancelUntil s vars lv).1.assign.getD (litVi l) BOTTOM = BOTTOM ∧
      (AssignStack.cancelUntil s vars lv).1.varOrder.contains (litVi l) = true := by
  have hnlv : ¬ (s.trailLim.length ≤ lv) := by omega
  rw [AssignStack.cancelUntil, if_neg hnlv]
  obtain ⟨f1, f2, f3, f4, f5, f6⟩ := cancelFold_spec N (s.trail.drop (s.trailLim.getD lv 0))
    vars s.assign s.varOrder hpop hnodup hvl hal hheap
  refine ⟨rfl, rfl, ?_, ?_⟩
  · show s.trailLim.getD lv 0 = _
    rw [List.length_take]
    omega
  · intro l hl
    obtain ⟨g1, g2, g3, g4, g5⟩ := f6 l hl
    refine ⟨?_, g2, g3, g4, g5⟩
    rw [g1]
    exact hsync (litVi l) (hpop l hl).2

theorem cancelUntil_spec_witness :
    (AssignStack.cancelUntil ⟨[2], [BOTTOM, LTRUE], [0], 1, ⟨[0, 1], [0, 1]⟩⟩
        [⟨0, BOTTOM, BOTTOM, 0, 0, 0⟩, ⟨1, LTRUE, BOTTOM, 1, 5, 0⟩] 0).1.trail = [] ∧
    ((AssignStack.cancelUntil ⟨[2], [BOTTOM, LTRUE], [0], 1, ⟨[0, 1], [0, 1]⟩⟩
        [⟨0, BOTTOM, BOTTOM, 0, 0, 0⟩, ⟨1, LTRUE, BOTTOM, 1, 5, 0⟩] 0).2.getD 1
      default).phase = LTRUE ∧
    (AssignStack.cancelUntil ⟨[2], [BOTTOM, LTRUE], [0], 1, ⟨[0, 1], [0, 1]⟩⟩
        [⟨0, BOTTOM, BOTTOM, 0, 0, 0⟩, ⟨1, LTRUE, BOTTOM, 1, 5, 0⟩] 0).1.varOrder.contains
      1 = true := by
  have hheap : HWf 1 ⟨[0, 1], [0, 1]⟩ := by
    refine ⟨⟨rfl, rfl, ?_, ?_, ?_⟩, by decide⟩ <;>
      · intro j h1 hj
        have hj1 : j = 1 := by omega
        subst hj1
        decide
  have h := cancelUntil_spec 1 ⟨[2], [BOTTOM, LTRUE], [0], 1, ⟨[0, 1], [0, 1]⟩⟩
    [⟨0, BOTTOM, BOTTOM, 0, 0, 0⟩, ⟨1, LTRUE, BOTTOM, 1, 5, 0⟩] 0
    (by decide) (by decide) (by decide) (by decide) (by decide) (by decide)
    (by decide) hheap
  obtain ⟨h1, h2, h3, h4⟩ := h
  obtain ⟨g1, g2, g3, g4, g5⟩ := h4 2 (by decide)
  have hv2 : litVi 2 = 1 := by decide
  rw [hv2] at g1 g5
  refine ⟨by rw [h1]; decide, ?_, g5⟩
  rw [g1]
  decide


/-! ### Propagate: assignment arithmetic -/

theorem and_one_cases (l : Nat) : l &&& 1 = 0 ∨ l &&& 1 = 1 := by
  have h := Nat.and_one_is_mod l
  omega

theorem xor_one_01 (x : Nat) (hx : x ^^^ 1 = 0 ∨ x ^^^ 1 = 1) : x = 0 ∨ x = 1 := by
  rcases hx with hx | hx
  · right
    have h3 : x ^^^ 1 ^^^ 1 = 0 ^^^ 1 := by rw [hx]
    rw [Nat.xor_cancel_right] at h3
    have h4 : (0 : Nat) ^^^ 1 = 1 := by decide
    rw [h4] at h3
    exact h3
  · left
    have h3 : x ^^^ 1 ^^^ 1 = 1 ^^^ 1 := by rw [hx]
    rw [Nat.xor_cancel_right] at h3
    have h4 : (1 : Nat) ^^^ 1 = 0 := by decide
    rw [h4] at h3
    exact h3

theorem xor_01_of (x b : Nat) (hb : b = 0 ∨ b = 1) (hx : x = 0 ∨ x = 1) :
    x ^^^ b = 0 ∨ x ^^^ b = 1 := by
  rcases hb with rfl | rfl <;> rcases hx with rfl | rfl <;> decide

theorem xor_bit_preserve (x b1 b2 : Nat) (hb1 : b1 = 0 ∨ b1 = 1) (hb2 : b2 = 0 ∨ b2 = 1)
    (hx : ¬ (x ^^^ b1 = 0 ∨ x ^^^ b1 = 1)) : ¬ (x ^^^ b2 = 0 ∨ x ^^^ b2 = 1) := by
  intro h2
  apply hx
  have hx01 : x = 0 ∨ x = 1 := by
    rcases hb2 with hb2e | hb2e
    · rw [hb2e] at h2
      simpa using h2
    · rw [hb2e] at h2
      exact xor_one_01 x h2
  exact xor_01_of x b1 hb1 hx01

theorem getD_mem {l : List Nat} {n : Nat} (d : Nat) (h : n < l.length) : l.getD n d ∈ l := by
  rw [List.getD_eq_getElem l d h]
  exact List.getElem_mem h

theorem getDw_mem {l : List Watch} {n : Nat} (d : Watch) (h : n < l.length) : l.getD n d ∈ l := by
  rw [List.getD_eq_getElem l d h]
  exact List.getElem_mem h

theorem set_getD_eq (l : List Nat) (n : Nat) : l.set n (l.getD n 0) = l := by
  induction l generalizing n with
  | nil => rfl
  | cons a l ih =>
    cases n with
    | zero => rfl
    | succ n =>
      show a :: l.set n (l.getD n 0) = a :: l
      rw [ih]

theorem cons_set_perm : ∀ (l : List Nat) (k : Nat) (b : Nat), k < l.length →
    List.Perm (l.getD k 0 :: l.set k b) (b :: l) := by
  intro l
  induction l with
  | nil =>
    intro k b h
    simp at h
  | cons a l ih =>
    intro k b h
    cases k with
    | zero => exact List.Perm.swap b a l
    | succ k =>
      have hk : k < l.length := by simpa using h
      have h1 : List.Perm (l.getD k 0 :: a :: l.set k b) (a :: l.getD k 0 :: l.set k b) :=
        List.Perm.swap a (l.getD k 0) (l.set k b)
      have h2 : List.Perm (a :: l.getD k 0 :: l.set k b) (a :: b :: l) :=
        List.Perm.cons a (ih k b hk)
      have h3 : List.Perm (a :: b :: l) (b :: a :: l) := List.Perm.swap b a l
      exact (h1.trans h2).trans h3

theorem assigned_lbool_true (s : AssignStack) (l : Nat) (h : litVi l < s.assign.length)
    (hset : s.assign.getD (litVi l) BOTTOM = litLbool l) : s.assigned l = LTRUE := by
  unfold AssignStack.assigned
  rw [hset]
  unfold litLbool litPositive LTRUE LFALSE
  have hm := Nat.and_one_is_mod l
  by_cases h2 : l % 2 = 0
  · rw [if_pos (by simpa using h2)]
    rw [hm, h2]
    decide
  · have h3 : l % 2 = 1 := by omega
    rw [if_neg (by simpa using h2), hm, h3]
    decide

theorem uncheckEnqueue_facts (s : AssignStack) (vars : List Var) (l cid : Nat)
    (hb : litVi l < s.assign.length)
    (hT : ¬ s.assigned l = LTRUE) (hF : ¬ s.assigned l = LFALSE) :
    (uncheckEnqueue s vars l cid).1.assign.length = s.assign.length ∧
    (uncheckEnqueue s vars l cid).1.trail = s.trail ++ [l] ∧
    (uncheckEnqueue s vars l cid).1.qHead = s.qHead ∧
    (uncheckEnqueue s vars l cid).1.trailLim = s.trailLim ∧
    (∀ l2, s.assigned l2 = LTRUE ∨ s.assigned l2 = LFALSE →
      (uncheckEnqueue s vars l cid).1.assigned l2 = s.assigned l2) ∧
    (uncheckEnqueue s vars l cid).1.assigned l = LTRUE := by
  refine ⟨by simp [uncheckEnqueue], rfl, rfl, rfl, ?_, ?_⟩
  · intro l2 hv
    unfold uncheckEnqueue AssignStack.assigned
    dsimp only
    by_cases hvi : litVi l2 = litVi l
    · exfalso
      unfold AssignStack.assigned at hT hF hv
      rw [hvi] at hv
      have hx : ¬ (s.assign.getD (litVi l) BOTTOM ^^^ (l &&& 1) = 0 ∨
          s.assign.getD (litVi l) BOTTOM ^^^ (l &&& 1) = 1) := by
        intro hor
        rcases hor with h0 | h1
        · exact hF h0
        · exact hT h1
      apply xor_bit_preserve _ _ _ (and_one_cases l) (and_one_cases l2) hx
      rcases hv with hv | hv
      · right
        exact hv
      · left
        exact hv
    · show (s.assign.set (litVi l) (litLbool l)).getD (litVi l2) BOTTOM ^^^ (l2 &&& 1)
        = s.assign.getD (litVi l2) BOTTOM ^^^ (l2 &&& 1)
      rw [getDv_set_ne _ BOTTOM (fun he => hvi he.symm)]
  · apply assigned_lbool_true
    · simpa [uncheckEnqueue] using hb
    · show (s.assign.set (litVi l) (litLbool l)).getD (litVi l) BOTTOM = litLbool l
      exact getDv_set_self _ BOTTOM hb


/-! ### Propagate: watch-structure transport -/

theorem WatchOK_assign_len (assign assign2 : List Nat) (cls : List PClause) (q : Nat)
    (w : Watch) (hlen : assign2.length = assign.length)
    (h : WatchOK assign cls q w) : WatchOK assign2 cls q w where
  twoLe := h.twoLe
  watchL := h.watchL
  bounds := fun l hl => by rw [hlen]; exact h.bounds l hl
  nodup := h.nodup
  blockPair := h.blockPair

theorem clause_lt (cls : List PClause) (c0 : Nat)
    (h2 : 2 ≤ (cls.getD c0 default).lits.length) : c0 < cls.length := by
  by_contra hge
  push_neg at hge
  have h3 : cls.getD c0 default = default := by
    rw [List.getD_eq_getElem?_getD, List.getElem?_eq_none hge]
    rfl
  rw [h3] at h2
  exact absurd h2 (by decide)

theorem exists_two (L : List Nat) (h : 2 ≤ L.length) : ∃ a b rest, L = a :: b :: rest := by
  cases L with
  | nil => simp at h
  | cons a L1 =>
    cases L1 with
    | nil => simp at h
    | cons b rest => exact ⟨a, b, rest, rfl⟩

theorem WatchOK_swap (assign : List Nat) (cls : List PClause) (c0 : Nat) (a b : Nat)
    (rest : List Nat) (hc : (cls.getD c0 default).lits = a :: b :: rest)
    (q : Nat) (w2 : Watch) (hW : WatchOK assign cls q w2) :
    WatchOK assign (cls.set c0 ⟨b :: a :: rest⟩) q w2 := by
  by_cases hcc : w2.c = c0
  · have hlt : c0 < cls.length := clause_lt cls c0 (by rw [hc]; simp)
    have hG : ((cls.set c0 ⟨b :: a :: rest⟩).getD w2.c default).lits = b :: a :: rest := by
      rw [hcc, getDv_set_self _ default hlt]
    have hw1 := hW.watchL
    rw [hcc, hc] at hw1
    have e0 : (a :: b :: rest).getD 0 0 = a := rfl
    have e1 : (a :: b :: rest).getD 1 0 = b := rfl
    rw [e0, e1] at hw1
    have hbp := hW.blockPair
    rw [hcc, hc] at hbp
    rw [e0, e1] at hbp
    have hnd := hW.nodup
    rw [hcc, hc] at hnd
    have hbd := hW.bounds
    rw [hcc, hc] at hbd
    refine ⟨by rw [hG]; simp, ?_, ?_, ?_, ?_⟩
    · rw [hG]
      have f0 : (b :: a :: rest).getD 0 0 = b := rfl
      have f1 : (b :: a :: rest).getD 1 0 = a := rfl
      rw [f0, f1]
      exact hw1.symm
    · intro x hx
      rw [hG] at hx
      apply hbd
      rcases List.mem_cons.mp hx with rfl | hx2
      · exact List.mem_cons_of_mem _ (List.mem_cons_self _ _)
      · rcases List.mem_cons.mp hx2 with rfl | hx3
        · exact List.mem_cons_self _ _
        · exact List.mem_cons_of_mem _ (List.mem_cons_of_mem _ hx3)
    · rw [hG]
      exact (List.Perm.swap b a rest).nodup hnd
    · intro hlen2
      rw [hG] at hlen2 ⊢
      have f0 : (b :: a :: rest).getD 0 0 = b := rfl
      have f1 : (b :: a :: rest).getD 1 0 = a := rfl
      rw [f0, f1]
      have hlen3 : (a :: b :: rest).length = 2 := by simpa using hlen2
      rcases hbp hlen3 with ⟨hp1, hp2⟩ | ⟨hp1, hp2⟩
      · exact Or.inr ⟨hp1, hp2⟩
      · exact Or.inl ⟨hp1, hp2⟩
  · have hG : (cls.set c0 ⟨b :: a :: rest⟩).getD w2.c default = cls.getD w2.c default :=
      getDv_set_ne _ default (fun he => hcc he.symm)
    exact ⟨by rw [hG]; exact hW.twoLe, by rw [hG]; exact hW.watchL,
      by rw [hG]; exact hW.bounds, by rw [hG]; exact hW.nodup,
      by rw [hG]; exact hW.blockPair⟩

theorem ccInv_set (asn : AssignStack) (cls : List PClause) (c0 : Nat) (L : List Nat)
    (hsub : ∀ x ∈ L, x ∈ (cls.getD c0 default).lits)
    (hlen : 2 ≤ (cls.getD c0 default).lits.length → 2 ≤ L.length)
    (cc : Nat) (h : cc ≠ NULL_CLAUSE → allFalse asn cls cc) :
    cc ≠ NULL_CLAUSE → allFalse asn (cls.set c0 ⟨L⟩) cc := by
  intro hne
  obtain ⟨h1, h2⟩ := h hne
  unfold allFalse
  by_cases hcc : cc = c0
  · rw [hcc] at h1 h2 ⊢
    have hlt : c0 < cls.length := clause_lt cls c0 h1
    rw [getDv_set_self _ default hlt]
    exact ⟨hlen h1, fun x hx => h2 x (hsub x hx)⟩
  · rw [getDv_set_ne _ default (fun he => hcc he.symm)]
    exact ⟨h1, h2⟩

theorem findNFGo_none (assign : List Nat) : ∀ (L : List Nat) (k0 : Nat),
    findNFGo assign L k0 = none →
    ∀ l ∈ L, assign.getD (litVi l) BOTTOM ^^^ (l &&& 1) = 0 := by
  intro L
  induction L with
  | nil =>
    intro k0 h l hl
    cases hl
  | cons a L ih =>
    intro k0 h l hl
    rw [findNFGo] at h
    by_cases hcnd : (((a &&& 1) ^^^ assign.getD (litVi a) BOTTOM) != 0) = true
    · rw [if_pos hcnd] at h
      cases h
    · rw [if_neg hcnd] at h
      rcases List.mem_cons.mp hl with rfl | hm
      · simp only [bne_iff_ne, ne_eq, not_not] at hcnd
        rw [Nat.xor_comm]
        exact hcnd
      · exact ih (k0 + 1) h l hm

theorem findNFGo_some (assign : List Nat) : ∀ (L : List Nat) (k0 k lk : Nat),
    findNFGo assign L k0 = some (k, lk) →
    k0 ≤ k ∧ k - k0 < L.length ∧ L.getD (k - k0) 0 = lk ∧
    ¬ assign.getD (litVi lk) BOTTOM ^^^ (lk &&& 1) = 0 := by
  intro L
  induction L with
  | nil =>
    intro k0 k lk h
    cases h
  | cons a L ih =>
    intro k0 k lk h
    rw [findNFGo] at h
    by_cases hcnd : (((a &&& 1) ^^^ assign.getD (litVi a) BOTTOM) != 0) = true
    · rw [if_pos hcnd] at h
      injection h with h2
      injection h2 with hk hlk
      subst hk
      subst hlk
      refine ⟨Nat.le_refl _, by simp, by simp, ?_⟩
      simp only [bne_iff_ne, ne_eq] at hcnd
      rw [Nat.xor_comm]
      exact hcnd
    · rw [if_neg hcnd] at h
      obtain ⟨g1, g2, g3, g4⟩ := ih (k0 + 1) k lk h
      refine ⟨by omega, ?_, ?_, g4⟩
      · simp only [List.length_cons]
        omega
      · have he : k - k0 = (k - (k0 + 1)) + 1 := by omega
        rw [he]
        exact g3

theorem PWf_enqueue (s : AssignStack) (vars : List Var) (cdb : ClauseDB) (l cid : Nat)
    (hwf : PWf s cdb) (hb : litVi l < s.assign.length)
    (hT : ¬ s.assigned l = LTRUE) (hF : ¬ s.assigned l = LFALSE) :
    PWf (uncheckEnqueue s vars l cid).1 cdb ∧
    (uncheckEnqueue s vars l cid).1.qHead = s.qHead ∧
    s.trail.length ≤ (uncheckEnqueue s vars l cid).1.trail.length ∧
    (∀ l2, s.assigned l2 = LFALSE → (uncheckEnqueue s vars l cid).1.assigned l2 = LFALSE) ∧
    (∀ l2, s.assigned l2 = LTRUE → (uncheckEnqueue s vars l cid).1.assigned l2 = LTRUE) := by
  obtain ⟨f1, f2, f3, f4, f5, f6⟩ := uncheckEnqueue_facts s vars l cid hb hT hF
  have hFp : ∀ l2, s.assigned l2 = LFALSE →
      (uncheckEnqueue s vars l cid).1.assigned l2 = LFALSE := by
    intro l2 h2
    rw [f5 l2 (Or.inr h2)]
    exact h2
  have hTp : ∀ l2, s.assigned l2 = LTRUE →
      (uncheckEnqueue s vars l cid).1.assigned l2 = LTRUE := by
    intro l2 h2
    rw [f5 l2 (Or.inl h2)]
    exact h2
  refine ⟨⟨?_, ?_, hwf.uniq, ?_⟩, f3, by rw [f2]; simp, hFp, hTp⟩
  · intro l2 hl2
    rw [f2] at hl2
    rcases List.mem_append.mp hl2 with hm | hm
    · exact hTp l2 (hwf.trailT l2 hm)
    · have : l2 = l := by simpa using hm
      rw [this]
      exact f6
  · intro q w hw
    exact WatchOK_assign_len _ _ _ _ _ f1 (hwf.watch q w hw)
  · rw [f3, f2]
    have := hwf.qh
    simp only [List.length_append, List.length_cons, List.length_nil]
    omega


theorem assigned_negate (s : AssignStack) (l : Nat) :
    s.assigned (litNegate l) = s.assigned l ^^^ 1 := by
  unfold AssignStack.assigned
  rw [litVi_negate]
  have hb : litNegate l &&& 1 = (l &&& 1) ^^^ 1 := by
    unfold litNegate
    rw [Nat.and_xor_distrib_right]
    rw [show (1 : Nat) &&& 1 = 1 from by decide]
  rw [hb, Nat.xor_assoc]

theorem assigned_negate_false (s : AssignStack) (l : Nat) (h : s.assigned l = LTRUE) :
    s.assigned (litNegate l) = LFALSE := by
  rw [assigned_negate, h]
  decide

theorem assigned_catchup (s : AssignStack) (l : Nat) : s.catchup.assigned l = s.assigned l := rfl

theorem mem_getD_set (L : List (List Watch)) (i : Nat) (v : List Watch) (q : Nat)
    (w2 : Watch) (h : w2 ∈ (L.set i v).getD q []) :
    (q = i ∧ w2 ∈ v) ∨ w2 ∈ L.getD q [] := by
  by_cases hq : q = i
  · subst hq
    by_cases hlt : q < L.length
    · rw [getDv_set_self _ _ hlt] at h
      exact Or.inl ⟨rfl, h⟩
    · rw [List.set_eq_of_length_le (by omega)] at h
      exact Or.inr h
  · rw [getDv_set_ne _ _ (fun he => hq he.symm)] at h
    exact Or.inr h

theorem getD_set_list (L : List (List Watch)) (i : Nat) (v : List Watch) (q : Nat)
    (hq : q ≠ i) : (L.set i v).getD q [] = L.getD q [] :=
  getDv_set_ne _ _ (fun he => hq he.symm)

theorem map_eraseIdx_watch : ∀ (L : List Watch) (n : Nat),
    (L.eraseIdx n).map Watch.c = (L.map Watch.c).eraseIdx n := by
  intro L
  induction L with
  | nil =>
    intro n
    cases n <;> rfl
  | cons a L ih =>
    intro n
    cases n with
    | zero => rfl
    | succ n =>
      show Watch.c a :: (L.eraseIdx n).map Watch.c = Watch.c a :: (L.map Watch.c).eraseIdx n
      rw [ih]

theorem nodup_eraseIdx_not_mem : ∀ (L : List Nat) (n : Nat), L.Nodup → n < L.length →
    L.getD n 0 ∉ L.eraseIdx n := by
  intro L
  induction L with
  | nil =>
    intro n _ h
    simp at h
  | cons a L ih =>
    intro n hnd hn
    have hc := List.nodup_cons.mp hnd
    cases n with
    | zero =>
      show a ∉ L
      exact hc.1
    | succ n =>
      show L.getD n 0 ∉ a :: L.eraseIdx n
      intro hmem
      rcases List.mem_cons.mp hmem with he | hm
      · exact hc.1 (he ▸ getD_mem 0 (by simpa using hn))
      · exact ih n hc.2 (by simpa using hn) hm

theorem eraseIdx_map_nodup (L : List Watch) (n : Nat) (h : (L.map Watch.c).Nodup) :
    ((L.eraseIdx n).map Watch.c).Nodup := by
  rw [map_eraseIdx_watch]
  exact h.sublist (List.eraseIdx_sublist _ n)

theorem map_set_same (L : List Watch) (n : Nat) (e : Watch) (hn : n < L.length)
    (he : e.c = (L.getD n default).c) :
    (L.set n e).map Watch.c = L.map Watch.c := by
  rw [List.map_set, he, ← getDv_map Watch.c 0 default hn]
  exact set_getD_eq _ n


theorem mem_getD_set2 (L : List (List Watch)) (i : Nat) (v : List Watch) (q : Nat)
    (w2 : Watch) (hi : i < L.length) (h : w2 ∈ (L.set i v).getD q []) :
    (q = i ∧ w2 ∈ v) ∨ (q ≠ i ∧ w2 ∈ L.getD q []) := by
  by_cases hq : q = i
  · subst hq
    rw [getDv_set_self _ _ hi] at h
    exact Or.inl ⟨rfl, h⟩
  · rw [getDv_set_ne _ _ (fun he => hq he.symm)] at h
    exact Or.inr ⟨hq, h⟩

theorem relink_pres (asn : AssignStack) (cdb1 cdb3 : ClauseDB) (p n : Nat) (w : Watch)
    (first lk : Nat) (rest : List Nat) (k2 : Nat)
    (hw : ∀ q w2, w2 ∈ cdb1.watcher.getD q [] → WatchOK asn.assign cdb1.clause q w2)
    (hu : ∀ q, ((cdb1.watcher.getD q []).map Watch.c).Nodup)
    (hn : n < (cdb1.watcher.getD p []).length)
    (hwn : (cdb1.watcher.getD p []).getD n default = w)
    (hc : (cdb1.clause.getD w.c default).lits = first :: litNegate p :: rest)
    (hk2 : k2 < rest.length) (hlk : rest.getD k2 0 = lk)
    (hlknp : lk ≠ litNegate p)
    (hcl3 : cdb3.clause = cdb1.clause.set w.c ⟨first :: lk :: rest.set k2 (litNegate p)⟩)
    (hwt3 : cdb3.watcher = (cdb1.watcher.set (litNegate lk)
        (cdb1.watcher.getD (litNegate lk) [] ++ [⟨first, w.c⟩])).set p
        ((cdb1.watcher.getD p []).eraseIdx n)) :
    (∀ q w2, w2 ∈ cdb3.watcher.getD q [] → WatchOK asn.assign cdb3.clause q w2) ∧
    (∀ q, ((cdb3.watcher.getD q []).map Watch.c).Nodup) := by
  have hpw : p < cdb1.watcher.length := by
    by_contra hge
    push_neg at hge
    rw [List.getD_eq_getElem?_getD, List.getElem?_eq_none hge] at hn
    simp at hn
  have hW := hw p w (hwn ▸ getDw_mem default hn)
  have hnd1 : (first :: litNegate p :: rest).Nodup := by
    have h2 := hW.nodup
    rw [hc] at h2
    exact h2
  have hlkrest : lk ∈ rest := hlk ▸ getD_mem 0 hk2
  have hfirstlk : first ≠ lk := by
    intro he
    have h2 := (List.nodup_cons.mp hnd1).1
    exact h2 (List.mem_cons_of_mem _ (he ▸ hlkrest))
  have hnlp : litNegate lk ≠ p := by
    intro he
    apply hlknp
    rw [← litNegate_invol lk, he]
  have hwcl : w.c < cdb1.clause.length := clause_lt _ _ (by rw [hc]; simp)
  have hG3 : cdb3.clause.getD w.c default = ⟨first :: lk :: rest.set k2 (litNegate p)⟩ := by
    rw [hcl3]
    exact getDv_set_self _ default hwcl
  have hG3ne : ∀ x, x ≠ w.c → cdb3.clause.getD x default = cdb1.clause.getD x default := by
    intro x hx
    rw [hcl3]
    exact getDv_set_ne _ default (fun he => hx he.symm)
  have hperm : List.Perm (first :: lk :: rest.set k2 (litNegate p))
      (first :: litNegate p :: rest) := by
    apply List.Perm.cons first
    have h2 := cons_set_perm rest k2 (litNegate p) hk2
    rw [hlk] at h2
    exact h2
  have hnd2 : (first :: lk :: rest.set k2 (litNegate p)).Nodup := hperm.symm.nodup hnd1
  have hbnd1 : ∀ l2 ∈ first :: litNegate p :: rest, litVi l2 < asn.assign.length := by
    intro l2 hl2
    apply hW.bounds
    rw [hc]
    exact hl2
  have hbnd2 : ∀ l2 ∈ first :: lk :: rest.set k2 (litNegate p),
      litVi l2 < asn.assign.length := fun l2 hl2 => hbnd1 l2 (hperm.subset hl2)
  have hlen2ne : ¬ (first :: lk :: rest.set k2 (litNegate p)).length = 2 := by
    simp only [List.length_cons, List.length_set]
    omega
  have htrans : ∀ q w2, w2.c ≠ w.c → WatchOK asn.assign cdb1.clause q w2 →
      WatchOK asn.assign cdb3.clause q w2 := by
    intro q w2 hcc hWold
    have hne3 := hG3ne w2.c hcc
    exact ⟨by rw [hne3]; exact hWold.twoLe, by rw [hne3]; exact hWold.watchL,
      by rw [hne3]; exact hWold.bounds, by rw [hne3]; exact hWold.nodup,
      by rw [hne3]; exact hWold.blockPair⟩
  constructor
  · intro q w2 hmem3
    rw [hwt3] at hmem3
    rcases mem_getD_set2 _ p _ q w2 (by rw [List.length_set]; exact hpw) hmem3 with
      ⟨hqpe, hm⟩ | ⟨hqp, hm1⟩
    · have hm2 : w2 ∈ cdb1.watcher.getD p [] :=
        List.Sublist.mem hm (List.eraseIdx_sublist _ n)
      have hWold := hw p w2 hm2
      by_cases hcc : w2.c = w.c
      · exfalso
        have hmapmem : w2.c ∈ ((cdb1.watcher.getD p []).eraseIdx n).map Watch.c :=
          List.mem_map_of_mem _ hm
        rw [map_eraseIdx_watch] at hmapmem
        have hgd : ((cdb1.watcher.getD p []).map Watch.c).getD n 0 = w.c := by
          rw [getDv_map Watch.c 0 default hn, hwn]
        have hne := nodup_eraseIdx_not_mem _ n (hu p) (by simpa using hn)
        rw [hgd] at hne
        rw [hcc] at hmapmem
        exact hne hmapmem
      · rw [hqpe]
        exact htrans p w2 hcc hWold
    · rcases mem_getD_set _ (litNegate lk) _ q w2 hm1 with ⟨rfl, hm⟩ | hm2
      · rcases List.mem_append.mp hm with hmo | hmn
        · have hWold := hw _ w2 hmo
          by_cases hcc : w2.c = w.c
          · exfalso
            have hwl := hWold.watchL
            rw [hcc, hc] at hwl
            have e0 : (first :: litNegate p :: rest).getD 0 0 = first := rfl
            have e1 : (first :: litNegate p :: rest).getD 1 0 = litNegate p := rfl
            rw [e0, e1, litNegate_invol] at hwl
            rcases hwl with h | h
            · exact hfirstlk h
            · exact hlknp h.symm
          · exact htrans _ w2 hcc hWold
        · have hw2 : w2 = ⟨first, w.c⟩ := by simpa using hmn
          subst hw2
          have hcw : (⟨first, w.c⟩ : Watch).c = w.c := rfl
          refine ⟨?_, ?_, ?_, ?_, ?_⟩
          · rw [hcw, hG3]
            simp
          · rw [hcw, hG3]
            refine Or.inr ?_
            show lk = litNegate (litNegate lk)
            rw [litNegate_invol]
          · rw [hcw, hG3]
            exact hbnd2
          · rw [hcw, hG3]
            exact hnd2
          · rw [hcw, hG3]
            intro h2
            exact absurd h2 hlen2ne
      · have hWold := hw q w2 hm2
        by_cases hcc : w2.c = w.c
        · have hwl := hWold.watchL
          rw [hcc, hc] at hwl
          have e0 : (first :: litNegate p :: rest).getD 0 0 = first := rfl
          have e1 : (first :: litNegate p :: rest).getD 1 0 = litNegate p := rfl
          rw [e0, e1] at hwl
          have hfq : first = litNegate q := by
            rcases hwl with h | h
            · exact h
            · exfalso
              apply hqp
              rw [← litNegate_invol q, ← h, litNegate_invol]
          refine ⟨?_, ?_, ?_, ?_, ?_⟩
          · rw [hcc, hG3]
            simp
          · rw [hcc, hG3]
            exact Or.inl hfq
          · rw [hcc, hG3]
            exact hbnd2
          · rw [hcc, hG3]
            exact hnd2
          · rw [hcc, hG3]
            intro h2
            exact absurd h2 hlen2ne
        · exact htrans q w2 hcc hWold
  · intro q
    rw [hwt3]
    by_cases hqp : q = p
    · rw [hqp, getDv_set_self _ _ (by rw [List.length_set]; exact hpw)]
      exact eraseIdx_map_nodup _ _ (hu p)
    · rw [getD_set_list _ _ _ _ hqp]
      by_cases hqnl : q = litNegate lk
      · by_cases hnl : litNegate lk < cdb1.watcher.length
        · rw [hqnl, getDv_set_self _ _ hnl, List.map_append]
          rw [List.nodup_append]
          refine ⟨hu _, by simp, ?_⟩
          intro a ha hb
          have ha2 : a = w.c := by simpa using hb
          subst ha2
          obtain ⟨w2, hw2m, hw2c⟩ := List.mem_map.mp ha
          have hWold := hw _ w2 hw2m
          have hwl := hWold.watchL
          rw [hw2c, hc] at hwl
          have e0 : (first :: litNegate p :: rest).getD 0 0 = first := rfl
          have e1 : (first :: litNegate p :: rest).getD 1 0 = litNegate p := rfl
          rw [e0, e1, litNegate_invol] at hwl
          rcases hwl with h | h
          · exact hfirstlk h
          · exact hlknp h.symm
        · rw [List.set_eq_of_length_le (by omega)]
          exact hu _
      · rw [getD_set_list _ _ _ _ hqnl]
        exact hu q


theorem blocker_pres (asn : AssignStack) (cdb1 cdb2 : ClauseDB) (p n : Nat) (w : Watch)
    (first : Nat)
    (hw : ∀ q w2, w2 ∈ cdb1.watcher.getD q [] → WatchOK asn.assign cdb1.clause q w2)
    (hu : ∀ q, ((cdb1.watcher.getD q []).map Watch.c).Nodup)
    (hn : n < (cdb1.watcher.getD p []).length)
    (hwn : (cdb1.watcher.getD p []).getD n default = w)
    (hlen : ¬ (cdb1.clause.getD w.c default).lits.length = 2)
    (hcl2 : cdb2.clause = cdb1.clause)
    (hwt2 : cdb2.watcher = cdb1.watcher.set p ((cdb1.watcher.getD p []).set n ⟨first, w.c⟩)) :
    (∀ q w2, w2 ∈ cdb2.watcher.getD q [] → WatchOK asn.assign cdb2.clause q w2) ∧
    (∀ q, ((cdb2.watcher.getD q []).map Watch.c).Nodup) := by
  have hW := hw p w (hwn ▸ getDw_mem default hn)
  constructor
  · intro q w2 hmem
    rw [hwt2] at hmem
    rw [hcl2]
    rcases mem_getD_set _ p _ q w2 hmem with ⟨hqe, hm⟩ | hm2
    · rcases List.mem_or_eq_of_mem_set hm with hm3 | he
      · rw [hqe]
        exact hw p w2 hm3
      · rw [he, hqe]
        exact ⟨hW.twoLe, hW.watchL, hW.bounds, hW.nodup, fun h2 => absurd h2 hlen⟩
    · exact hw q w2 hm2
  · intro q
    rw [hwt2]
    by_cases hqp : q = p
    · rw [hqp]
      by_cases hpw : p < cdb1.watcher.length
      · rw [getDv_set_self _ _ hpw]
        rw [map_set_same _ n _ hn (by rw [hwn])]
        exact hu p
      · rw [List.set_eq_of_length_le (by omega)]
        exact hu p
    · rw [getD_set_list _ _ _ _ hqp]
      exact hu q


theorem set_cons_two (x y : Nat) (l : List Nat) (m : Nat) (v : Nat) :
    (x :: y :: l).set (m + 2) v = x :: y :: l.set m v := rfl

theorem relink_lits_perm (first lk : Nat) (rest : List Nat) (k2 : Nat) (p : Nat)
    (hk2 : k2 < rest.length) (hlk : rest.getD k2 0 = lk) :
    List.Perm (first :: lk :: rest.set k2 (litNegate p)) (first :: litNegate p :: rest) := by
  apply List.Perm.cons first
  have h2 := cons_set_perm rest k2 (litNegate p) hk2
  rw [hlk] at h2
  exact h2

theorem innerLoop_spec (minz : Bool) (p : Nat) : ∀ (fuel : Nat) (asn : AssignStack)
    (vars : List Var) (cdb : ClauseDB) (n cc ccs : Nat)
    (res : (AssignStack × List Var × ClauseDB × Nat) ⊕
           (AssignStack × List Var × ClauseDB × Nat × Nat)),
    innerLoop minz p fuel asn vars cdb n cc ccs = some res →
    PWf asn cdb →
    asn.assigned p = LTRUE →
    (cc ≠ NULL_CLAUSE → allFalse asn cdb.clause cc) →
    (∀ a2 v2 c2 cid, res = Sum.inl (a2, v2, c2, cid) →
      a2.qHead = a2.trail.length ∧ asn.trail.length ≤ a2.trail.length ∧
      allFalse a2 c2.clause cid) ∧
    (∀ a2 v2 c2 cc2 ccs2, res = Sum.inr (a2, v2, c2, cc2, ccs2) →
      PWf a2 c2 ∧ a2.qHead = asn.qHead ∧ asn.trail.length ≤ a2.trail.length ∧
      (cc2 ≠ NULL_CLAUSE → allFalse a2 c2.clause cc2)) := by
  intro fuel
  induction fuel with
  | zero =>
    intro asn vars cdb n cc ccs res hrun
    exact Option.noConfusion hrun
  | succ fuel ih =>
    intro asn vars cdb n cc ccs res hrun hwf hpT hcc
    rw [innerLoop] at hrun
    by_cases hn : n < (cdb.watcher.getD p []).length
    case neg =>
      rw [if_neg hn] at hrun
      injection hrun with hres
      constructor
      · intro a2 v2 c2 cid heq
        rw [← hres] at heq
        exact Sum.noConfusion heq
      · intro a2 v2 c2 cc2 ccs2 heq
        rw [← hres] at heq
        injection heq with h2
        simp only [Prod.mk.injEq] at h2
        obtain ⟨ha, hv, hc2e, hcce, hccse⟩ := h2
        subst ha
        subst hv
        subst hc2e
        subst hcce
        exact ⟨hwf, rfl, Nat.le_refl _, hcc⟩
    case pos =>
      rw [if_pos hn] at hrun
      dsimp only at hrun
      obtain ⟨w, hw0⟩ : ∃ x, (cdb.watcher.getD p []).getD n default = x := ⟨_, rfl⟩
      rw [hw0] at hrun
      obtain ⟨bv, hbv0⟩ : ∃ x, asn.assigned w.blocker = x := ⟨_, rfl⟩
      rw [hbv0] at hrun
      have hW := hwf.watch p w (hw0 ▸ getDw_mem default hn)
      have hu0 := hwf.uniq
      have hrecur : ∀ (X : ClauseDB) (n2 cc2 ccs2 : Nat),
          innerLoop minz p fuel asn vars X n2 cc2 ccs2 = some res →
          PWf asn X →
          (cc2 ≠ NULL_CLAUSE → allFalse asn X.clause cc2) →
          (∀ a2 v2 c2 cid, res = Sum.inl (a2, v2, c2, cid) →
            a2.qHead = a2.trail.length ∧ asn.trail.length ≤ a2.trail.length ∧
            allFalse a2 c2.clause cid) ∧
          (∀ a2 v2 c2 cc2x ccs2x, res = Sum.inr (a2, v2, c2, cc2x, ccs2x) →
            PWf a2 c2 ∧ a2.qHead = asn.qHead ∧ asn.trail.length ≤ a2.trail.length ∧
            (cc2x ≠ NULL_CLAUSE → allFalse a2 c2.clause cc2x)) := by
        intro X n2 cc2 ccs2 hr hwfX hccX
        exact ih asn vars X n2 cc2 ccs2 res hr hwfX hpT hccX
      have hrecurE : ∀ (X : ClauseDB) (l cid2 n2 cc2 ccs2 : Nat),
          innerLoop minz p fuel (uncheckEnqueue asn vars l cid2).1
            (uncheckEnqueue asn vars l cid2).2 X n2 cc2 ccs2 = some res →
          PWf asn X →
          litVi l < asn.assign.length →
          ¬ asn.assigned l = LTRUE →
          ¬ asn.assigned l = LFALSE →
          (cc2 ≠ NULL_CLAUSE → allFalse asn X.clause cc2) →
          (∀ a2 v2 c2 cid, res = Sum.inl (a2, v2, c2, cid) →
            a2.qHead = a2.trail.length ∧ asn.trail.length ≤ a2.trail.length ∧
            allFalse a2 c2.clause cid) ∧
          (∀ a2 v2 c2 cc2x ccs2x, res = Sum.inr (a2, v2, c2, cc2x, ccs2x) →
            PWf a2 c2 ∧ a2.qHead = asn.qHead ∧ asn.trail.length ≤ a2.trail.length ∧
            (cc2x ≠ NULL_CLAUSE → allFalse a2 c2.clause cc2x)) := by
        intro X l cid2 n2 cc2 ccs2 hr hwfX hbl hT hF hccX
        obtain ⟨hwf2, hq2, htr2, hFp, hTp⟩ := PWf_enqueue asn vars X l cid2 hwfX hbl hT hF
        have hcc2 : cc2 ≠ NULL_CLAUSE →
            allFalse (uncheckEnqueue asn vars l cid2).1 X.clause cc2 := by
          intro hne
          obtain ⟨g1, g2⟩ := hccX hne
          exact ⟨g1, fun l2 hl2 => hFp l2 (g2 l2 hl2)⟩
        obtain ⟨ih1, ih2⟩ := ih _ _ X n2 cc2 ccs2 res hr hwf2 (hTp p hpT) hcc2
        constructor
        · intro a2 v2 c2 cid heq
          obtain ⟨g1, g2, g3⟩ := ih1 a2 v2 c2 cid heq
          exact ⟨g1, le_trans htr2 g2, g3⟩
        · intro a2 v2 c2 cc3 ccs3 heq
          obtain ⟨g1, g2, g3, g4⟩ := ih2 a2 v2 c2 cc3 ccs3 heq
          refine ⟨g1, ?_, le_trans htr2 g3, g4⟩
          rw [g2, hq2]
      have hconfl : ∀ (X : ClauseDB) (cid2 : Nat),
          some (Sum.inl (asn.catchup, vars, X, cid2) :
            (AssignStack × List Var × ClauseDB × Nat) ⊕
            (AssignStack × List Var × ClauseDB × Nat × Nat)) = some res →
          allFalse asn X.clause cid2 →
          (∀ a2 v2 c2 cid, res = Sum.inl (a2, v2, c2, cid) →
            a2.qHead = a2.trail.length ∧ asn.trail.length ≤ a2.trail.length ∧
            allFalse a2 c2.clause cid) ∧
          (∀ a2 v2 c2 cc2x ccs2x, res = Sum.inr (a2, v2, c2, cc2x, ccs2x) →
            PWf a2 c2 ∧ a2.qHead = asn.qHead ∧ asn.trail.length ≤ a2.trail.length ∧
            (cc2x ≠ NULL_CLAUSE → allFalse a2 c2.clause cc2x)) := by
        intro X cid2 hr hAF
        injection hr with hres
        constructor
        · intro a2 v2 c2 cid heq
          rw [← hres] at heq
          injection heq with h2
          simp only [Prod.mk.injEq] at h2
          obtain ⟨ha, hv, hc2e, hd⟩ := h2
          subst ha
          subst hv
          subst hc2e
          subst hd
          exact ⟨rfl, Nat.le_refl _, hAF⟩
        · intro a2 v2 c2 cc2x ccs2x heq
          rw [← hres] at heq
          exact Sum.noConfusion heq
      by_cases hbT : (bv != LTRUE) = true
      case neg =>
        rw [if_neg hbT] at hrun
        exact hrecur cdb (n + 1) cc ccs hrun hwf hcc
      case pos =>
        rw [if_pos hbT] at hrun
        by_cases hb2 : ((cdb.clause.getD w.c default).lits.length == 2) = true
        · rw [if_pos hb2] at hrun
          have hl2 : (cdb.clause.getD w.c default).lits.length = 2 := beq_iff_eq.mp hb2
          have hFn : asn.assigned (litNegate p) = LFALSE := assigned_negate_false asn p hpT
          by_cases hbF : (bv == LFALSE) = true
          · rw [if_pos hbF] at hrun
            have hbvF : bv = LFALSE := beq_iff_eq.mp hbF
            have hFb : asn.assigned w.blocker = LFALSE := by
              rw [hbv0]
              exact hbvF
            obtain ⟨a, b, rest, hab⟩ :=
              exists_two (cdb.clause.getD w.c default).lits (by omega)
            have hbp := hW.blockPair hl2
            rw [hab] at hbp
            have g0 : (a :: b :: rest).getD 0 0 = a := rfl
            have g1 : (a :: b :: rest).getD 1 0 = b := rfl
            rw [g0, g1] at hbp
            have hAF : allFalse asn cdb.clause w.c := by
              refine ⟨by omega, ?_⟩
              intro l hl
              rw [hab] at hl
              rcases List.mem_cons.mp hl with rfl | hl2m
              · rcases hbp with ⟨hp1, hp2⟩ | ⟨hp1, hp2⟩
                · rw [hp1]
                  exact hFn
                · rw [← hp2]
                  exact hFb
              · rcases List.mem_cons.mp hl2m with rfl | hl3m
                · rcases hbp with ⟨hp1, hp2⟩ | ⟨hp1, hp2⟩
                  · rw [← hp2]
                    exact hFb
                  · rw [hp1]
                    exact hFn
                · have hrest : rest = [] := by
                    rw [hab] at hl2
                    simp only [List.length_cons] at hl2
                    exact List.length_eq_zero.mp (by omega)
                  rw [hrest] at hl3m
                  cases hl3m
            exact hconfl cdb w.c hrun hAF
          · rw [if_neg hbF] at hrun
            have hbvT : ¬ bv = LTRUE := bne_iff_ne.mp hbT
            have hbvFn : ¬ bv = LFALSE := by
              intro he
              apply hbF
              rw [he]
              rfl
            have hbb : litVi w.blocker < asn.assign.length := by
              have hbp := hW.blockPair hl2
              obtain ⟨a, b, rest, hab⟩ :=
                exists_two (cdb.clause.getD w.c default).lits (by omega)
              rw [hab] at hbp
              have g0 : (a :: b :: rest).getD 0 0 = a := rfl
              have g1 : (a :: b :: rest).getD 1 0 = b := rfl
              rw [g0, g1] at hbp
              rcases hbp with ⟨hp1, hp2⟩ | ⟨hp1, hp2⟩
              · apply hW.bounds
                rw [hab, hp2]
                exact List.mem_cons_of_mem _ (List.mem_cons_self _ _)
              · apply hW.bounds
                rw [hab, hp2]
                exact List.mem_cons_self _ _
            exact hrecurE cdb w.blocker w.c (n + 1) cc ccs hrun hwf hbb
              (by rw [hbv0]; exact hbvT) (by rw [hbv0]; exact hbvFn) hcc
        · rw [if_neg hb2] at hrun
          obtain ⟨a, b, rest, hab⟩ :=
            exists_two (cdb.clause.getD w.c default).lits hW.twoLe
          by_cases hsw : ((cdb.clause.getD w.c default).lits.getD 0 0 == litNegate p) = true
          · rw [if_pos hsw] at hrun
            dsimp only at hrun
            have hswe : a = litNegate p := by
              have h2 := beq_iff_eq.mp hsw
              rw [hab] at h2
              exact h2
            rw [hab] at hrun
            have g1 : (a :: b :: rest).getD 1 0 = b := rfl
            rw [g1] at hrun
            have hset1 : ((a :: b :: rest).set 0 b).set 1 (litNegate p) =
                b :: litNegate p :: rest := rfl
            rw [hset1] at hrun
            have hwcl : w.c < cdb.clause.length := clause_lt _ _ hW.twoLe
            rw [getDv_set_self (⟨b :: litNegate p :: rest⟩ : PClause) default hwcl] at hrun
            dsimp only at hrun
            have hdrop : (b :: litNegate p :: rest).drop 2 = rest := rfl
            rw [hdrop] at hrun
            have hcL : ((cdb.clause.set w.c (⟨b :: litNegate p :: rest⟩ : PClause)).getD
                w.c default).lits = b :: litNegate p :: rest := by
              rw [getDv_set_self _ default hwcl]
            have hwv : ∀ q w2, w2 ∈ cdb.watcher.getD q [] →
                WatchOK asn.assign (cdb.clause.set w.c
                  (⟨b :: litNegate p :: rest⟩ : PClause)) q w2 := by
              intro q w2 hm
              have h2 := WatchOK_swap asn.assign cdb.clause w.c a b rest hab q w2
                (hwf.watch q w2 hm)
              rw [hswe] at h2
              exact h2
            have hccL : cc ≠ NULL_CLAUSE →
                allFalse asn (cdb.clause.set w.c
                  (⟨b :: litNegate p :: rest⟩ : PClause)) cc := by
              refine ccInv_set asn cdb.clause w.c (b :: litNegate p :: rest) ?_ ?_ cc hcc
              · intro x hx
                rw [← hswe] at hx
                rw [hab]
                rcases List.mem_cons.mp hx with rfl | hx2
                · exact List.mem_cons_of_mem _ (List.mem_cons_self _ _)
                · rcases List.mem_cons.mp hx2 with rfl | hx3
                  · exact List.mem_cons_self _ _
                  · exact List.mem_cons_of_mem _ (List.mem_cons_of_mem _ hx3)
              · intro h2
                simp only [List.length_cons]
                omega
            have hl2n : ¬ ((cdb.clause.set w.c
                (⟨b :: litNegate p :: rest⟩ : PClause)).getD w.c default).lits.length = 2 := by
              rw [hcL]
              have h2 : ¬ (cdb.clause.getD w.c default).lits.length = 2 :=
                fun he => hb2 (by rw [he]; rfl)
              rw [hab] at h2
              simp only [List.length_cons] at h2 ⊢
              omega
            by_cases hsat : (b != w.blocker && (asn.assigned b == LTRUE)) = true
            · rw [if_pos hsat] at hrun
              have hBl := blocker_pres asn
                (ClauseDB.mk (cdb.clause.set w.c (⟨b :: litNegate p :: rest⟩ : PClause))
                  cdb.watcher)
                (ClauseDB.mk (cdb.clause.set w.c (⟨b :: litNegate p :: rest⟩ : PClause))
                  (cdb.watcher.set p ((cdb.watcher.getD p []).set n (⟨b, w.c⟩ : Watch))))
                p n w b hwv hu0 hn hw0 hl2n rfl rfl
              exact hrecur _ (n + 1) cc ccs hrun ⟨hwf.trailT, hBl.1, hBl.2, hwf.qh⟩ hccL
            · rw [if_neg hsat] at hrun
              obtain ⟨FR, hFR⟩ : ∃ x, findNFGo asn.assign rest 2 = x := ⟨_, rfl⟩
              rw [hFR] at hrun
              cases FR with
              | some kl =>
                dsimp only at hrun
                obtain ⟨hk1, hk2, hk3, hk4⟩ := findNFGo_some asn.assign rest 2 kl.1 kl.2 hFR
                have hlknp : kl.2 ≠ litNegate p := by
                  intro he
                  apply hk4
                  have h2 : asn.assigned kl.2 = LFALSE := by
                    rw [he]
                    exact assigned_negate_false asn p hpT
                  exact h2
                have hpneq : p ≠ litNegate kl.2 := by
                  intro he
                  exact hlknp (by rw [he, litNegate_invol])
                simp only [ClauseDB.register, ClauseDB.detach] at hrun
                have hset2 : (b :: litNegate p :: rest).set 1 kl.2 = b :: kl.2 :: rest := rfl
                rw [hset2] at hrun
                rw [show kl.1 = kl.1 - 2 + 2 from by omega] at hrun
                rw [set_cons_two b kl.2 rest (kl.1 - 2) (litNegate p)] at hrun
                rw [getD_set_list _ _ _ _ hpneq] at hrun
                have hRel := relink_pres asn
                  (ClauseDB.mk (cdb.clause.set w.c (⟨b :: litNegate p :: rest⟩ : PClause))
                    cdb.watcher)
                  (ClauseDB.mk ((cdb.clause.set w.c
                      (⟨b :: litNegate p :: rest⟩ : PClause)).set w.c
                      (⟨b :: kl.2 :: rest.set (kl.1 - 2) (litNegate p)⟩ : PClause))
                    ((cdb.watcher.set (litNegate kl.2) (cdb.watcher.getD (litNegate kl.2) [] ++
                        [(⟨b, w.c⟩ : Watch)])).set p ((cdb.watcher.getD p []).eraseIdx n)))
                  p n w b kl.2 rest (kl.1 - 2) hwv hu0 hn hw0 hcL hk2 hk3 hlknp rfl rfl
                refine hrecur _ n cc ccs hrun ⟨hwf.trailT, ?_, ?_, hwf.qh⟩ ?_
                · exact hRel.1
                · exact hRel.2
                · refine ccInv_set asn
                    (cdb.clause.set w.c (⟨b :: litNegate p :: rest⟩ : PClause)) w.c
                    (b :: kl.2 :: rest.set (kl.1 - 2) (litNegate p)) ?_ ?_ cc hccL
                  · intro x hx
                    rw [hcL]
                    exact (relink_lits_perm b kl.2 rest (kl.1 - 2) p hk2 hk3).subset hx
                  · intro h2
                    simp only [List.length_cons]
                    omega
              | none =>
                dsimp only at hrun
                by_cases hfF : (asn.assigned b == LFALSE) = true
                · rw [if_pos hfF] at hrun
                  have hAF : allFalse asn
                      (cdb.clause.set w.c (⟨b :: litNegate p :: rest⟩ : PClause)) w.c := by
                    constructor
                    · rw [hcL]
                      simp only [List.length_cons]
                      omega
                    · intro l hl
                      rw [hcL] at hl
                      rcases List.mem_cons.mp hl with rfl | hl2
                      · exact beq_iff_eq.mp hfF
                      · rcases List.mem_cons.mp hl2 with rfl | hl3
                        · exact assigned_negate_false asn p hpT
                        · exact findNFGo_none asn.assign rest 2 hFR l hl3
                  by_cases hmz : (!minz) = true
                  · rw [if_pos hmz] at hrun
                    exact hconfl _ w.c hrun hAF
                  · rw [if_neg hmz] at hrun
                    by_cases hr2 : (cc == NULL_CLAUSE ||
                        decide ((b :: litNegate p :: rest).length < ccs)) = true
                    · rw [if_pos hr2] at hrun
                      dsimp only at hrun
                      exact hrecur _ (n + 1) _ _ hrun ⟨hwf.trailT, hwv, hu0, hwf.qh⟩
                        (fun _ => hAF)
                    · rw [if_neg hr2] at hrun
                      dsimp only at hrun
                      exact hrecur _ (n + 1) _ _ hrun ⟨hwf.trailT, hwv, hu0, hwf.qh⟩ hccL
                · rw [if_neg hfF] at hrun
                  refine hrecurE _ b w.c (n + 1) cc ccs hrun
                    ⟨hwf.trailT, hwv, hu0, hwf.qh⟩ ?_ ?_ ?_ hccL
                  · apply hW.bounds
                    rw [hab]
                    exact List.mem_cons_of_mem _ (List.mem_cons_self _ _)
                  · intro he
                    apply hsat
                    rw [Bool.and_eq_true]
                    constructor
                    · rw [bne_iff_ne]
                      intro hbe
                      have h2 : bv = LTRUE := by
                        rw [← hbv0, ← hbe]
                        exact he
                      rw [h2] at hbT
                      exact absurd hbT (by decide)
                    · rw [he]
                      rfl
                  · intro he
                    apply hfF
                    rw [he]
                    rfl
          · rw [if_neg hsw] at hrun
            dsimp only at hrun
            have hanp : ¬ a = litNegate p := by
              intro he
              apply hsw
              have g0 : (cdb.clause.getD w.c default).lits.getD 0 0 = a := by
                rw [hab]
                rfl
              rw [g0, he]
              exact beq_self_eq_true _
            have hbnp : b = litNegate p := by
              have hwl := hW.watchL
              rw [hab] at hwl
              rcases hwl with h2 | h2
              · exact absurd h2 hanp
              · exact h2
            rw [hbnp] at hab
            rw [hab] at hrun
            have g0 : (a :: litNegate p :: rest).getD 0 0 = a := rfl
            rw [g0] at hrun
            have hdrop : (a :: litNegate p :: rest).drop 2 = rest := rfl
            rw [hdrop] at hrun
            have hl2n : ¬ (cdb.clause.getD w.c default).lits.length = 2 :=
              fun he => hb2 (by rw [he]; rfl)
            by_cases hsat : (a != w.blocker && (asn.assigned a == LTRUE)) = true
            · rw [if_pos hsat] at hrun
              have hBl := blocker_pres asn cdb
                (ClauseDB.mk cdb.clause
                  (cdb.watcher.set p ((cdb.watcher.getD p []).set n (⟨a, w.c⟩ : Watch))))
                p n w a hwf.watch hu0 hn hw0 hl2n rfl rfl
              exact hrecur _ (n + 1) cc ccs hrun ⟨hwf.trailT, hBl.1, hBl.2, hwf.qh⟩ hcc
            · rw [if_neg hsat] at hrun
              obtain ⟨FR, hFR⟩ : ∃ x, findNFGo asn.assign rest 2 = x := ⟨_, rfl⟩
              rw [hFR] at hrun
              cases FR with
              | some kl =>
                dsimp only at hrun
                obtain ⟨hk1, hk2, hk3, hk4⟩ := findNFGo_some asn.assign rest 2 kl.1 kl.2 hFR
                have hlknp : kl.2 ≠ litNegate p := by
                  intro he
                  apply hk4
                  have h2 : asn.assigned kl.2 = LFALSE := by
                    rw [he]
                    exact assigned_negate_false asn p hpT
                  exact h2
                have hpneq : p ≠ litNegate kl.2 := by
                  intro he
                  exact hlknp (by rw [he, litNegate_invol])
                simp only [ClauseDB.register, ClauseDB.detach] at hrun
                have hset2 : (a :: litNegate p :: rest).set 1 kl.2 = a :: kl.2 :: rest := rfl
                rw [hset2] at hrun
                rw [show kl.1 = kl.1 - 2 + 2 from by omega] at hrun
                rw [set_cons_two a kl.2 rest (kl.1 - 2) (litNegate p)] at hrun
                rw [getD_set_list _ _ _ _ hpneq] at hrun
                have hRel := relink_pres asn cdb
                  (ClauseDB.mk (cdb.clause.set w.c
                      (⟨a :: kl.2 :: rest.set (kl.1 - 2) (litNegate p)⟩ : PClause))
                    ((cdb.watcher.set (litNegate kl.2) (cdb.watcher.getD (litNegate kl.2) [] ++
                        [(⟨a, w.c⟩ : Watch)])).set p ((cdb.watcher.getD p []).eraseIdx n)))
                  p n w a kl.2 rest (kl.1 - 2) hwf.watch hu0 hn hw0 hab hk2 hk3 hlknp rfl rfl
                refine hrecur _ n cc ccs hrun ⟨hwf.trailT, ?_, ?_, hwf.qh⟩ ?_
                · exact hRel.1
                · exact hRel.2
                · refine ccInv_set asn cdb.clause w.c
                    (a :: kl.2 :: rest.set (kl.1 - 2) (litNegate p)) ?_ ?_ cc hcc
                  · intro x hx
                    rw [hab]
                    exact (relink_lits_perm a kl.2 rest (kl.1 - 2) p hk2 hk3).subset hx
                  · intro h2
                    simp only [List.length_cons]
                    omega
              | none =>
                dsimp only at hrun
                by_cases hfF : (asn.assigned a == LFALSE) = true
                · rw [if_pos hfF] at hrun
                  have hAF : allFalse asn cdb.clause w.c := by
                    refine ⟨hW.twoLe, ?_⟩
                    intro l hl
                    rw [hab] at hl
                    rcases List.mem_cons.mp hl with rfl | hl2
                    · exact beq_iff_eq.mp hfF
                    · rcases List.mem_cons.mp hl2 with rfl | hl3
                      · exact assigned_negate_false asn p hpT
                      · exact findNFGo_none asn.assign rest 2 hFR l hl3
                  by_cases hmz : (!minz) = true
                  · rw [if_pos hmz] at hrun
                    exact hconfl _ w.c hrun hAF
                  · rw [if_neg hmz] at hrun
                    by_cases hr2 : (cc == NULL_CLAUSE ||
                        decide ((a :: litNegate p :: rest).length < ccs)) = true
                    · rw [if_pos hr2] at hrun
                      dsimp only at hrun
                      exact hrecur _ (n + 1) _ _ hrun
                        ⟨hwf.trailT, hwf.watch, hu0, hwf.qh⟩ (fun _ => hAF)
                    · rw [if_neg hr2] at hrun
                      dsimp only at hrun
                      exact hrecur _ (n + 1) _ _ hrun
                        ⟨hwf.trailT, hwf.watch, hu0, hwf.qh⟩ hcc
                · rw [if_neg hfF] at hrun
                  refine hrecurE _ a w.c (n + 1) cc ccs hrun
                    ⟨hwf.trailT, hwf.watch, hu0, hwf.qh⟩ ?_ ?_ ?_ hcc
                  · apply hW.bounds
                    rw [hab]
                    exact List.mem_cons_self _ _
                  · intro he
                    apply hsat
                    rw [Bool.and_eq_true]
                    constructor
                    · rw [bne_iff_ne]
                      intro hbe
                      have h2 : bv = LTRUE := by
                        rw [← hbv0, ← hbe]
                        exact he
                      rw [h2] at hbT
                      exact absurd hbT (by decide)
                    · rw [he]
                      rfl
                  · intro he
                    apply hfF
                    rw [he]
                    rfl


theorem exPWfP : PWf exAsnP exCdbP := by
  refine ⟨?_, ?_, ?_, ?_⟩
  · intro l hl
    have h2 : l = 2 := by simpa [exAsnP] using hl
    rw [h2]
    decide
  · intro q w2 hm
    rcases q with _ | _ | _ | _ | _ | _ | q
    · simp [exCdbP] at hm
    · simp [exCdbP] at hm
    · have h2 : w2 = (⟨4, 1⟩ : Watch) := by simpa [exCdbP] using hm
      rw [h2]
      exact ⟨by decide, by decide, by decide, by decide, by decide⟩
    · simp [exCdbP] at hm
    · simp [exCdbP] at hm
    · simp [exCdbP] at hm
    · rw [List.getD_eq_getElem?_getD, List.getElem?_eq_none (by simp [exCdbP])] at hm
      simp at hm
  · intro q
    rcases q with _ | _ | _ | _ | _ | _ | q
    · decide
    · decide
    · decide
    · decide
    · decide
    · decide
    · rw [List.getD_eq_getElem?_getD, List.getElem?_eq_none (by simp [exCdbP])]
      simp
  · decide

/-- C1: for every well-formed propagator state, propagate() returns a state
whose queue head equals the trail length (so no partial-scan state persists),
never shrinks the trail, advances q_head whenever unpropagated literals
existed, and, when it returns a non-NULL_CLAUSE id, that clause's literals
are all currently false. -/
theorem propagate_spec (minz : Bool) : ∀ (fuel : Nat) (asn : AssignStack)
    (vars : List Var) (cdb : ClauseDB) (a2 : AssignStack) (v2 : List Var)
    (c2 : ClauseDB) (cid : Nat),
    propagate minz fuel asn vars cdb = some (a2, v2, c2, cid) →
    PWf asn cdb →
    a2.qHead = a2.trail.length ∧
    asn.trail.length ≤ a2.trail.length ∧
    (asn.qHead < asn.trail.length → asn.qHead < a2.qHead) ∧
    (cid ≠ NULL_CLAUSE → allFalse a2 c2.clause cid) := by
  intro fuel
  induction fuel with
  | zero =>
    intro asn vars cdb a2 v2 c2 cid hrun
    exact Option.noConfusion hrun
  | succ fuel ih =>
    intro asn vars cdb a2 v2 c2 cid hrun hwf
    rw [propagate] at hrun
    by_cases hg : asn.qHead < asn.trail.length
    · rw [if_pos hg] at hrun
      dsimp only at hrun
      have hpT : ({ asn with qHead := asn.qHead + 1 } : AssignStack).assigned
          (asn.trail.getD asn.qHead 0) = LTRUE :=
        hwf.trailT (asn.trail.getD asn.qHead 0) (getD_mem 0 hg)
      have hwf1 : PWf ({ asn with qHead := asn.qHead + 1 } : AssignStack) cdb := by
        refine ⟨?_, ?_, hwf.uniq, ?_⟩
        · intro l hl
          exact hwf.trailT l hl
        · intro q w2 hm
          exact hwf.watch q w2 hm
        · exact hg
      obtain ⟨R, hR⟩ : ∃ x, innerLoop minz (asn.trail.getD asn.qHead 0) fuel
          { asn with qHead := asn.qHead + 1 } vars cdb 0 NULL_CLAUSE 3 = x := ⟨_, rfl⟩
      rw [hR] at hrun
      cases R with
      | none => exact Option.noConfusion hrun
      | some r =>
        obtain ⟨hIL1, hIL2⟩ := innerLoop_spec minz (asn.trail.getD asn.qHead 0) fuel
          { asn with qHead := asn.qHead + 1 } vars cdb 0 NULL_CLAUSE 3 r hR hwf1 hpT
          (fun hne => absurd rfl hne)
        cases r with
        | inl t =>
          obtain ⟨ta, tb, tc, td⟩ := t
          dsimp only at hrun
          injection hrun with h2
          simp only [Prod.mk.injEq] at h2
          obtain ⟨ha, hv, hce, hd⟩ := h2
          obtain ⟨g1, g2, g3⟩ := hIL1 ta tb tc td rfl
          have g2e : asn.trail.length ≤ ta.trail.length := g2
          subst ha
          subst hv
          subst hce
          subst hd
          refine ⟨g1, g2e, ?_, fun _ => g3⟩
          intro h2x
          omega
        | inr t =>
          obtain ⟨ta, tb, tc, tcc, tccs⟩ := t
          dsimp only at hrun
          obtain ⟨g1, g2, g3, g4⟩ := hIL2 ta tb tc tcc tccs rfl
          have g2e : ta.qHead = asn.qHead + 1 := g2
          have g3e : asn.trail.length ≤ ta.trail.length := g3
          by_cases hne : (tcc != NULL_CLAUSE) = true
          · rw [if_pos hne] at hrun
            injection hrun with h2
            simp only [Prod.mk.injEq] at h2
            obtain ⟨ha, hv, hce, hd⟩ := h2
            have hAF := g4 (bne_iff_ne.mp hne)
            subst ha
            subst hv
            subst hce
            subst hd
            refine ⟨rfl, g3e, ?_, fun _ => hAF⟩
            intro h2x
            show asn.qHead < ta.trail.length
            omega
          · rw [if_neg hne] at hrun
            obtain ⟨k1, k2, k3, k4⟩ := ih ta tb tc a2 v2 c2 cid hrun g1
            refine ⟨k1, le_trans g3e k2, ?_, k4⟩
            intro h2x
            omega
    · rw [if_neg hg] at hrun
      injection hrun with h2
      simp only [Prod.mk.injEq] at h2
      obtain ⟨ha, hv, hce, hd⟩ := h2
      subst ha
      subst hv
      subst hce
      subst hd
      have hqh := hwf.qh
      refine ⟨by omega, Nat.le_refl _, ?_, ?_⟩
      · intro h2x
        exact absurd h2x hg
      · intro h2x
        exact absurd rfl h2x

theorem propagate_spec_witness :
    ((propagate false 5 exAsnP exVarsP exCdbP).getD (exAsnP, exVarsP, exCdbP, 0)).1.qHead =
      ((propagate false 5 exAsnP exVarsP exCdbP).getD (exAsnP, exVarsP, exCdbP, 0)).1.trail.length ∧
    exAsnP.trail.length ≤
      ((propagate false 5 exAsnP exVarsP exCdbP).getD (exAsnP, exVarsP, exCdbP, 0)).1.trail.length := by
  have h := propagate_spec false 5 exAsnP exVarsP exCdbP
    ((propagate false 5 exAsnP exVarsP exCdbP).getD (exAsnP, exVarsP, exCdbP, 0)).1
    ((propagate false 5 exAsnP exVarsP exCdbP).getD (exAsnP, exVarsP, exCdbP, 0)).2.1
    ((propagate false 5 exAsnP exVarsP exCdbP).getD (exAsnP, exVarsP, exCdbP, 0)).2.2.1
    ((propagate false 5 exAsnP exVarsP exCdbP).getD (exAsnP, exVarsP, exCdbP, 0)).2.2.2
    (by rfl) exPWfP
  exact ⟨h.1, h.2.1⟩

end P

namespace M

/-! ### Clause-management theorems -/

/-- C9: the watch-list iterator does not yield the clauses of the list in
order.  In `exPack9`, literal 2's watch list is clause 1 followed by clause 2,
but `iter_watcher(2)` yields clause 2 and then the null clause (index 0):
`ClauseListIter::next` advances `next_index` before reading the yielded
element, so the first clause of every list is skipped and a trailing
`clauses[0]` is produced. -/
theorem iter_watcher_cex :
    ((iterAll exPack9.clauses (exPack9.iterWatcher 2) 5).map Clause.index = [2, 0]) ∧
    ((exPack9.clauses.getD (exPack9.watcher.getD (litNegate 2) 0) default).index = 1 ∧
     (exPack9.clauses.getD 1 default).nw0 = 2 ∧
     (exPack9.clauses.getD 2 default).nw0 = NULL_CLAUSE) ∧
    ([2, 0] : List Nat) ≠ [1, 2] := by decide

/-- C7 counterexample: the claim says every clause's activity is rescaled on
overflow so that no activity exceeds 1e20 after a bump; but `bump_cid` only
rescales Learnt clauses of the Removable pack, so bumping a Permanent clause
past the threshold leaves its activity above 1e20 (here `1e20 + 1`), even
though the overflow branch ran (visible in the rescaled `cla_inc`). -/
theorem bump_cid_overflow_cex :
    (((bump_cid exSolver7 (2 ^ 60 + 1)).cp.getD kindPermanent default).clauses.getD 1
        default).activity = 100000000000000000000 + 1 ∧
    ((100000000000000000000 : Rat) < 100000000000000000000 + 1) ∧
    (bump_cid exSolver7 (2 ^ 60 + 1)).cla_inc = 1 / 100000000000000000000 := by
  have h1 : toKind (2 ^ 60 + 1) = kindPermanent := by decide
  have h2 : toIndex (2 ^ 60 + 1) = 1 := by decide
  have ha : ((exSolver7.cp.getD kindPermanent default).clauses.getD 1 default).activity
      = 100000000000000000000 := rfl
  have hc : exSolver7.cla_inc = 1 := rfl
  simp only [bump_cid, h1, h2]
  rw [ha, hc]
  rw [if_pos (show (100000000000000000000 : Rat) < 100000000000000000000 + 1 by norm_num)]
  refine ⟨rfl, by norm_num, ?_⟩
  show (1 : Rat) * (1 / 100000000000000000000) = 1 / 100000000000000000000
  norm_num

/-- C7 (amended): `bump_cid` adds `cla_inc` to the addressed clause's
activity; on overflow past 1e20 it rescales the activity of every Learnt
clause of the Removable pack (only) and the increment by 1e-20.  Hence the
1e20 bound holds only over that pack: if every Learnt clause of the Removable
pack and the increment are at most 1e20 before bumping a Learnt Removable
clause, every Learnt clause of the Removable pack is at most 1e20 after. -/
theorem bump_cid_spec (s : Solver) (cid : Nat)
    (hk : toKind cid = kindRemovable)
    (hi : toIndex cid < (s.cp.getD kindRemovable default).clauses.length)
    (hl : ((s.cp.getD kindRemovable default).clauses.getD (toIndex cid)
        default).getFlag flagLearnt = true)
    (hb : ∀ j, j < (s.cp.getD kindRemovable default).clauses.length →
      ((s.cp.getD kindRemovable default).clauses.getD j default).getFlag flagLearnt
        = true →
      ((s.cp.getD kindRemovable default).clauses.getD j default).activity
        ≤ 100000000000000000000)
    (hinc : s.cla_inc ≤ 100000000000000000000) :
    ∀ j, j < (s.cp.getD kindRemovable default).clauses.length →
      ((s.cp.getD kindRemovable default).clauses.getD j default).getFlag flagLearnt
        = true →
      (((bump_cid s cid).cp.getD kindRemovable default).clauses.getD j
          default).activity ≤ 100000000000000000000 := by
  have hcp : 0 < s.cp.length := by
    rcases hL : s.cp with _ | ⟨p, ps⟩
    · rw [hL] at hi
      have h0 : (([] : List ClausePack).getD kindRemovable default).clauses.length = 0 := rfl
      omega
    · simp [hL]
  have hcpK : kindRemovable < s.cp.length := hcp
  intro j hj hfl
  have hbi := hb (toIndex cid) hi hl
  simp only [bump_cid, hk]
  set pk := s.cp.getD kindRemovable default with hpk
  set i := toIndex cid with hi0
  set c := pk.clauses.getD i default with hc0
  set a := c.activity + s.cla_inc with ha0
  by_cases hov : (100000000000000000000 : Rat) < a
  · rw [if_pos hov]
    dsimp only
    rw [getDv_set_set _ _ default hcpK]
    dsimp only
    rw [getDv_set_self _ default hcpK]
    dsimp only
    have hlen1 : ∀ c1 : Clause, j < (pk.clauses.set i c1).length := fun c1 => by
      rw [List.length_set]; exact hj
    rw [getDv_map _ default default (hlen1 _)]
    by_cases hji : j = i
    · subst hji
      rw [getDv_set_self _ default hi]
      have hflC : ({ c with activity := a } : Clause).getFlag flagLearnt = true := hfl
      rw [if_pos hflC]
      dsimp only
      have h2 : a ≤ 2 * 100000000000000000000 := by rw [ha0]; linarith
      calc a * (1 / 100000000000000000000)
          ≤ (2 * 100000000000000000000) * (1 / 100000000000000000000) :=
            mul_le_mul_of_nonneg_right h2 (by norm_num)
        _ ≤ 100000000000000000000 := by norm_num
    · rw [getDv_set_ne _ default (Ne.symm hji)]
      rw [if_pos hfl]
      dsimp only
      have h3 := hb j hj hfl
      calc (pk.clauses.getD j default).activity * (1 / 100000000000000000000)
          ≤ (100000000000000000000 : Rat) * (1 / 100000000000000000000) :=
            mul_le_mul_of_nonneg_right h3 (by norm_num)
        _ ≤ 100000000000000000000 := by norm_num
  · rw [if_neg hov]
    dsimp only
    rw [getDv_set_self _ default hcpK]
    dsimp only
    by_cases hji : j = i
    · subst hji
      rw [getDv_set_self _ default hi]
      dsimp only
      exact le_of_not_lt hov
    · rw [getDv_set_ne _ default (Ne.symm hji)]
      exact hb j hj hfl

/-- C7 witness: in `exSolver7r` the Learnt Removable clause at index 1 has
activity at the threshold and the increment equals the threshold; after
bumping it, its activity is still at most 1e20 (it was rescaled to 2). -/
theorem bump_cid_spec_witness :
    (((bump_cid exSolver7r 1).cp.getD kindRemovable default).clauses.getD 1
        default).activity ≤ 100000000000000000000 :=
  bump_cid_spec exSolver7r 1 (by decide) (by decide) (by decide)
    (by decide) (by decide) 1 (by decide) (by decide)

theorem assigned_negate_eq (vars : List Var) (l : Nat) (h : assigned vars l = LFALSE) :
    assigned vars (litNegate l) = LTRUE := by
  unfold assigned at h ⊢
  rw [litVi_negate]
  have hA : (vars.getD (litVi l) default).assign = l % 2 := Nat.xor_eq_zero.mp h
  rw [hA]
  rcases litNegate_parts l with ⟨h0, he⟩ | ⟨h1, he⟩
  · have hm : litNegate l % 2 = 1 := by omega
    rw [hm, h0]
    decide
  · have hm : litNegate l % 2 = 0 := by omega
    rw [hm, h1]
    decide

/-! ### add_clause normalization -/

theorem normClause_some (vars : List Var) (xs : List Nat) : ∀ (l0 : Nat) (w : List Nat),
    normClause vars xs l0 = some w →
    w = dedupAdjFrom l0 (xs.filter (fun l => !(assigned vars l == LFALSE))) := by
  induction xs with
  | nil =>
    intro l0 w h
    simp only [normClause] at h
    cases h
    rfl
  | cons x rest ih =>
    intro l0 w h
    simp only [normClause] at h
    by_cases h1 : (assigned vars x == LTRUE || litNegate x == l0) = true
    · rw [if_pos h1] at h
      exact absurd h (by simp)
    · rw [if_neg h1] at h
      by_cases h2 : (assigned vars x != LFALSE && x != l0) = true
      · rw [if_pos h2] at h
        simp only [Bool.and_eq_true, bne_iff_ne] at h2
        obtain ⟨hFne, hxl0⟩ := h2
        rcases hE : normClause vars rest x with _ | w'
        · rw [hE] at h
          exact absurd h (by simp)
        · rw [hE] at h
          have hw : w = x :: w' := by
            cases h
            rfl
          have hpx : (!(assigned vars x == LFALSE)) = true := by
            simp [hFne]
          rw [List.filter_cons, if_pos hpx]
          rw [dedupAdjFrom, if_neg (by simp [hxl0])]
          rw [hw, ih x w' hE]
      · rw [if_neg h2] at h
        simp only [Bool.and_eq_true, bne_iff_ne, not_and_or, not_not] at h2
        by_cases hF : assigned vars x = LFALSE
        · rw [List.filter_cons, if_neg (by simp [hF])]
          exact ih l0 w h
        · have hxl0 : x = l0 := by
            rcases h2 with h2 | h2
            · exact absurd h2 hF
            · exact h2
          rw [List.filter_cons, if_pos (by simp [hF])]
          rw [dedupAdjFrom, if_pos (by simp [hxl0])]
          exact ih l0 w h

theorem normClause_none_iff (vars : List Var) (xs : List Nat) :
    ∀ (l0 : Nat), xs.Pairwise (fun a b => a ≤ b) → (∀ x ∈ xs, l0 ≤ x) →
      (normClause vars xs l0 = none ↔
        (∃ l ∈ xs, assigned vars l = LTRUE) ∨
        (∃ l ∈ xs, litNegate l ∈ xs) ∨ litNegate l0 ∈ xs) := by
  induction xs with
  | nil =>
    intro l0 _ _
    simp [normClause]
  | cons x rest ih =>
    intro l0 hs hlb
    have hsx : ∀ y ∈ rest, x ≤ y := (List.pairwise_cons.mp hs).1
    have hsr : rest.Pairwise (fun a b => a ≤ b) := (List.pairwise_cons.mp hs).2
    have hlbx : l0 ≤ x := hlb x (List.mem_cons_self x rest)
    simp only [normClause]
    by_cases hC1 : (assigned vars x == LTRUE || litNegate x == l0) = true
    · rw [if_pos hC1]
      simp only [Bool.or_eq_true, beq_iff_eq] at hC1
      constructor
      · intro _
        rcases hC1 with h | h
        · exact Or.inl ⟨x, List.mem_cons_self x rest, h⟩
        · refine Or.inr (Or.inr ?_)
          have hx : x = litNegate l0 := by rw [← h, litNegate_invol]
          rw [← hx]
          exact List.mem_cons_self x rest
      · intro _
        rfl
    · rw [if_neg hC1]
      simp only [Bool.or_eq_true, beq_iff_eq, not_or] at hC1
      obtain ⟨hT, hN⟩ := hC1
      have hxnl0 : x ≠ litNegate l0 := fun he => hN (by rw [he, litNegate_invol])
      by_cases hC2 : (assigned vars x != LFALSE && x != l0) = true
      · rw [if_pos hC2]
        simp only [Bool.and_eq_true, bne_iff_ne] at hC2
        obtain ⟨hFne, hxl0⟩ := hC2
        have hmatch : (match normClause vars rest x with
            | none => none
            | some w => some (x :: w)) = (none : Option (List Nat)) ↔
            normClause vars rest x = none := by
          cases hE : normClause vars rest x <;> simp
        rw [hmatch, ih x hsr hsx]
        constructor
        · rintro (⟨l, hl, ha⟩ | ⟨l, hl, hneg⟩ | hx3)
          · exact Or.inl ⟨l, List.mem_cons_of_mem x hl, ha⟩
          · exact Or.inr (Or.inl
              ⟨l, List.mem_cons_of_mem x hl, List.mem_cons_of_mem x hneg⟩)
          · exact Or.inr (Or.inl
              ⟨x, List.mem_cons_self x rest, List.mem_cons_of_mem x hx3⟩)
        · rintro (⟨l, hl, ha⟩ | ⟨l, hl, hneg⟩ | hx3)
          · rcases List.mem_cons.mp hl with rfl | hl'
            · exact absurd ha hT
            · exact Or.inl ⟨l, hl', ha⟩
          · rcases List.mem_cons.mp hl with rfl | hl'
            · rcases List.mem_cons.mp hneg with he | hneg'
              · exact absurd he (litNegate_ne l)
              · exact Or.inr (Or.inr hneg')
            · rcases List.mem_cons.mp hneg with he | hneg'
              · refine Or.inr (Or.inr ?_)
                rw [show litNegate x = l from by rw [← he, litNegate_invol]]
                exact hl'
              · exact Or.inr (Or.inl ⟨l, hl', hneg'⟩)
          · rcases List.mem_cons.mp hx3 with he | hx3'
            · exact absurd he.symm hxnl0
            · exfalso
              have h1 : x ≤ litNegate l0 := hsx _ hx3'
              have h2 := litNegate_parts l0
              omega
      · rw [if_neg hC2]
        simp only [Bool.and_eq_true, bne_iff_ne, not_and_or, not_not] at hC2
        rw [ih l0 hsr (fun y hy => hlb y (List.mem_cons_of_mem x hy))]
        constructor
        · rintro (⟨l, hl, ha⟩ | ⟨l, hl, hneg⟩ | hx3)
          · exact Or.inl ⟨l, List.mem_cons_of_mem x hl, ha⟩
          · exact Or.inr (Or.inl
              ⟨l, List.mem_cons_of_mem x hl, List.mem_cons_of_mem x hneg⟩)
          · exact Or.inr (Or.inr (List.mem_cons_of_mem x hx3))
        · rintro (⟨l, hl, ha⟩ | ⟨l, hl, hneg⟩ | hx3)
          · rcases List.mem_cons.mp hl with rfl | hl'
            · exact absurd ha hT
            · exact Or.inl ⟨l, hl', ha⟩
          · rcases List.mem_cons.mp hl with rfl | hl'
            · rcases List.mem_cons.mp hneg with he | hneg'
              · exact absurd he (litNegate_ne l)
              · rcases hC2 with hF | hEq
                · exact Or.inl ⟨litNegate l, hneg', assigned_negate_eq vars l hF⟩
                · refine Or.inr (Or.inr ?_)
                  rw [hEq] at hneg'
                  exact hneg'
            · rcases List.mem_cons.mp hneg with he | hneg'
              · have hlx : l = litNegate x := by rw [← he, litNegate_invol]
                rcases hC2 with hF | hEq
                · refine Or.inl ⟨l, hl', ?_⟩
                  rw [hlx]
                  exact assigned_negate_eq vars x hF
                · refine Or.inr (Or.inr ?_)
                  rw [← hEq, ← hlx]
                  exact hl'
              · exact Or.inr (Or.inl ⟨l, hl', hneg'⟩)
          · rcases List.mem_cons.mp hx3 with he | hx3'
            · exact absurd (by rw [← he, litNegate_invol] : litNegate x = l0) hN
            · exact Or.inr (Or.inr hx3')

theorem normClause_eq_spec (vars : List Var) (v : List Nat) (hv : ∀ l ∈ v, 2 ≤ l) :
    normClause vars (List.insertionSort (fun a b => a ≤ b) v) NULL_LIT
      = specNormalize vars v := by
  simp only [specNormalize]
  set sorted := List.insertionSort (fun a b => a ≤ b) v with hsdef
  have hperm : sorted.Perm v := List.perm_insertionSort _ v
  have hsorted : sorted.Pairwise (fun a b => a ≤ b) :=
    List.sorted_insertionSort (fun a b => a ≤ b) v
  have hlb : ∀ x ∈ sorted, NULL_LIT ≤ x := fun x _ => Nat.zero_le x
  have hiff := normClause_none_iff vars sorted NULL_LIT hsorted hlb
  by_cases hcond : (sorted.any (fun l => assigned vars l == LTRUE)
      || sorted.any (fun l => sorted.contains (litNegate l))) = true
  · rw [if_pos hcond]
    apply hiff.mpr
    simp only [Bool.or_eq_true, List.any_eq_true, beq_iff_eq] at hcond
    rcases hcond with h | h
    · exact Or.inl h
    · refine Or.inr (Or.inl ?_)
      obtain ⟨l, hl, hc⟩ := h
      exact ⟨l, hl, by simpa using hc⟩
  · rw [if_neg hcond]
    rcases hE : normClause vars sorted NULL_LIT with _ | w
    · exfalso
      rcases hiff.mp hE with h | h | h
      · apply hcond
        simp only [Bool.or_eq_true, List.any_eq_true, beq_iff_eq]
        exact Or.inl h
      · apply hcond
        simp only [Bool.or_eq_true, List.any_eq_true, beq_iff_eq]
        refine Or.inr ?_
        obtain ⟨l, hl, hc⟩ := h
        exact ⟨l, hl, by simpa using hc⟩
      · have h1 : (1 : Nat) ∈ sorted := by
          rw [show (1 : Nat) = litNegate NULL_LIT from by decide]
          exact h
        have h2 : (1 : Nat) ∈ v := hperm.mem_iff.mp h1
        have := hv 1 h2
        omega
    · rw [normClause_some vars sorted NULL_LIT w hE]

/-- C8: `add_clause` implements the spec's normalization and routing: with
`specNormalize` the spec-side normalization (sort; drop the clause as
satisfied when it has a satisfied literal or is a tautology; else remove
falsified and duplicate literals), `add_clause` returns `true` leaving the
state unchanged when normalization drops the clause, `false` (UNSAT) on an
empty result, enqueues the literal of a unit result, and installs any longer
result through `new_clause`, as a Binclause exactly when the length is 2 and
as Permanent otherwise.  Input literals are well-formed (`2 ≤ l`, variables
are 1-based). -/
theorem add_clause_spec (s : Solver) (v : List Nat) (hv : ∀ l ∈ v, 2 ≤ l) :
    (specNormalize s.vars v = none → add_clause s v = (true, s)) ∧
    (specNormalize s.vars v = some [] → add_clause s v = (false, s)) ∧
    (∀ l, specNormalize s.vars v = some [l] → add_clause s v = enqueue s l NULL_CLAUSE) ∧
    (∀ w k, specNormalize s.vars v = some w → 2 ≤ w.length →
      k = (if w.length == 2 then kindBinclause else kindPermanent) →
      add_clause s v =
        (true, { s with cp := s.cp.set k (new_clause (s.cp.getD k default) w 0 false false).1 })) := by
  have hkey := normClause_eq_spec s.vars v hv
  refine ⟨?_, ?_, ?_, ?_⟩
  · intro h
    simp only [add_clause]
    rw [hkey, h]
  · intro h
    simp only [add_clause]
    rw [hkey, h]
  · intro l h
    simp only [add_clause]
    rw [hkey, h]
  · intro w k h hlen hk
    subst hk
    rcases w with _ | ⟨a, _ | ⟨b, t⟩⟩
    · simp at hlen
    · simp at hlen
    · simp only [add_clause]
      rw [hkey, h]

/-- C8 witness: adding the clause `[4, 4]` to a fresh solver dedupes it to
the unit `[4]` and enqueues literal 4. -/
theorem add_clause_spec_witness :
    add_clause exSolver8 [4, 4] = enqueue exSolver8 4 NULL_CLAUSE :=
  (add_clause_spec exSolver8 [4, 4] (by decide)).2.2.1 4 (by decide)

/-! ### Flag bookkeeping -/

theorem flags_setNwI (c : Clause) (k v : Nat) : (c.setNwI k v).flags = c.flags := by
  unfold Clause.setNwI
  split <;> rfl

theorem flags_setLitI (c : Clause) (k v : Nat) : (c.setLitI k v).flags = c.flags := by
  unfold Clause.setLitI
  split <;> rfl

theorem getFlag_setFlag_ne (c : Clause) (k1 k2 : Nat) (b : Bool) (h32 : k2 < 32)
    (hne : k2 ≠ k1) : (c.setFlag k1 b).getFlag k2 = c.getFlag k2 := by
  show ((c.flags &&& (4294967295 ^^^ (1 <<< k1))) ||| ((if b then 1 else 0) <<< k1)).testBit k2
    = c.flags.testBit k2
  have h32' : (4294967295 : Nat) = 2 ^ 32 - 1 := by norm_num
  have h1 : (1 : Nat) = 2 ^ 0 := by norm_num
  rw [Nat.testBit_lor, Nat.testBit_land, Nat.testBit_xor, h32',
    Nat.testBit_two_pow_sub_one, Nat.testBit_shiftLeft, Nat.testBit_shiftLeft]
  rcases Nat.lt_or_ge k2 k1 with hlt | hge
  · have hd : decide (k2 ≥ k1) = false := by
      simp
      omega
    simp [hd, h32]
  · have hd : decide (k2 ≥ k1) = true := by simp [hge]
    have ht1 : (1 : Nat).testBit (k2 - k1) = false := by
      rw [h1, Nat.testBit_two_pow]
      simp
      omega
    have ht0 : (if b then (1 : Nat) else 0).testBit (k2 - k1) = false := by
      cases b
      · simp
      · simpa using ht1
    simp [hd, ht0, ht1, h32]

theorem getFlag_setFlag_self (c : Clause) (k : Nat) (b : Bool) (h32 : k < 32) :
    (c.setFlag k b).getFlag k = b := by
  show ((c.flags &&& (4294967295 ^^^ (1 <<< k))) ||| ((if b then 1 else 0) <<< k)).testBit k
    = b
  have h32' : (4294967295 : Nat) = 2 ^ 32 - 1 := by norm_num
  have h1 : (1 : Nat) = 2 ^ 0 := by norm_num
  rw [Nat.testBit_lor, Nat.testBit_land, Nat.testBit_xor, h32',
    Nat.testBit_two_pow_sub_one, Nat.testBit_shiftLeft, Nat.testBit_shiftLeft]
  have ht1 : (1 : Nat).testBit (k - k) = true := by
    rw [h1, Nat.testBit_two_pow]
    simp
  cases b
  · simp [h32, ht1]
  · simp [h32, ht1]

theorem pushGarbage_flags (g : Nat) (c : Clause) (i : Nat) :
    (pushGarbage g c i).2.1.flags = c.flags := by
  simp only [pushGarbage]
  split <;> simp [flags_setNwI, flags_setLitI]

theorem flags_getD_set (cls : List Clause) (ci j : Nat) (x : Clause)
    (hx : x.flags = (cls.getD ci default).flags) :
    ((cls.set ci x).getD j default).flags = (cls.getD j default).flags := by
  by_cases hci : ci < cls.length
  · by_cases hj : j = ci
    · subst hj
      rw [getDv_set_self x default hci, hx]
    · rw [getDv_set_ne x default (fun h => hj h.symm)]
  · rw [List.set_eq_of_length_le (by omega)]

theorem dead_getD_set (cls : List Clause) (ci j : Nat) (x : Clause)
    (hx : x.getFlag flagDead = (cls.getD ci default).getFlag flagDead) :
    ((cls.set ci x).getD j default).getFlag flagDead
      = (cls.getD j default).getFlag flagDead := by
  by_cases hci : ci < cls.length
  · by_cases hj : j = ci
    · subst hj
      rw [getDv_set_self x default hci, hx]
    · rw [getDv_set_ne x default (fun h => hj h.symm)]
  · rw [List.set_eq_of_length_le (by omega)]

theorem writePri_dead (cp : ClausePack) (l : Nat) (pri : Option (Nat × Nat)) (x : Nat)
    (j : Nat) :
    ((writePri cp l pri x).clauses.getD j default).getFlag flagDead
      = (cp.clauses.getD j default).getFlag flagDead := by
  rcases pri with _ | ⟨cj, k⟩
  · rfl
  · unfold writePri
    dsimp only
    apply dead_getD_set
    unfold Clause.getFlag
    rw [flags_setNwI]

theorem sweepLoop_dead (l : Nat) : ∀ (F : Nat) (cp : ClausePack)
    (pri : Option (Nat × Nat)) (ci : Nat) (cp' : ClausePack),
    sweepLoop l F cp pri ci = some cp' →
    ∀ j, (cp'.clauses.getD j default).getFlag flagDead
      = (cp.clauses.getD j default).getFlag flagDead := by
  intro F
  induction F with
  | zero =>
    intro cp pri ci cp' h
    simp [sweepLoop] at h
  | succ F ih =>
    intro cp pri ci cp' h j
    rw [sweepLoop] at h
    by_cases hci : (ci == NULL_CLAUSE) = true
    · rw [if_pos hci] at h
      cases h
      rfl
    · rw [if_neg hci] at h
      by_cases hd : ¬ (cp.clauses.getD ci default).getFlag flagDead = true
      · rw [if_pos hd] at h
        exact ih _ _ _ _ h j
      · rw [if_neg hd] at h
        rw [ih _ _ _ _ h j, writePri_dead]
        dsimp only
        apply dead_getD_set
        unfold Clause.getFlag
        rw [pushGarbage_flags]

theorem gcSweepAll_dead (F : Nat) : ∀ (k : Nat) (cp : ClausePack) (l : Nat)
    (cp' : ClausePack), gcSweepAll F k cp l = some cp' →
    ∀ j, (cp'.clauses.getD j default).getFlag flagDead
      = (cp.clauses.getD j default).getFlag flagDead := by
  intro k
  induction k with
  | zero =>
    intro cp l cp' h
    cases h
    intro j
    rfl
  | succ k ih =>
    intro cp l cp' h j
    rw [gcSweepAll] at h
    by_cases ht : cp.touched.getD l false = true
    · rw [if_pos ht] at h
      dsimp only at h
      rcases hS : sweepLoop l F { cp with touched := cp.touched.set l false } none
          (cp.watcher.getD l 0) with _ | cp2
      · rw [hS] at h
        exact absurd h (by simp)
      · rw [hS] at h
        rw [ih _ _ _ h j, sweepLoop_dead l F _ _ _ _ hS j]
    · rw [if_neg ht] at h
      exact ih _ _ _ h j

theorem recycleLoop_dead : ∀ (F : Nat) (cp : ClausePack) (pri : Option (Nat × Nat))
    (ci : Nat) (cp' : ClausePack), recycleLoop F cp pri ci = some cp' →
    ∀ j, (cp'.clauses.getD j default).getFlag flagDead
      = (cp.clauses.getD j default).getFlag flagDead := by
  intro F
  induction F with
  | zero =>
    intro cp pri ci cp' h
    simp [recycleLoop] at h
  | succ F ih =>
    intro cp pri ci cp' h j
    rw [recycleLoop] at h
    by_cases hci : (ci == NULL_CLAUSE) = true
    · rw [if_pos hci] at h
      cases h
      rfl
    · rw [if_neg hci] at h
      by_cases hg : ((cp.clauses.getD ci default).lit0 == GARBAGE_LIT
          && (cp.clauses.getD ci default).lit1 == GARBAGE_LIT) = true
      · rw [if_pos hg] at h
        rw [ih _ _ _ _ h j]
        dsimp only
        rw [dead_getD_set _ _ _ _ ?hx, writePri_dead]
        case hx =>
          rw [getFlag_setFlag_ne _ _ _ _ (by decide) (by decide)]
          rfl
      · rw [if_neg hg] at h
        exact ih _ _ _ _ h j

theorem garbage_collect_dead (F : Nat) (cp cp' : ClausePack)
    (h : garbage_collect F cp = some cp') :
    ∀ j, (cp'.clauses.getD j default).getFlag flagDead
      = (cp.clauses.getD j default).getFlag flagDead := by
  intro j
  rw [garbage_collect] at h
  rcases hS : gcSweepAll F (cp.watcher.length - 2) cp 2 with _ | cp1
  · rw [hS] at h
    exact absurd h (by simp)
  · rw [hS] at h
    rw [recycleLoop_dead F _ _ _ _ h j, gcSweepAll_dead F _ _ _ _ hS j]

theorem resetFold_flags (vars : List Var) : ∀ (idx : List Nat)
    (acc : List Clause × List Nat) (j : Nat),
    ((idx.foldl (resetStep vars) acc).1.getD j default).flags
      = (acc.1.getD j default).flags := by
  intro idx
  induction idx with
  | nil =>
    intro acc j
    rfl
  | cons i rest ih =>
    intro acc j
    rw [List.foldl_cons, ih]
    unfold resetStep
    by_cases hd : (acc.1.getD i default).getFlag flagDead = true
    · rw [if_pos hd]
    · rw [if_neg hd]
      dsimp only
      apply flags_getD_set
      rfl

theorem reset_lbd_flags (cp : ClausePack) (vars : List Var) (j : Nat) :
    ((reset_lbd cp vars).clauses.getD j default).flags
      = (cp.clauses.getD j default).flags := by
  unfold reset_lbd
  dsimp only
  exact resetFold_flags vars _ _ j

/-! ### The marking loop of reduce -/

theorem markStep_clauses_len (pack : ClausePack) (ci : Nat) :
    (markStep pack ci).clauses.length = pack.clauses.length := by
  unfold markStep
  dsimp only
  split <;> simp

theorem markStep_touched_len (pack : ClausePack) (ci : Nat) :
    (markStep pack ci).touched.length = pack.touched.length := by
  unfold markStep
  dsimp only
  split <;> simp

theorem markStep_frame (pack : ClausePack) (ci j : Nat) (h : j ≠ ci) :
    (markStep pack ci).clauses.getD j default = pack.clauses.getD j default := by
  unfold markStep
  dsimp only
  split <;> rw [getDv_set_ne _ default (fun he => h he.symm)]

theorem markStep_self (pack : ClausePack) (ci : Nat) (hlen : ci < pack.clauses.length) :
    (markStep pack ci).clauses.getD ci default =
      (if (pack.clauses.getD ci default).getFlag flagJustUsed then
        (pack.clauses.getD ci default).setFlag flagJustUsed false
      else (pack.clauses.getD ci default).setFlag flagDead true) := by
  unfold markStep
  dsimp only
  by_cases hj : (pack.clauses.getD ci default).getFlag flagJustUsed = true
  · rw [if_pos hj, if_pos hj]
    dsimp only
    rw [getDv_set_self _ default hlen]
  · rw [if_neg hj, if_neg hj]
    dsimp only
    rw [getDv_set_self _ default hlen]

theorem markFold_touched_mono : ∀ (ps : List Nat) (pack : ClausePack) (idx : Nat),
    pack.touched.getD idx false = true →
    (ps.foldl markStep pack).touched.getD idx false = true := by
  intro ps
  induction ps with
  | nil =>
    intro pack idx h
    exact h
  | cons p rest ih =>
    intro pack idx h
    rw [List.foldl_cons]
    apply ih
    unfold markStep
    dsimp only
    split
    · exact h
    · dsimp only
      by_cases h1 : litNegate (pack.clauses.getD p default).lit1 = idx
      · by_cases hlen : litNegate (pack.clauses.getD p default).lit1 < pack.touched.length
        · subst h1
          rw [getDv_set_self _ false (by simpa using hlen)]
        · rw [List.set_eq_of_length_le (by simp only [List.length_set]; omega)]
          subst h1
          by_cases h0 : litNegate (pack.clauses.getD p default).lit0
              = litNegate (pack.clauses.getD p default).lit1
          · rw [← h0] at hlen
            rw [List.set_eq_of_length_le (by omega)]
            exact h
          · rw [getDv_set_ne _ false h0]
            exact h
      · rw [getDv_set_ne _ false h1]
        by_cases h0 : litNegate (pack.clauses.getD p default).lit0 = idx
        · subst h0
          by_cases hlen : litNegate (pack.clauses.getD p default).lit0 < pack.touched.length
          · rw [getDv_set_self _ false hlen]
          · rw [List.set_eq_of_length_le (by omega)]
            exact h
        · rw [getDv_set_ne _ false h0]
          exact h

theorem markFold_spec : ∀ (ps : List Nat) (pack : ClausePack),
    ps.Nodup →
    (∀ ci ∈ ps, ci < pack.clauses.length) →
    (∀ ci ∈ ps, litNegate (pack.clauses.getD ci default).lit0 < pack.touched.length ∧
      litNegate (pack.clauses.getD ci default).lit1 < pack.touched.length) →
    (∀ j, j ∉ ps →
      (ps.foldl markStep pack).clauses.getD j default = pack.clauses.getD j default) ∧
    (∀ ci ∈ ps,
      (ps.foldl markStep pack).clauses.getD ci default =
        (if (pack.clauses.getD ci default).getFlag flagJustUsed then
          (pack.clauses.getD ci default).setFlag flagJustUsed false
        else (pack.clauses.getD ci default).setFlag flagDead true)) ∧
    (∀ ci ∈ ps, ¬ (pack.clauses.getD ci default).getFlag flagJustUsed = true →
      (ps.foldl markStep pack).touched.getD
        (litNegate (pack.clauses.getD ci default).lit0) false = true ∧
      (ps.foldl markStep pack).touched.getD
        (litNegate (pack.clauses.getD ci default).lit1) false = true) := by
  intro ps
  induction ps with
  | nil =>
    intro pack _ _ _
    refine ⟨fun j _ => rfl, ?_, ?_⟩ <;> (intro ci hci; exact absurd hci (by simp))
  | cons p rest ih =>
    intro pack hnd hlen htch
    have hnd' : rest.Nodup := (List.nodup_cons.mp hnd).2
    have hpnr : p ∉ rest := (List.nodup_cons.mp hnd).1
    have hplen : p < pack.clauses.length := hlen p (List.mem_cons_self p rest)
    have hfr : ∀ ci ∈ rest, (markStep pack p).clauses.getD ci default
        = pack.clauses.getD ci default := by
      intro ci hci
      exact markStep_frame pack p ci (fun he => hpnr (he ▸ hci))
    have ihh := ih (markStep pack p) hnd'
      (by
        intro ci hci
        rw [markStep_clauses_len]
        exact hlen ci (List.mem_cons_of_mem p hci))
      (by
        intro ci hci
        rw [markStep_touched_len, hfr ci hci]
        exact htch ci (List.mem_cons_of_mem p hci))
    obtain ⟨ihA, ihB, ihC⟩ := ihh
    refine ⟨?_, ?_, ?_⟩
    · intro j hj
      rw [List.foldl_cons, ihA j (fun hc => hj (List.mem_cons_of_mem p hc))]
      exact markStep_frame pack p j (fun he => hj (he ▸ List.mem_cons_self p rest))
    · intro ci hci
      rcases List.mem_cons.mp hci with rfl | hci'
      · rw [List.foldl_cons, ihA ci hpnr]
        exact markStep_self pack ci hplen
      · rw [List.foldl_cons, ihB ci hci', hfr ci hci']
    · intro ci hci hju
      rcases List.mem_cons.mp hci with rfl | hci'
      · have htc := htch ci (List.mem_cons_self ci rest)
        have h1 : (markStep pack ci).touched.getD
            (litNegate (pack.clauses.getD ci default).lit0) false = true ∧
            (markStep pack ci).touched.getD
            (litNegate (pack.clauses.getD ci default).lit1) false = true := by
          unfold markStep
          dsimp only
          rw [if_neg hju]
          dsimp only
          constructor
          · by_cases h01 : litNegate (pack.clauses.getD ci default).lit0
                = litNegate (pack.clauses.getD ci default).lit1
            · rw [h01, getDv_set_self _ false (by simpa using htc.2)]
            · rw [getDv_set_ne _ false (fun he => h01 he.symm),
                getDv_set_self _ false htc.1]
          · rw [getDv_set_self _ false (by simpa using htc.2)]
        rw [List.foldl_cons]
        exact ⟨markFold_touched_mono rest _ _ h1.1, markFold_touched_mono rest _ _ h1.2⟩
      · rw [List.foldl_cons]
        have := ihC ci hci' (by rw [hfr ci hci']; exact hju)
        rw [hfr ci hci'] at this
        exact this

/-- C3 counterexample: in `exSolver3` the live non-locked Removable clauses
are indices 1-4 with all ranks 5, so the sorted permutation is `[1,2,3,4]`
and the median clause (`permutation[2]`, clause 3) has rank 5; the claim's
"median rank at most 5 adds 1000" then requires `next_reduction` to become
1200, but `reduce` tests `rank <= 4` and only adds the constant 200. -/
theorem reduce_median_cex :
    reduceSorted exPack3 = [1, 2, 3, 4] ∧
    (exPack3.clauses.getD
        ((reduceSorted exPack3).getD ((reduceSorted exPack3).length / 2) 0)
        default).rank = 5 ∧
    (reduce 10 exSolver3).map (fun s => s.next_reduction) = some 200 ∧
    (200 : Nat) ≠ 0 + 1000 + 200 := by decide

/-- C3 (amended): `reduce` collects the live non-locked Removable clause
indices, keeps the first in place and stably sorts the rest by rank
ascending then activity descending (`reduceSorted`), and marks the worse
half (`worse`, the sorted tail from `keep = nc/2`): a JustUsed clause merely
loses that flag, any other is marked Dead and the negations of both its
watched literals are touched; clauses outside the worse half - in
particular every Locked clause, which the collection filter excludes - are
not modified by the marking, and a live Locked clause is still not Dead
after the whole of `reduce` (the collector never sets Dead); finally
`next_reduction` grows by 1000 exactly when the median clause's rank is at
most 4 (not 5 as claimed), plus the constant 200. -/
theorem reduce_spec (F : Nat) (s : Solver) (pack : ClausePack) (P worse : List Nat)
    (keep : Nat)
    (hpack : pack = s.cp.getD kindRemovable default)
    (hP : P = reduceSorted pack)
    (hkeep : keep = P.length / 2)
    (hworse : worse = P.drop keep)
    (htouch : ∀ ci ∈ worse,
      litNegate (pack.clauses.getD ci default).lit0 < pack.touched.length ∧
      litNegate (pack.clauses.getD ci default).lit1 < pack.touched.length) :
    (∀ s', reduce F s = some s' →
      s'.next_reduction = s.next_reduction +
        (if (pack.clauses.getD (P.getD keep 0) default).rank ≤ 4 then 1000 else 0)
        + 200) ∧
    (∀ j, j ∉ worse →
      (worse.foldl markStep pack).clauses.getD j default
        = pack.clauses.getD j default) ∧
    (∀ ci ∈ worse,
      (worse.foldl markStep pack).clauses.getD ci default =
        (if (pack.clauses.getD ci default).getFlag flagJustUsed then
          (pack.clauses.getD ci default).setFlag flagJustUsed false
        else (pack.clauses.getD ci default).setFlag flagDead true)) ∧
    (∀ ci ∈ worse, ¬ (pack.clauses.getD ci default).getFlag flagJustUsed = true →
      (worse.foldl markStep pack).touched.getD
        (litNegate (pack.clauses.getD ci default).lit0) false = true ∧
      (worse.foldl markStep pack).touched.getD
        (litNegate (pack.clauses.getD ci default).lit1) false = true) ∧
    (∀ s', reduce F s = some s' → ∀ idx,
      (pack.clauses.getD idx default).getFlag flagDead = false →
      (pack.clauses.getD idx default).getFlag flagLocked = true →
      ((s'.cp.getD kindRemovable default).clauses.getD idx default).getFlag flagDead
        = false) := by
  subst hworse
  subst hkeep
  subst hP
  subst hpack
  have hpermN : (reducePerm (s.cp.getD kindRemovable default)).Nodup := by
    unfold reducePerm
    apply List.Nodup.filter
    exact (List.drop_sublist 1 (List.range _)).nodup (List.nodup_range _)
  have hpermMem : ∀ ci ∈ reducePerm (s.cp.getD kindRemovable default),
      ci < (s.cp.getD kindRemovable default).clauses.length ∧
      ((s.cp.getD kindRemovable default).clauses.getD ci default).getFlag flagLocked
        = false := by
    intro ci hci
    unfold reducePerm at hci
    rw [List.mem_filter] at hci
    obtain ⟨hm, hp⟩ := hci
    have hlt : ci < (s.cp.getD kindRemovable default).clauses.length :=
      List.mem_range.mp (List.mem_of_mem_drop hm)
    simp only [Bool.and_eq_true, Bool.not_eq_true'] at hp
    exact ⟨hlt, hp.2⟩
  have hSmem : ∀ ci ∈ reduceSorted (s.cp.getD kindRemovable default),
      ci ∈ reducePerm (s.cp.getD kindRemovable default) := by
    intro ci hci
    unfold reduceSorted at hci
    rcases hRP : reducePerm (s.cp.getD kindRemovable default) with _ | ⟨p0, rest⟩
    · rw [hRP] at hci
      simp at hci
    · rw [hRP] at hci
      dsimp only at hci
      rcases List.mem_cons.mp hci with rfl | hci'
      · exact List.mem_cons_self ci rest
      · exact List.mem_cons_of_mem p0
          ((List.perm_insertionSort _ rest).mem_iff.mp hci')
  have hSnodup : (reduceSorted (s.cp.getD kindRemovable default)).Nodup := by
    unfold reduceSorted
    rcases hRP : reducePerm (s.cp.getD kindRemovable default) with _ | ⟨p0, rest⟩
    · simp
    · rw [hRP] at hpermN
      dsimp only
      have hr := List.nodup_cons.mp hpermN
      refine List.nodup_cons.mpr ⟨?_, ?_⟩
      · intro hmem
        exact hr.1 ((List.perm_insertionSort _ rest).mem_iff.mp hmem)
      · exact ((List.perm_insertionSort _ rest).symm.nodup hr.2)
  have hWsub : ∀ ci ∈ (reduceSorted (s.cp.getD kindRemovable default)).drop
      ((reduceSorted (s.cp.getD kindRemovable default)).length / 2),
      ci ∈ reducePerm (s.cp.getD kindRemovable default) :=
    fun ci hci => hSmem ci (List.mem_of_mem_drop hci)
  have hWnodup : ((reduceSorted (s.cp.getD kindRemovable default)).drop
      ((reduceSorted (s.cp.getD kindRemovable default)).length / 2)).Nodup :=
    (List.drop_sublist _ _).nodup hSnodup
  have hWlen : ∀ ci ∈ (reduceSorted (s.cp.getD kindRemovable default)).drop
      ((reduceSorted (s.cp.getD kindRemovable default)).length / 2),
      ci < (s.cp.getD kindRemovable default).clauses.length :=
    fun ci hci => (hpermMem ci (hWsub ci hci)).1
  obtain ⟨mkA, mkB, mkC⟩ := markFold_spec _ (s.cp.getD kindRemovable default)
    hWnodup hWlen htouch
  refine ⟨?_, mkA, mkB, mkC, ?_⟩
  · intro s' h
    simp only [reduce] at h
    rcases hRP : reducePerm (s.cp.getD kindRemovable default) with _ | ⟨p0, rest⟩
    · rw [hRP] at h
      exact absurd h (by simp)
    · rw [hRP] at h
      dsimp only at h
      split at h
      · exact absurd h (by simp)
      · cases h
        rfl
  · intro s' h idx hdead hlock
    have hidxW : idx ∉ (reduceSorted (s.cp.getD kindRemovable default)).drop
        ((reduceSorted (s.cp.getD kindRemovable default)).length / 2) := by
      intro hmem
      have := (hpermMem idx (hWsub idx hmem)).2
      rw [hlock] at this
      exact absurd this (by simp)
    simp only [reduce] at h
    rcases hRP : reducePerm (s.cp.getD kindRemovable default) with _ | ⟨p0, rest⟩
    · rw [hRP] at h
      exact absurd h (by simp)
    · have hcplen : 0 < s.cp.length := by
        by_contra hc
        have h0 : s.cp = [] := List.length_eq_zero.mp (by omega)
        rw [h0] at hRP
        have h1 : reducePerm (([] : List ClausePack).getD kindRemovable default)
            = [] := rfl
        rw [h1] at hRP
        exact absurd hRP (by simp)
      rw [hRP] at h
      dsimp only at h
      split at h
      · exact absurd h (by simp)
      · rename_i pack3 hG
        cases h
        dsimp only
        have hcpK : kindRemovable < s.cp.length := hcplen
        rw [getDv_set_self _ default hcpK]
        have e1 : ((reset_lbd pack3 s.vars).clauses.getD idx default).getFlag flagDead
            = (pack3.clauses.getD idx default).getFlag flagDead := by
          unfold Clause.getFlag
          rw [reset_lbd_flags]
        rw [e1, garbage_collect_dead F _ pack3 hG idx, mkA idx hidxW]
        exact hdead

/-- C3 witness: in `exPack3` the worse half of the sorted permutation is
`[3, 4]`; clause 3 is not JustUsed, so the marking loop marks it Dead. -/
theorem reduce_spec_witness :
    (((reduceSorted exPack3).drop ((reduceSorted exPack3).length / 2)).foldl markStep
        exPack3).clauses.getD 3 default =
      (if (exPack3.clauses.getD 3 default).getFlag flagJustUsed then
        (exPack3.clauses.getD 3 default).setFlag flagJustUsed false
      else (exPack3.clauses.getD 3 default).setFlag flagDead true) :=
  (reduce_spec 10 exSolver3 exPack3 (reduceSorted exPack3)
      ((reduceSorted exPack3).drop ((reduceSorted exPack3).length / 2))
      ((reduceSorted exPack3).length / 2)
      (by decide) rfl rfl rfl (by decide)).2.2.1 3 (by decide)

/-! ### Clause slot accessors -/

theorem setLitI_self (c : Clause) (i v : Nat) : (c.setLitI i v).litI i = v := by
  unfold Clause.setLitI Clause.litI
  by_cases hi : i = 0 <;> simp [hi]

theorem setLitI_other (c : Clause) (i v k : Nat) (hk : k = 0 ∨ k = 1) (hne : k ≠ i)
    (hi : i = 0 ∨ i = 1) : (c.setLitI i v).litI k = c.litI k := by
  unfold Clause.setLitI Clause.litI
  rcases hi with rfl | rfl <;> rcases hk with rfl | rfl <;> simp_all

theorem setNwI_self (c : Clause) (i v : Nat) : (c.setNwI i v).nwI i = v := by
  unfold Clause.setNwI Clause.nwI
  by_cases hi : i = 0 <;> simp [hi]

theorem setNwI_other (c : Clause) (i v k : Nat) (hk : k = 0 ∨ k = 1) (hne : k ≠ i)
    (hi : i = 0 ∨ i = 1) : (c.setNwI i v).nwI k = c.nwI k := by
  unfold Clause.setNwI Clause.nwI
  rcases hi with rfl | rfl <;> rcases hk with rfl | rfl <;> simp_all

theorem litI_setNwI (c : Clause) (i v k : Nat) : (c.setNwI i v).litI k = c.litI k := by
  unfold Clause.setNwI Clause.litI
  split <;> split <;> rfl

theorem nwI_setLitI (c : Clause) (i v k : Nat) : (c.setLitI i v).nwI k = c.nwI k := by
  unfold Clause.setLitI Clause.nwI
  split <;> split <;> rfl

theorem lit0_setNwI (c : Clause) (i v : Nat) : (c.setNwI i v).lit0 = c.lit0 := by
  unfold Clause.setNwI
  split <;> rfl

theorem lit1_setNwI (c : Clause) (i v : Nat) : (c.setNwI i v).lit1 = c.lit1 := by
  unfold Clause.setNwI
  split <;> rfl

theorem index_setLitI (c : Clause) (i v : Nat) : (c.setLitI i v).index = c.index := by
  unfold Clause.setLitI
  split <;> rfl

theorem index_setNwI (c : Clause) (i v : Nat) : (c.setNwI i v).index = c.index := by
  unfold Clause.setNwI
  split <;> rfl

theorem litI_mem (c : Clause) (k : Nat) (hk : k = 0 ∨ k = 1) :
    c.litI k = c.lit0 ∨ c.litI k = c.lit1 := by
  rcases hk with rfl | rfl
  · exact Or.inl rfl
  · exact Or.inr rfl

theorem slotOf_mem (c : Clause) (l : Nat) : slotOf c l = 0 ∨ slotOf c l = 1 := by
  unfold slotOf
  split
  · exact Or.inl rfl
  · exact Or.inr rfl

theorem litVi_eq_cases (a b : Nat) (h : litVi a = litVi b) : a = b ∨ a = litNegate b := by
  have hp := litNegate_parts b
  unfold litVi at h
  omega

theorem litNegate_ge_two (l : Nat) (h : 2 ≤ l) : 2 ≤ litNegate l := by
  have := litNegate_parts l
  omega

theorem slot_agree (c : Clause) (l : Nat) (h0 : c.lit0 ≠ l) :
    (if litVi c.lit0 == litVi l then 0 else 1) = slotOf c l := by
  unfold slotOf
  by_cases hn : (litNegate c.lit0 == l) = true
  · have hv : c.lit0 = litNegate l := by
      have h1 : litNegate c.lit0 = l := by simpa using hn
      rw [← h1, litNegate_invol]
    rw [if_pos hn, if_pos]
    simp [hv, litVi_negate]
  · rw [if_neg hn, if_neg]
    intro hvi
    have hvi' : litVi c.lit0 = litVi l := by simpa using hvi
    rcases litVi_eq_cases _ _ hvi' with he | he
    · exact h0 he
    · apply hn
      simp [he, litNegate_invol]

/-! ### Chain transport -/

theorem chainO_congr (l : Nat) : ∀ (sp : List Nat) (cp cp2 : ClausePack) (ci : Nat),
    (∀ cj ∈ sp, nextO cp2 l cj = nextO cp l cj) →
    chainO cp l ci sp = chainO cp2 l ci sp := by
  intro sp
  induction sp with
  | nil =>
    intro cp cp2 ci _
    rfl
  | cons cj sp ih =>
    intro cp cp2 ci h
    rw [chainO, chainO]
    by_cases hc : (ci == cj) = true
    · have hcij : ci = cj := by simpa using hc
      subst hcij
      rw [h ci (List.mem_cons_self ci sp)]
      rw [ih cp cp2 (nextO cp l ci) (fun x hx => h x (List.mem_cons_of_mem _ hx))]
    · have hc' : (ci == cj) = false := by
        cases hcc : (ci == cj)
        · rfl
        · exact absurd hcc hc
      rw [hc']
      simp

theorem chainG_congr : ∀ (sp : List Nat) (cp cp2 : ClausePack) (ci : Nat),
    (∀ cj ∈ sp, nextG cp2 cj = nextG cp cj) →
    chainG cp ci sp = chainG cp2 ci sp := by
  intro sp
  induction sp with
  | nil =>
    intro cp cp2 ci _
    rfl
  | cons cj sp ih =>
    intro cp cp2 ci h
    rw [chainG, chainG]
    by_cases hc : (ci == cj) = true
    · have hcij : ci = cj := by simpa using hc
      subst hcij
      rw [h ci (List.mem_cons_self ci sp)]
      rw [ih cp cp2 (nextG cp ci) (fun x hx => h x (List.mem_cons_of_mem _ hx))]
    · have hc' : (ci == cj) = false := by
        cases hcc : (ci == cj)
        · rfl
        · exact absurd hcc hc
      rw [hc']
      simp

theorem chainO_uniq (cp : ClausePack) (l : Nat) : ∀ (sp1 sp2 : List Nat) (s : Nat),
    chainO cp l s sp1 = true → chainO cp l s sp2 = true → sp1 = sp2 := by
  intro sp1
  induction sp1 with
  | nil =>
    intro sp2 s h1 h2
    have hs : s = NULL_CLAUSE := by simpa [chainO] using h1
    cases sp2 with
    | nil => rfl
    | cons x xs =>
      rw [chainO] at h2
      simp only [Bool.and_eq_true, beq_iff_eq, Bool.not_eq_true'] at h2
      rw [hs] at h2
      simp at h2
  | cons x xs ih =>
    intro sp2 s h1 h2
    rw [chainO] at h1
    simp only [Bool.and_eq_true, beq_iff_eq, Bool.not_eq_true'] at h1
    obtain ⟨⟨hx, hnz⟩, h1'⟩ := h1
    cases sp2 with
    | nil =>
      have hs : s = NULL_CLAUSE := by simpa [chainO] using h2
      rw [hs] at hnz
      simp at hnz
    | cons y ys =>
      rw [chainO] at h2
      simp only [Bool.and_eq_true, beq_iff_eq, Bool.not_eq_true'] at h2
      obtain ⟨⟨hy, _⟩, h2'⟩ := h2
      rw [← hx, ← hy]
      rw [ih ys (nextO cp l s) h1' h2']

/-! ### pushGarbage and writePri -/

theorem pushGarbage_fresh (g : Nat) (c : Clause) (i : Nat) (hi : i = 0 ∨ i = 1)
    (ho : c.litI (i ^^^ 1) ≠ GARBAGE_LIT) :
    pushGarbage g c i = (c.index, (c.setLitI i GARBAGE_LIT).setNwI i g, c.nwI i) := by
  have hxi : i ^^^ 1 = 0 ∨ i ^^^ 1 = 1 := by rcases hi with rfl | rfl <;> decide
  have hxne : i ^^^ 1 ≠ i := by rcases hi with rfl | rfl <;> decide
  have hlit : (c.setLitI i GARBAGE_LIT).litI (i ^^^ 1) = c.litI (i ^^^ 1) :=
    setLitI_other c i GARBAGE_LIT (i ^^^ 1) hxi hxne hi
  unfold pushGarbage
  dsimp only
  simp only [nwI_setLitI]
  rw [hlit]
  rw [if_neg (by simp [ho])]
  rw [index_setLitI]

theorem pushGarbage_merge (g : Nat) (c : Clause) (i : Nat) (hi : i = 0 ∨ i = 1)
    (ho : c.litI (i ^^^ 1) = GARBAGE_LIT) :
    pushGarbage g c i = (g, (c.setLitI i GARBAGE_LIT).setNwI i (c.nwI (i ^^^ 1)), c.nwI i) := by
  have hxi : i ^^^ 1 = 0 ∨ i ^^^ 1 = 1 := by rcases hi with rfl | rfl <;> decide
  have hxne : i ^^^ 1 ≠ i := by rcases hi with rfl | rfl <;> decide
  have hlit : (c.setLitI i GARBAGE_LIT).litI (i ^^^ 1) = c.litI (i ^^^ 1) :=
    setLitI_other c i GARBAGE_LIT (i ^^^ 1) hxi hxne hi
  unfold pushGarbage
  dsimp only
  simp only [nwI_setLitI]
  rw [hlit]
  rw [if_pos (by simp [ho])]

theorem readPri_writePri (cp : ClausePack) (l : Nat) (pri : Option (Nat × Nat)) (x : Nat)
    (hp : ∀ c0 k0, pri = some (c0, k0) → c0 < cp.clauses.length)
    (hl : pri = none → l < cp.watcher.length) :
    readPri (writePri cp l pri x) l pri = x := by
  rcases pri with _ | ⟨c0, k0⟩
  · unfold writePri readPri
    dsimp only
    exact getD_set_self x (hl rfl)
  · unfold writePri readPri
    dsimp only
    rw [getDv_set_self _ default (hp c0 k0 rfl)]
    exact setNwI_self _ _ _

theorem writePri_clauses_ne (cp : ClausePack) (l : Nat) (pri : Option (Nat × Nat)) (x : Nat)
    (cj : Nat) (h : ∀ c0 k0, pri = some (c0, k0) → cj ≠ c0) :
    (writePri cp l pri x).clauses.getD cj default = cp.clauses.getD cj default := by
  rcases pri with _ | ⟨c0, k0⟩
  · rfl
  · unfold writePri
    dsimp only
    exact getDv_set_ne _ default (fun he => (h c0 k0 rfl) he.symm)

theorem writePri_watcher (cp : ClausePack) (l : Nat) (pri : Option (Nat × Nat)) (x : Nat)
    (w : Nat) (h : pri = none → w ≠ l) :
    (writePri cp l pri x).watcher.getD w 0 = cp.watcher.getD w 0 := by
  rcases pri with _ | ⟨c0, k0⟩
  · unfold writePri
    dsimp only
    exact getD_set_ne x (fun he => (h rfl) he.symm)
  · rfl

theorem writePri_watcher_list (cp : ClausePack) (l : Nat) (pri : Option (Nat × Nat)) (x : Nat)
    (hp : ∀ c0 k0, pri = some (c0, k0) → True) :
    (writePri cp l pri x).watcher.length = cp.watcher.length ∧
    (writePri cp l pri x).clauses.length = cp.clauses.length ∧
    (writePri cp l pri x).touched = cp.touched := by
  rcases pri with _ | ⟨c0, k0⟩ <;> unfold writePri <;> dsimp only <;>
    simp [List.length_set]

theorem getFlag_congr (c1 c2 : Clause) (h : c1.flags = c2.flags) (k : Nat) :
    c1.getFlag k = c2.getFlag k := by
  unfold Clause.getFlag
  rw [h]

theorem nextO_congr (l : Nat) (cp cp2 : ClausePack) (cj : Nat)
    (h : cp2.clauses.getD cj default = cp.clauses.getD cj default) :
    nextO cp2 l cj = nextO cp l cj := by
  unfold nextO
  rw [h]

theorem nextG_congr (cp cp2 : ClausePack) (cj : Nat)
    (h : cp2.clauses.getD cj default = cp.clauses.getD cj default) :
    nextG cp2 cj = nextG cp cj := by
  unfold nextG
  rw [h]

theorem EElem_congr (cp cp2 : ClausePack) (l cj : Nat)
    (h : cp2.clauses.getD cj default = cp.clauses.getD cj default)
    (hlen : cp2.clauses.length = cp.clauses.length)
    (he : EElem cp l cj) : EElem cp2 l cj where
  ne := he.ne
  lt := by rw [hlen]; exact he.lt
  idx := by rw [h]; exact he.idx
  l0 := by rw [h]; exact he.l0
  watch := by rw [h]; exact he.watch
  live2 := by rw [h]; exact he.live2

theorem some_pair_inj {pri : Option (Nat × Nat)} {c0 k0 a b : Nat}
    (hp : pri = some (c0, k0)) (hab : pri = some (a, b)) : a = c0 ∧ b = k0 := by
  rw [hp] at hab
  injection hab with h
  injection h with h1 h2
  exact ⟨h1.symm, h2.symm⟩

theorem sweepLoop_dead_step (l F : Nat) (cp : ClausePack) (pri : Option (Nat × Nat)) (ci : Nat)
    (hci : ¬ (ci == NULL_CLAUSE) = true)
    (hdead : (cp.clauses.getD ci default).getFlag flagDead = true) :
    sweepLoop l (F + 1) cp pri ci =
      sweepLoop l F
        (writePri { cp with
            clauses := cp.clauses.set ci (pushGarbage (cp.watcher.getD (litNegate GARBAGE_LIT) 0) (cp.clauses.getD ci default) (slotOf (cp.clauses.getD ci default) l)).2.1
            watcher := cp.watcher.set (litNegate GARBAGE_LIT) (pushGarbage (cp.watcher.getD (litNegate GARBAGE_LIT) 0) (cp.clauses.getD ci default) (slotOf (cp.clauses.getD ci default) l)).1 }
          l pri
          (pushGarbage (cp.watcher.getD (litNegate GARBAGE_LIT) 0) (cp.clauses.getD ci default) (slotOf (cp.clauses.getD ci default) l)).2.2)
        pri
        (pushGarbage (cp.watcher.getD (litNegate GARBAGE_LIT) 0) (cp.clauses.getD ci default) (slotOf (cp.clauses.getD ci default) l)).2.2 := by
  rw [sweepLoop, if_neg hci]
  dsimp only
  rw [if_neg (fun h2 => h2 hdead)]

theorem sweepLoop_live_step (l F : Nat) (cp : ClausePack) (pri : Option (Nat × Nat)) (ci : Nat)
    (hci : ¬ (ci == NULL_CLAUSE) = true)
    (hlive : ¬ (cp.clauses.getD ci default).getFlag flagDead = true) :
    sweepLoop l (F + 1) cp pri ci =
      sweepLoop l F cp
        (some (ci, if litVi (cp.clauses.getD ci default).lit0 == litVi l then 0 else 1))
        (readPri cp l
          (some (ci, if litVi (cp.clauses.getD ci default).lit0 == litVi l then 0 else 1))) := by
  rw [sweepLoop, if_neg hci]
  dsimp only
  rw [if_pos hlive]

/-! ### The sweep of one touched list -/

theorem sweep_main (l : Nat) (hl : 2 ≤ l) : ∀ (sp : List Nat) (F : Nat) (cp : ClausePack)
    (pri : Option (Nat × Nat)) (ci : Nat) (cp' : ClausePack) (gsp : List Nat),
    sweepLoop l F cp pri ci = some cp' →
    chainO cp l ci sp = true →
    sp.Nodup →
    (∀ cj ∈ sp, EElem cp l cj) →
    PriOK cp l pri sp gsp ci →
    GInv cp gsp →
    litNegate GARBAGE_LIT < cp.watcher.length →
    l < cp.watcher.length →
    SweepFrame cp cp' l sp pri ∧
    chainO cp' l (readPri cp' l pri)
      (sp.filter (fun cj => !(cp.clauses.getD cj default).getFlag flagDead)) = true ∧
    ∃ gsp', GInv cp' gsp' := by
  intro sp
  induction sp with
  | nil =>
    intro F cp pri ci cp' gsp hrun hch hnd hE hpri hgi hW0 hWl
    have hci : ci = NULL_CLAUSE := by simpa [chainO] using hch
    cases F with
    | zero => simp [sweepLoop] at hrun
    | succ F =>
      rw [sweepLoop] at hrun
      rw [if_pos (by simp [hci])] at hrun
      cases hrun
      refine ⟨?_, ?_, ⟨gsp, hgi⟩⟩
      · exact { clen := rfl, wlen := rfl, tch := rfl,
                watcher := fun _ _ _ => rfl, flags := fun _ => rfl, idx := fun _ => rfl,
                untouched := fun _ _ _ => rfl,
                priHolder := fun _ _ _ => ⟨rfl, rfl, fun _ _ _ => rfl⟩,
                spLive := fun cj hcj => absurd hcj (by simp),
                spDead := fun cj hcj => absurd hcj (by simp) }
      · simp [chainO, hpri.read, hci]
  | cons cj0 sp ih =>
    intro F cp pri ci cp' gsp hrun hch hnd hE hpri hgi hW0 hWl
    rw [chainO] at hch
    simp only [Bool.and_eq_true, beq_iff_eq, Bool.not_eq_true'] at hch
    obtain ⟨⟨hcicj, hcin⟩, hchain⟩ := hch
    subst hcicj
    have hcin' : ¬ (ci == NULL_CLAUSE) = true := by simp [hcin]
    have hndc := List.nodup_cons.mp hnd
    have hEci := hE ci (List.mem_cons_self ci sp)
    have hElt : ci < cp.clauses.length := hEci.lt
    have hEne : ci ≠ NULL_CLAUSE := hEci.ne
    have hpfr : ∀ c0 k0, pri = some (c0, k0) → ci ≠ c0 ∧ c0 ∉ sp ∧ c0 ∉ gsp ∧
        c0 < cp.clauses.length ∧ c0 ≠ NULL_CLAUSE := by
      intro c0 k0 hp
      obtain ⟨hn1, hn2, hn3, hn4⟩ := hpri.fresh c0 k0 hp
      exact ⟨fun he => hn1 (he ▸ List.mem_cons_self ci sp),
        fun hm => hn1 (List.mem_cons_of_mem _ hm), hn2, hn3, hn4⟩
    have hglne : litNegate GARBAGE_LIT ≠ l := by
      have h1 : litNegate GARBAGE_LIT = 0 := by decide
      omega
    cases F with
    | zero => simp [sweepLoop] at hrun
    | succ F =>
      by_cases hdead : (cp.clauses.getD ci default).getFlag flagDead = true
      · -- dead element: garbage it, recurse on the tail with the same pri
        rw [sweepLoop_dead_step l F cp pri ci hcin' hdead] at hrun
        obtain ⟨cC, hcC⟩ : ∃ x, cp.clauses.getD ci default = x := ⟨_, rfl⟩
        rw [hcC] at hrun
        obtain ⟨r, hr⟩ : ∃ x,
            pushGarbage (cp.watcher.getD (litNegate GARBAGE_LIT) 0) cC (slotOf cC l) = x :=
          ⟨_, rfl⟩
        rw [hr] at hrun
        obtain ⟨X, hX⟩ : ∃ x, ({ cp with clauses := cp.clauses.set ci r.2.1, watcher := cp.watcher.set (litNegate GARBAGE_LIT) r.1 } : ClausePack) = x :=
          ⟨_, rfl⟩
        rw [hX] at hrun
        obtain ⟨CP2, hCP2⟩ : ∃ x, writePri X l pri r.2.2 = x := ⟨_, rfl⟩
        rw [hCP2] at hrun
        -- facts about the processed clause
        have hiG01 : slotOf cC l = 0 ∨ slotOf cC l = 1 := slotOf_mem cC l
        have hiGx01 : slotOf cC l ^^^ 1 = 0 ∨ slotOf cC l ^^^ 1 = 1 := by
          rcases hiG01 with h | h <;> rw [h] <;> decide
        have hiGne : slotOf cC l ^^^ 1 ≠ slotOf cC l := by
          rcases hiG01 with h | h <;> rw [h] <;> decide
        have hEidx : cC.index = ci := by rw [← hcC]; exact hEci.idx
        have hEwatch : cC.litI (slotOf cC l) = litNegate l := by rw [← hcC]; exact hEci.watch
        have hdC : cC.getFlag flagDead = true := by rw [← hcC]; exact hdead
        have hwatchne : cC.litI (slotOf cC l) ≠ GARBAGE_LIT := by
          rw [hEwatch]
          have h2 := litNegate_ge_two l hl
          have h1 : GARBAGE_LIT = 1 := rfl
          omega
        have hrfacts : r.2.1.litI (slotOf cC l) = GARBAGE_LIT ∧
            r.2.1.litI (slotOf cC l ^^^ 1) = cC.litI (slotOf cC l ^^^ 1) ∧
            r.2.1.flags = cC.flags ∧ r.2.1.index = cC.index ∧
            r.2.1.nwI (slotOf cC l ^^^ 1) = cC.nwI (slotOf cC l ^^^ 1) ∧
            r.2.2 = cC.nwI (slotOf cC l) := by
          by_cases hfr : cC.litI (slotOf cC l ^^^ 1) = GARBAGE_LIT
          · rw [← hr, pushGarbage_merge _ _ _ hiG01 hfr]
            dsimp only
            refine ⟨?_, ?_, ?_, ?_, ?_, rfl⟩
            · rw [litI_setNwI, setLitI_self]
            · rw [litI_setNwI]
              exact setLitI_other _ _ _ _ hiGx01 hiGne hiG01
            · rw [flags_setNwI, flags_setLitI]
            · rw [index_setNwI, index_setLitI]
            · rw [setNwI_other _ _ _ _ hiGx01 hiGne hiG01, nwI_setLitI]
          · rw [← hr, pushGarbage_fresh _ _ _ hiG01 hfr]
            dsimp only
            refine ⟨?_, ?_, ?_, ?_, ?_, rfl⟩
            · rw [litI_setNwI, setLitI_self]
            · rw [litI_setNwI]
              exact setLitI_other _ _ _ _ hiGx01 hiGne hiG01
            · rw [flags_setNwI, flags_setLitI]
            · rw [index_setNwI, index_setLitI]
            · rw [setNwI_other _ _ _ _ hiGx01 hiGne hiG01, nwI_setLitI]
        obtain ⟨hrlit, hrlitO, hrflags, hridx, hrnwO, hr22⟩ := hrfacts
        have hhead : (r.1 = ci ∧ cC.litI (slotOf cC l ^^^ 1) ≠ GARBAGE_LIT ∧
              r.2.1.nwI (slotOf cC l) = cp.watcher.getD (litNegate GARBAGE_LIT) 0) ∨
            (r.1 = cp.watcher.getD (litNegate GARBAGE_LIT) 0 ∧
              cC.litI (slotOf cC l ^^^ 1) = GARBAGE_LIT ∧
              r.2.1.nwI (slotOf cC l) = cC.nwI (slotOf cC l ^^^ 1)) := by
          by_cases hfr : cC.litI (slotOf cC l ^^^ 1) = GARBAGE_LIT
          · refine Or.inr ⟨?_, hfr, ?_⟩
            · rw [← hr, pushGarbage_merge _ _ _ hiG01 hfr]
            · rw [← hr, pushGarbage_merge _ _ _ hiG01 hfr]
              dsimp only
              rw [setNwI_self]
          · refine Or.inl ⟨?_, hfr, ?_⟩
            · rw [← hr, pushGarbage_fresh _ _ _ hiG01 hfr]
              dsimp only
              exact hEidx
            · rw [← hr, pushGarbage_fresh _ _ _ hiG01 hfr]
              dsimp only
              rw [setNwI_self]
        -- facts about the intermediate pack X
        have hXcl : X.clauses = cp.clauses.set ci r.2.1 := by rw [← hX]
        have hXw : X.watcher = cp.watcher.set (litNegate GARBAGE_LIT) r.1 := by rw [← hX]
        have hXt : X.touched = cp.touched := by rw [← hX]
        have hXclen : X.clauses.length = cp.clauses.length := by rw [hXcl, List.length_set]
        have hXwlen : X.watcher.length = cp.watcher.length := by rw [hXw, List.length_set]
        -- facts about the post-step pack CP2
        have hWL := writePri_watcher_list X l pri r.2.2 (fun _ _ _ => trivial)
        have hC2wlen : CP2.watcher.length = cp.watcher.length := by
          rw [← hCP2, hWL.1, hXwlen]
        have hC2clen : CP2.clauses.length = cp.clauses.length := by
          rw [← hCP2, hWL.2.1, hXclen]
        have hC2tch : CP2.touched = cp.touched := by
          rw [← hCP2, hWL.2.2, hXt]
        have hpci : ∀ c0 k0, pri = some (c0, k0) → ci ≠ c0 := fun c0 k0 hp => (hpfr c0 k0 hp).1
        have hC2ci : CP2.clauses.getD ci default = r.2.1 := by
          rw [← hCP2, writePri_clauses_ne _ _ _ _ _ hpci, hXcl]
          exact getDv_set_self _ default hElt
        have hC2ne : ∀ x, x ≠ ci → (∀ c0 k0, pri = some (c0, k0) → x ≠ c0) →
            CP2.clauses.getD x default = cp.clauses.getD x default := by
          intro x hx hxp
          rw [← hCP2, writePri_clauses_ne _ _ _ _ _ hxp, hXcl]
          exact getDv_set_ne _ default (fun he => hx he.symm)
        have hC2c0 : ∀ c0 k0, pri = some (c0, k0) →
            CP2.clauses.getD c0 default = (cp.clauses.getD c0 default).setNwI k0 r.2.2 := by
          intro c0 k0 hp
          rw [← hCP2, hp]
          unfold writePri
          dsimp only
          rw [getDv_set_self _ default (by rw [hXclen]; exact (hpfr c0 k0 hp).2.2.2.1), hXcl,
            getDv_set_ne _ default (hpci c0 k0 hp)]
        have hC2w : ∀ w, w ≠ litNegate GARBAGE_LIT → (pri = none → w ≠ l) →
            CP2.watcher.getD w 0 = cp.watcher.getD w 0 := by
          intro w hw hwl
          rw [← hCP2, writePri_watcher _ _ _ _ _ hwl, hXw]
          exact getD_set_ne _ (fun he => hw he.symm)
        have hC2g : CP2.watcher.getD (litNegate GARBAGE_LIT) 0 = r.1 := by
          rw [← hCP2, writePri_watcher _ _ _ _ _ (fun _ => hglne), hXw]
          exact getD_set_self _ hW0
        have hC2flags : ∀ x,
            (CP2.clauses.getD x default).flags = (cp.clauses.getD x default).flags := by
          intro x
          by_cases hx : x = ci
          · subst hx
            rw [hC2ci, hrflags, hcC]
          · rcases hp : pri with _ | ⟨c0, k0⟩
            · rw [hC2ne x hx (fun a b hab => by rw [hp] at hab; cases hab)]
            · by_cases hx0 : x = c0
              · rw [hx0, hC2c0 c0 k0 hp, flags_setNwI]
              · have hxp : ∀ a b, pri = some (a, b) → x ≠ a := by
                  intro a b hab
                  have h2 := some_pair_inj hp hab
                  rw [h2.1]
                  exact hx0
                rw [hC2ne x hx hxp]
        have hC2idx : ∀ x,
            (CP2.clauses.getD x default).index = (cp.clauses.getD x default).index := by
          intro x
          by_cases hx : x = ci
          · subst hx
            rw [hC2ci, hridx, hcC]
          · rcases hp : pri with _ | ⟨c0, k0⟩
            · rw [hC2ne x hx (fun a b hab => by rw [hp] at hab; cases hab)]
            · by_cases hx0 : x = c0
              · rw [hx0, hC2c0 c0 k0 hp, index_setNwI]
              · have hxp : ∀ a b, pri = some (a, b) → x ≠ a := by
                  intro a b hab
                  have h2 := some_pair_inj hp hab
                  rw [h2.1]
                  exact hx0
                rw [hC2ne x hx hxp]
        -- chain and element invariants on CP2
        have hnexts : ∀ cj ∈ sp, nextO CP2 l cj = nextO cp l cj := by
          intro cj hcj
          have h1 : cj ≠ ci := fun he => hndc.1 (he ▸ hcj)
          have h2 : ∀ a b, pri = some (a, b) → cj ≠ a :=
            fun a b hab he => (hpfr a b hab).2.1 (he ▸ hcj)
          exact nextO_congr l cp CP2 cj (hC2ne cj h1 h2)
        have hr22n : r.2.2 = nextO cp l ci := by
          rw [hr22]
          unfold nextO
          rw [hcC]
        have hch2 : chainO CP2 l r.2.2 sp = true := by
          rw [hr22n, ← chainO_congr l sp cp CP2 (nextO cp l ci) hnexts]
          exact hchain
        have hE2 : ∀ cj ∈ sp, EElem CP2 l cj := by
          intro cj hcj
          have h1 : cj ≠ ci := fun he => hndc.1 (he ▸ hcj)
          have h2 : ∀ a b, pri = some (a, b) → cj ≠ a :=
            fun a b hab he => (hpfr a b hab).2.1 (he ▸ hcj)
          exact EElem_congr cp CP2 l cj (hC2ne cj h1 h2) hC2clen (hE cj (List.mem_cons_of_mem _ hcj))
        -- garbage-list invariant on CP2
        have hGbranch : ∃ gsp2, GInv CP2 gsp2 ∧
            (∀ c0 k0, pri = some (c0, k0) → c0 ∉ gsp2) := by
          have hlitsG : (CP2.clauses.getD ci default).lit0 = GARBAGE_LIT ∨
              (CP2.clauses.getD ci default).lit1 = GARBAGE_LIT := by
            rw [hC2ci]
            rcases hiG01 with h | h
            · left
              have h2 := hrlit
              rw [h] at h2
              simpa [Clause.litI] using h2
            · right
              have h2 := hrlit
              rw [h] at h2
              simpa [Clause.litI] using h2
          have hcielem : ci ≠ NULL_CLAUSE ∧ ci < CP2.clauses.length ∧
              (CP2.clauses.getD ci default).getFlag flagDead = true ∧
              ((CP2.clauses.getD ci default).lit0 = GARBAGE_LIT ∨
               (CP2.clauses.getD ci default).lit1 = GARBAGE_LIT) := by
            refine ⟨hEne, by rw [hC2clen]; exact hElt, ?_, hlitsG⟩
            rw [getFlag_congr _ _ (hC2flags ci) flagDead]
            exact hdead
          have hcharCP2 : ∀ cj, cj ≠ ci → cj < CP2.clauses.length →
              ((CP2.clauses.getD cj default).lit0 = GARBAGE_LIT ∨
               (CP2.clauses.getD cj default).lit1 = GARBAGE_LIT) → cj ∈ gsp := by
            intro cj hcj hlt hG
            have hlt' : cj < cp.clauses.length := by rw [← hC2clen]; exact hlt
            rcases hp : pri with _ | ⟨c0, k0⟩
            · have heq := hC2ne cj hcj (fun a b hab => by rw [hp] at hab; cases hab)
              rw [heq] at hG
              exact hgi.char cj hlt' hG
            · by_cases hx0 : cj = c0
              · rw [hx0, hC2c0 c0 k0 hp] at hG
                simp only [lit0_setNwI, lit1_setNwI] at hG
                rw [← hx0] at hG
                exact hgi.char cj hlt' hG
              · have hxp : ∀ a b, pri = some (a, b) → cj ≠ a := by
                  intro a b hab
                  have h2 := some_pair_inj hp hab
                  rw [h2.1]
                  exact hx0
                have heq := hC2ne cj hcj hxp
                rw [heq] at hG
                exact hgi.char cj hlt' hG
          have helemsOld : ∀ d ∈ gsp, d ≠ ci →
              d ≠ NULL_CLAUSE ∧ d < CP2.clauses.length ∧
              (CP2.clauses.getD d default).getFlag flagDead = true ∧
              ((CP2.clauses.getD d default).lit0 = GARBAGE_LIT ∨
               (CP2.clauses.getD d default).lit1 = GARBAGE_LIT) := by
            intro d hd hdci
            have hdp : ∀ a b, pri = some (a, b) → d ≠ a :=
              fun a b hab he => (hpfr a b hab).2.2.1 (he ▸ hd)
            have heq := hC2ne d hdci hdp
            obtain ⟨ho1, ho2, ho3, ho4⟩ := hgi.elems d hd
            refine ⟨ho1, by rw [hC2clen]; exact ho2, by rw [heq]; exact ho3, by rw [heq]; exact ho4⟩
          rcases hhead with ⟨hh1, hfrne, hh3⟩ | ⟨hh1, hfreq, hh3⟩
          · -- fresh: the clause becomes the new garbage head
            have hciNg : ci ∉ gsp := by
              intro hmem
              have hng : cC.lit0 ≠ GARBAGE_LIT ∧ cC.lit1 ≠ GARBAGE_LIT := by
                rcases hiG01 with h | h
                · constructor
                  · have h2 := hwatchne
                    rw [h] at h2
                    simpa [Clause.litI] using h2
                  · have h2 := hfrne
                    rw [h] at h2
                    have h3 : (0 : Nat) ^^^ 1 = 1 := by decide
                    rw [h3] at h2
                    simpa [Clause.litI] using h2
                · constructor
                  · have h2 := hfrne
                    rw [h] at h2
                    have h3 : (1 : Nat) ^^^ 1 = 0 := by decide
                    rw [h3] at h2
                    simpa [Clause.litI] using h2
                  · have h2 := hwatchne
                    rw [h] at h2
                    simpa [Clause.litI] using h2
              have h4 := (hgi.elems ci hmem).2.2.2
              rw [hcC] at h4
              rcases h4 with h4 | h4
              · exact hng.1 h4
              · exact hng.2 h4
            have hnextci : nextG CP2 ci = cp.watcher.getD (litNegate GARBAGE_LIT) 0 := by
              unfold nextG
              rw [hC2ci]
              rcases hiG01 with h | h
              · have hl0 : r.2.1.lit0 = GARBAGE_LIT := by
                  have h2 := hrlit
                  rw [h] at h2
                  simpa [Clause.litI] using h2
                rw [if_pos (by simp [hl0])]
                have h4 := hh3
                rw [h] at h4
                exact h4
              · have hl0 : r.2.1.lit0 ≠ GARBAGE_LIT := by
                  have h2 := hrlitO
                  rw [h] at h2
                  have h3 : (1 : Nat) ^^^ 1 = 0 := by decide
                  rw [h3] at h2
                  have h4 := hfrne
                  rw [h, h3] at h4
                  simp [Clause.litI] at h2 h4
                  rw [h2]
                  exact h4
                rw [if_neg (by simpa using hl0)]
                have h4 := hh3
                rw [h] at h4
                exact h4
            have hgnexts : ∀ d ∈ gsp, nextG CP2 d = nextG cp d := by
              intro d hd
              have hdci : d ≠ ci := fun he => hciNg (he ▸ hd)
              have hdp : ∀ a b, pri = some (a, b) → d ≠ a :=
                fun a b hab he => (hpfr a b hab).2.2.1 (he ▸ hd)
              exact nextG_congr cp CP2 d (hC2ne d hdci hdp)
            refine ⟨ci :: gsp, ⟨?_, List.nodup_cons.mpr ⟨hciNg, hgi.nodup⟩, ?_, ?_⟩, ?_⟩
            · rw [hC2g, hh1, chainG]
              have hb1 : (ci == ci) = true := by simp
              have hb2 : (!(ci == NULL_CLAUSE)) = true := by simp [hEne]
              rw [hb1, hb2]
              simp only [Bool.true_and]
              rw [hnextci, ← chainG_congr gsp cp CP2 _ hgnexts]
              exact hgi.chain
            · intro d hd
              rcases List.mem_cons.mp hd with he | hm
              · subst he
                exact hcielem
              · exact helemsOld d hm (fun he => hciNg (he ▸ hm))
            · intro cj hlt hG
              by_cases hcj : cj = ci
              · rw [hcj]
                exact List.mem_cons_self _ _
              · exact List.mem_cons_of_mem _ (hcharCP2 cj hcj hlt hG)
            · intro c0 k0 hp
              intro hmem
              rcases List.mem_cons.mp hmem with he | hm
              · exact (hpfr c0 k0 hp).1 he.symm
              · exact (hpfr c0 k0 hp).2.2.1 hm
          · -- merge: the clause was already on the garbage list
            have hciG : ci ∈ gsp := by
              apply hgi.char ci hElt
              rw [hcC]
              rcases hiG01 with h | h
              · right
                have h2 := hfreq
                rw [h] at h2
                have h3 : (0 : Nat) ^^^ 1 = 1 := by decide
                rw [h3] at h2
                simpa [Clause.litI] using h2
              · left
                have h2 := hfreq
                rw [h] at h2
                have h3 : (1 : Nat) ^^^ 1 = 0 := by decide
                rw [h3] at h2
                simpa [Clause.litI] using h2
            have hgnexts : ∀ d ∈ gsp, nextG CP2 d = nextG cp d := by
              intro d hd
              by_cases hdci : d = ci
              · subst hdci
                unfold nextG
                rw [hC2ci, hcC]
                rcases hiG01 with h | h
                · have ha : r.2.1.lit0 = GARBAGE_LIT := by
                    have h2 := hrlit
                    rw [h] at h2
                    simpa [Clause.litI] using h2
                  have hb : cC.lit0 ≠ GARBAGE_LIT := by
                    have h2 := hwatchne
                    rw [h] at h2
                    simpa [Clause.litI] using h2
                  rw [if_pos (by simp [ha]), if_neg (by simpa using hb)]
                  have h4 := hh3
                  rw [h] at h4
                  have h01 : (0 : Nat) ^^^ 1 = 1 := by decide
                  rw [h01] at h4
                  exact h4
                · have h3 : (1 : Nat) ^^^ 1 = 0 := by decide
                  have hb : cC.lit0 = GARBAGE_LIT := by
                    have h2 := hfreq
                    rw [h, h3] at h2
                    simpa [Clause.litI] using h2
                  have ha : r.2.1.lit0 = GARBAGE_LIT := by
                    have h2 := hrlitO
                    rw [h, h3] at h2
                    simp [Clause.litI] at h2
                    rw [h2]
                    exact hb
                  rw [if_pos (by simp [ha]), if_pos (by simp [hb])]
                  have h4 := hrnwO
                  rw [h, h3] at h4
                  exact h4
              · have hdp : ∀ a b, pri = some (a, b) → d ≠ a :=
                  fun a b hab he => (hpfr a b hab).2.2.1 (he ▸ hd)
                exact nextG_congr cp CP2 d (hC2ne d hdci hdp)
            refine ⟨gsp, ⟨?_, hgi.nodup, ?_, ?_⟩, fun c0 k0 hp => (hpfr c0 k0 hp).2.2.1⟩
            · rw [hC2g, hh1, ← chainG_congr gsp cp CP2 _ hgnexts]
              exact hgi.chain
            · intro d hd
              by_cases hdci : d = ci
              · subst hdci
                exact hcielem
              · exact helemsOld d hd hdci
            · intro cj hlt hG
              by_cases hcj : cj = ci
              · rw [hcj]
                exact hciG
              · exact hcharCP2 cj hcj hlt hG
        obtain ⟨gsp2, hgi2, hc0g⟩ := hGbranch
        have hpri2 : PriOK CP2 l pri sp gsp2 r.2.2 := by
          refine ⟨?_, ?_, hpri.slot⟩
          · rw [← hCP2]
            exact readPri_writePri X l pri r.2.2
              (fun c0 k0 hp => by rw [hXclen]; exact (hpfr c0 k0 hp).2.2.2.1)
              (fun hp => by rw [hXwlen]; exact hWl)
          · intro c0 k0 hp
            exact ⟨(hpfr c0 k0 hp).2.1, hc0g c0 k0 hp,
              by rw [hC2clen]; exact (hpfr c0 k0 hp).2.2.2.1, (hpfr c0 k0 hp).2.2.2.2⟩
        have hW02 : litNegate GARBAGE_LIT < CP2.watcher.length := by
          rw [hC2wlen]; exact hW0
        have hWl2 : l < CP2.watcher.length := by
          rw [hC2wlen]; exact hWl
        obtain ⟨fr2, hcho2, gsp', hgi'⟩ :=
          ih F CP2 pri r.2.2 cp' gsp2 hrun hch2 hndc.2 hE2 hpri2 hgi2 hW02 hWl2
        have hupci : cp'.clauses.getD ci default = CP2.clauses.getD ci default := by
          apply fr2.untouched ci hndc.1
          intro a b hab
          exact (hpfr a b hab).1
        refine ⟨?_, ?_, ⟨gsp', hgi'⟩⟩
        · refine ⟨fr2.clen.trans hC2clen, fr2.wlen.trans hC2wlen, fr2.tch.trans hC2tch,
            fun w h1 h2 => (fr2.watcher w h1 h2).trans (hC2w w h1 h2),
            fun cj => (fr2.flags cj).trans (hC2flags cj),
            fun cj => (fr2.idx cj).trans (hC2idx cj), ?_, ?_, ?_, ?_⟩
          · intro cj hcj hcp
            have hcj1 : cj ∉ sp := fun h => hcj (List.mem_cons_of_mem _ h)
            have hcj2 : cj ≠ ci := fun h => hcj (h ▸ List.mem_cons_self _ _)
            exact (fr2.untouched cj hcj1 hcp).trans (hC2ne cj hcj2 hcp)
          · intro c0 k0 hp
            obtain ⟨hf1, hf2, hf3⟩ := fr2.priHolder c0 k0 hp
            have hc2 := hC2c0 c0 k0 hp
            have hk01 := hpri.slot c0 k0 hp
            refine ⟨?_, ?_, ?_⟩
            · rw [hf1, hc2, lit0_setNwI]
            · rw [hf2, hc2, lit1_setNwI]
            · intro k hk hkne
              rw [hf3 k hk hkne, hc2, setNwI_other _ _ _ _ hk hkne hk01]
          · intro cj hcj hlive
            rcases List.mem_cons.mp hcj with he | hm
            · subst he
              rw [hlive] at hdead
              exact Bool.noConfusion hdead
            · have hne1 : cj ≠ ci := fun h => hndc.1 (h ▸ hm)
              have hne2 : ∀ a b, pri = some (a, b) → cj ≠ a :=
                fun a b hab h => (hpfr a b hab).2.1 (h ▸ hm)
              have heq := hC2ne cj hne1 hne2
              have hlive2 : (CP2.clauses.getD cj default).getFlag flagDead = false := by
                rw [heq]; exact hlive
              obtain ⟨hs1, hs2, hs3⟩ := fr2.spLive cj hm hlive2
              rw [heq] at hs1 hs2 hs3
              exact ⟨hs1, hs2, hs3⟩
          · intro cj hcj hdcp
            rcases List.mem_cons.mp hcj with he | hm
            · subst he
              rw [hupci, hC2ci, hcC]
              refine ⟨hrlit, hrlitO, ?_⟩
              intro k hk hkne
              have hk' : k = slotOf cC l ^^^ 1 := by
                rcases hk with rfl | rfl <;> rcases hiG01 with h | h <;> rw [h] <;>
                  rw [h] at hkne <;> first | rfl | exact absurd rfl hkne
              rw [hk', hrnwO]
            · have hne1 : cj ≠ ci := fun h => hndc.1 (h ▸ hm)
              have hne2 : ∀ a b, pri = some (a, b) → cj ≠ a :=
                fun a b hab h => (hpfr a b hab).2.1 (h ▸ hm)
              have heq := hC2ne cj hne1 hne2
              have hd2 : (CP2.clauses.getD cj default).getFlag flagDead = true := by
                rw [heq]; exact hdcp
              obtain ⟨hs1, hs2, hs3⟩ := fr2.spDead cj hm hd2
              rw [heq] at hs1 hs2 hs3
              exact ⟨hs1, hs2, hs3⟩
        · have hfl : (ci :: sp).filter
              (fun cj => !(cp.clauses.getD cj default).getFlag flagDead)
              = sp.filter (fun cj => !(cp.clauses.getD cj default).getFlag flagDead) := by
            have hpd : (!(cp.clauses.getD ci default).getFlag flagDead) = false := by
              rw [hdead]
              rfl
            rw [List.filter_cons, hpd]
            rw [if_neg Bool.false_ne_true]
          rw [hfl]
          have hfc : sp.filter (fun cj => !(cp.clauses.getD cj default).getFlag flagDead)
              = sp.filter (fun cj => !(CP2.clauses.getD cj default).getFlag flagDead) := by
            apply List.filter_congr
            intro x hx
            show (!(cp.clauses.getD x default).getFlag flagDead)
              = (!(CP2.clauses.getD x default).getFlag flagDead)
            rw [getFlag_congr _ _ (hC2flags x) flagDead]
          rw [hfc]
          exact hcho2
      · -- live element: move pri onto this clause and recurse
        have hsl : (if litVi (cp.clauses.getD ci default).lit0 == litVi l then 0 else 1)
            = slotOf (cp.clauses.getD ci default) l := slot_agree _ l hEci.l0
        rw [sweepLoop_live_step l F cp pri ci hcin' hdead, hsl] at hrun
        have hrp : readPri cp l (some (ci, slotOf (cp.clauses.getD ci default) l))
            = nextO cp l ci := rfl
        rw [hrp] at hrun
        have hlivef : (cp.clauses.getD ci default).getFlag flagDead = false := by
          cases h : (cp.clauses.getD ci default).getFlag flagDead
          · rfl
          · exact absurd h hdead
        have hciNg : ci ∉ gsp := fun hmem => absurd (hgi.elems ci hmem).2.2.1 hdead
        have hpri1 : PriOK cp l (some (ci, slotOf (cp.clauses.getD ci default) l)) sp gsp
            (nextO cp l ci) := by
          refine ⟨hrp, ?_, ?_⟩
          · intro a b hab
            have h1 : a = ci := by
              injection hab with h
              injection h with ha hb
              exact ha.symm
            rw [h1]
            exact ⟨hndc.1, hciNg, hElt, hEne⟩
          · intro a b hab
            have h1 : b = slotOf (cp.clauses.getD ci default) l := by
              injection hab with h
              injection h with ha hb
              exact hb.symm
            rw [h1]
            exact slotOf_mem _ _
        obtain ⟨fr2, hcho2, gsp', hgi'⟩ :=
          ih F cp (some (ci, slotOf (cp.clauses.getD ci default) l)) (nextO cp l ci) cp' gsp
            hrun hchain hndc.2 (fun cj h => hE cj (List.mem_cons_of_mem _ h)) hpri1 hgi hW0 hWl
        have hprifr := fr2.priHolder ci (slotOf (cp.clauses.getD ci default) l) rfl
        refine ⟨?_, ?_, ⟨gsp', hgi'⟩⟩
        · refine ⟨fr2.clen, fr2.wlen, fr2.tch,
            fun w h1 _ => fr2.watcher w h1 (fun h => nomatch h),
            fr2.flags, fr2.idx, ?_, ?_, ?_, ?_⟩
          · intro cj hcj hcp
            apply fr2.untouched cj (fun h => hcj (List.mem_cons_of_mem _ h))
            intro a b hab
            have h1 : a = ci := by
              injection hab with h
              injection h with ha hb
              exact ha.symm
            rw [h1]
            exact fun he => hcj (he ▸ List.mem_cons_self _ _)
          · intro c0 k0 hp
            have hup : cp'.clauses.getD c0 default = cp.clauses.getD c0 default := by
              apply fr2.untouched c0 (hpfr c0 k0 hp).2.1
              intro a b hab
              have h1 : a = ci := by
                injection hab with h
                injection h with ha hb
                exact ha.symm
              rw [h1]
              exact fun he => (hpfr c0 k0 hp).1 he.symm
            rw [hup]
            exact ⟨rfl, rfl, fun _ _ _ => rfl⟩
          · intro cj hcj hlv
            rcases List.mem_cons.mp hcj with he | hm
            · subst he
              exact hprifr
            · exact fr2.spLive cj hm hlv
          · intro cj hcj hd
            rcases List.mem_cons.mp hcj with he | hm
            · subst he
              exact absurd hd hdead
            · exact fr2.spDead cj hm hd
        · have hR : readPri cp' l pri = ci := by
            rcases hp : pri with _ | ⟨c0, k0⟩
            · have hg0 : litNegate GARBAGE_LIT = 0 := by decide
              have hw := fr2.watcher l (by rw [hg0]; omega) (fun h => nomatch h)
              show cp'.watcher.getD l 0 = ci
              rw [hw]
              have h2 := hpri.read
              rw [hp] at h2
              exact h2
            · have hnc : ci ≠ c0 := (hpfr c0 k0 hp).1
              have hup : cp'.clauses.getD c0 default = cp.clauses.getD c0 default := by
                apply fr2.untouched c0 (hpfr c0 k0 hp).2.1
                intro a b hab
                have h1 : a = ci := by
                  injection hab with h
                  injection h with ha hb
                  exact ha.symm
                rw [h1]
                exact hnc.symm
              show (cp'.clauses.getD c0 default).nwI k0 = ci
              rw [hup]
              have h2 := hpri.read
              rw [hp] at h2
              exact h2
          have hfl : (ci :: sp).filter
              (fun cj => !(cp.clauses.getD cj default).getFlag flagDead)
              = ci :: sp.filter (fun cj => !(cp.clauses.getD cj default).getFlag flagDead) := by
            have hpd : (!(cp.clauses.getD ci default).getFlag flagDead) = true := by
              rw [hlivef]
              rfl
            rw [List.filter_cons, hpd, if_pos rfl]
          rw [hfl, hR, chainO]
          have hb1 : (ci == ci) = true := by simp
          have hb2 : (!(ci == NULL_CLAUSE)) = true := by simp [hEne]
          rw [hb1, hb2]
          simp only [Bool.true_and]
          have hnx : nextO cp' l ci
              = readPri cp' l (some (ci, slotOf (cp.clauses.getD ci default) l)) := by
            show (cp'.clauses.getD ci default).nwI (slotOf (cp'.clauses.getD ci default) l)
              = (cp'.clauses.getD ci default).nwI (slotOf (cp.clauses.getD ci default) l)
            have hslot : slotOf (cp'.clauses.getD ci default) l
                = slotOf (cp.clauses.getD ci default) l := by
              unfold slotOf
              rw [hprifr.1]
            rw [hslot]
          rw [hnx]
          exact hcho2

/-- Transporting an element of another watch list across the lit-change a sweep
may apply to it: its own-slot literal, next-watcher and flags survive, because
a clause's two watch slots serve distinct lists. -/
theorem EElem_of_lits (cp cp2 : ClausePack) (l cj : Nat)
    (h0 : (cp2.clauses.getD cj default).lit0 = (cp.clauses.getD cj default).lit0)
    (h1 : (cp2.clauses.getD cj default).lit1 = (cp.clauses.getD cj default).lit1)
    (hf : (cp2.clauses.getD cj default).flags = (cp.clauses.getD cj default).flags)
    (hix : (cp2.clauses.getD cj default).index = (cp.clauses.getD cj default).index)
    (hlen : cp2.clauses.length = cp.clauses.length)
    (he : EElem cp l cj) : EElem cp2 l cj := by
  have hslot : slotOf (cp2.clauses.getD cj default) l
      = slotOf (cp.clauses.getD cj default) l := by
    unfold slotOf
    rw [h0]
  have hlitI : ∀ k, (cp2.clauses.getD cj default).litI k
      = (cp.clauses.getD cj default).litI k := by
    intro k
    unfold Clause.litI
    split
    · exact h0
    · exact h1
  refine ⟨he.ne, by rw [hlen]; exact he.lt, by rw [hix]; exact he.idx,
    by rw [h0]; exact he.l0, ?_, ?_⟩
  · rw [hslot, hlitI]
    exact he.watch
  · intro hlv
    rw [hslot, hlitI]
    apply he.live2
    rw [← getFlag_congr _ _ hf flagDead]
    exact hlv

theorem sweep_transport (cp cp2 : ClausePack) (l j : Nat) (hj2 : 2 ≤ j) (hjl : j ≠ l)
    (spL : List Nat) (fr : SweepFrame cp cp2 l spL none)
    (hLel : ∀ cj ∈ spL, EElem cp l cj) :
    ∀ cj, EElem cp j cj →
      nextO cp2 j cj = nextO cp j cj ∧ EElem cp2 j cj ∧
      (cp2.clauses.getD cj default).getFlag flagDead
        = (cp.clauses.getD cj default).getFlag flagDead := by
  intro cj hej
  have hfl : (cp2.clauses.getD cj default).getFlag flagDead
      = (cp.clauses.getD cj default).getFlag flagDead :=
    getFlag_congr _ _ (fr.flags cj) flagDead
  by_cases hm : cj ∈ spL
  · have hel := hLel cj hm
    have hsj01 := slotOf_mem (cp.clauses.getD cj default) j
    have hsl01 := slotOf_mem (cp.clauses.getD cj default) l
    have hslots : slotOf (cp.clauses.getD cj default) j
        ≠ slotOf (cp.clauses.getD cj default) l := by
      intro heq
      have h1 := hej.watch
      rw [heq] at h1
      have h2 := hel.watch
      rw [h1] at h2
      apply hjl
      rw [← litNegate_invol j, h2, litNegate_invol]
    by_cases hlv : (cp.clauses.getD cj default).getFlag flagDead = true
    · obtain ⟨hd1, hd2, hd3⟩ := fr.spDead cj hm hlv
      have hsjO : slotOf (cp.clauses.getD cj default) j
          = slotOf (cp.clauses.getD cj default) l ^^^ 1 := by
        rcases hsj01 with ha | ha <;> rcases hsl01 with hb | hb <;> rw [ha, hb] <;>
          first
          | decide
          | (exfalso; apply hslots; rw [ha, hb])
      have hlitsj : (cp2.clauses.getD cj default).litI (slotOf (cp.clauses.getD cj default) j)
          = (cp.clauses.getD cj default).litI (slotOf (cp.clauses.getD cj default) j) := by
        rw [hsjO]
        exact hd2
      have hs2 : slotOf (cp2.clauses.getD cj default) j
          = slotOf (cp.clauses.getD cj default) j := by
        rcases hsl01 with hb | hb
        · have hg : (cp2.clauses.getD cj default).lit0 = GARBAGE_LIT := by
            have h2 := hd1
            rw [hb] at h2
            simpa [Clause.litI] using h2
          have hsj1 : slotOf (cp.clauses.getD cj default) j = 1 := by
            rw [hsjO, hb]
            decide
          have h0 : litNegate GARBAGE_LIT = 0 := by decide
          have hLHS : slotOf (cp2.clauses.getD cj default) j = 1 := by
            unfold slotOf
            rw [hg]
            rw [if_neg (show ¬ (litNegate GARBAGE_LIT == j) = true from by
              rw [h0]
              simp only [beq_iff_eq]
              omega)]
          rw [hLHS, hsj1]
        · have hp0 : (cp2.clauses.getD cj default).lit0
              = (cp.clauses.getD cj default).lit0 := by
            have h2 := hd2
            rw [hb] at h2
            have h3 : (1 : Nat) ^^^ 1 = 0 := by decide
            rw [h3] at h2
            simpa [Clause.litI] using h2
          unfold slotOf
          rw [hp0]
      have hlit0 : (cp2.clauses.getD cj default).lit0 = GARBAGE_LIT ∨
          (cp2.clauses.getD cj default).lit0 = (cp.clauses.getD cj default).lit0 := by
        rcases hsl01 with hb | hb
        · left
          have h2 := hd1
          rw [hb] at h2
          simpa [Clause.litI] using h2
        · right
          have h2 := hd2
          rw [hb] at h2
          have h3 : (1 : Nat) ^^^ 1 = 0 := by decide
          rw [h3] at h2
          simpa [Clause.litI] using h2
      refine ⟨?_, ?_, hfl⟩
      · unfold nextO
        rw [hs2, hd3 _ hsj01 hslots]
      · refine ⟨hej.ne, by rw [fr.clen]; exact hej.lt,
          by rw [fr.idx cj]; exact hej.idx, ?_, ?_, ?_⟩
        · rcases hlit0 with hg | hg
          · rw [hg]
            have h0 : GARBAGE_LIT = 1 := rfl
            omega
          · rw [hg]
            exact hej.l0
        · rw [hs2, hlitsj]
          exact hej.watch
        · intro hlv2
          exfalso
          rw [hfl] at hlv2
          rw [hlv2] at hlv
          exact Bool.noConfusion hlv
    · have hlvf : (cp.clauses.getD cj default).getFlag flagDead = false := by
        cases hx : (cp.clauses.getD cj default).getFlag flagDead
        · rfl
        · exact absurd hx hlv
      obtain ⟨hp0, hp1, hp3⟩ := fr.spLive cj hm hlvf
      have hs2 : slotOf (cp2.clauses.getD cj default) j
          = slotOf (cp.clauses.getD cj default) j := by
        unfold slotOf
        rw [hp0]
      refine ⟨?_, EElem_of_lits cp cp2 j cj hp0 hp1 (fr.flags cj) (fr.idx cj) fr.clen hej, hfl⟩
      unfold nextO
      rw [hs2, hp3 _ hsj01 hslots]
  · have heq := fr.untouched cj hm (fun a b hab => by cases hab)
    exact ⟨nextO_congr j cp cp2 cj heq, EElem_congr cp cp2 j cj heq fr.clen hej, by rw [heq]⟩

/-! ### The touched-list loop -/

theorem gcSweep_main : ∀ (k F : Nat) (cp : ClausePack) (l : Nat) (spines : Nat → List Nat)
    (gsp : List Nat) (cp' : ClausePack),
    gcSweepAll F k cp l = some cp' →
    AllInv cp cp.watcher.length l spines gsp →
    2 ≤ l →
    cp.watcher.length ≤ l + k →
    ∃ (spines2 : Nat → List Nat) (gsp2 : List Nat),
      cp'.watcher.length = cp.watcher.length ∧
      (∀ j, 2 ≤ j → j < cp'.watcher.length → CleanChain cp' j (spines2 j)) ∧
      GInv cp' gsp2 := by
  intro k
  induction k with
  | zero =>
    intro F cp l spines gsp cp' hrun hinv hl hWk
    rw [gcSweepAll] at hrun
    cases hrun
    exact ⟨spines, gsp, rfl, fun j hj2 hjW => hinv.done j hj2 hjW (by omega), hinv.ginv⟩
  | succ k ih =>
    intro F cp l spines gsp cp' hrun hinv hl hWk
    rw [gcSweepAll] at hrun
    by_cases htl : cp.touched.getD l false = true
    · rw [if_pos htl] at hrun
      dsimp only at hrun
      obtain ⟨CP1, hCP1⟩ : ∃ x, ({ cp with touched := cp.touched.set l false } : ClausePack) = x :=
        ⟨_, rfl⟩
      rw [hCP1] at hrun
      rcases hS : sweepLoop l F CP1 none (cp.watcher.getD l 0) with _ | cp2
      · rw [hS] at hrun
        exact Option.noConfusion hrun
      · rw [hS] at hrun
        dsimp only at hrun
        have hc : CP1.clauses = cp.clauses := by rw [← hCP1]
        have hw1 : CP1.watcher = cp.watcher := by rw [← hCP1]
        have ht1 : CP1.touched = cp.touched.set l false := by rw [← hCP1]
        have hcc : ∀ x, CP1.clauses.getD x default = cp.clauses.getD x default := by
          intro x
          rw [hc]
        have hclen1 : CP1.clauses.length = cp.clauses.length := by rw [hc]
        have hlW : l < cp.watcher.length := by
          by_contra hge
          push_neg at hge
          have h2 : cp.touched.length ≤ l := by rw [hinv.tlen]; exact hge
          have h3 : cp.touched.getD l false = false := by
            rw [List.getD_eq_getElem?_getD, List.getElem?_eq_none h2]
            rfl
          rw [h3] at htl
          exact Bool.noConfusion htl
        have hl0 : litNegate GARBAGE_LIT = 0 := by decide
        have hW0cp : litNegate GARBAGE_LIT < cp.watcher.length := by omega
        obtain ⟨hchL, hndL, helL, htchL⟩ := hinv.todo l hl hlW (Nat.le_refl l)
        have helL1 : ∀ cj ∈ spines l, EElem CP1 l cj :=
          fun cj hm => EElem_congr cp CP1 l cj (hcc cj) hclen1 (helL cj hm)
        have hchL1 : chainO CP1 l (cp.watcher.getD l 0) (spines l) = true := by
          rw [← chainO_congr l (spines l) cp CP1 _
            (fun cj hm => nextO_congr l cp CP1 cj (hcc cj))]
          exact hchL
        have hpriL : PriOK CP1 l none (spines l) gsp (cp.watcher.getD l 0) := by
          refine ⟨?_, (fun c0 k0 h => nomatch h), (fun c0 k0 h => nomatch h)⟩
          show CP1.watcher.getD l 0 = cp.watcher.getD l 0
          rw [hw1]
        have hgi1 : GInv CP1 gsp := by
          refine ⟨?_, hinv.ginv.nodup, ?_, ?_⟩
          · have hh : CP1.watcher.getD (litNegate GARBAGE_LIT) 0
                = cp.watcher.getD (litNegate GARBAGE_LIT) 0 := by rw [hw1]
            rw [hh, ← chainG_congr gsp cp CP1 _ (fun d hd => nextG_congr cp CP1 d (hcc d))]
            exact hinv.ginv.chain
          · intro d hd
            obtain ⟨h1, h2, h3, h4⟩ := hinv.ginv.elems d hd
            exact ⟨h1, by rw [hclen1]; exact h2, by rw [hcc d]; exact h3, by rw [hcc d]; exact h4⟩
          · intro cj hlt hG
            rw [hcc cj] at hG
            exact hinv.ginv.char cj (by rw [← hclen1]; exact hlt) hG
        have hW01 : litNegate GARBAGE_LIT < CP1.watcher.length := by rw [hw1]; exact hW0cp
        have hWl1 : l < CP1.watcher.length := by rw [hw1]; exact hlW
        obtain ⟨fr, hcho, gsp2, hgi2⟩ :=
          sweep_main l hl (spines l) F CP1 none (cp.watcher.getD l 0) cp2 gsp
            hS hchL1 hndL helL1 hpriL hgi1 hW01 hWl1
        have hW2eq : cp2.watcher.length = cp.watcher.length := by rw [fr.wlen, hw1]
        have htch2 : cp2.touched = cp.touched.set l false := by rw [fr.tch, ht1]
        have hhead : ∀ w, 2 ≤ w → w ≠ l → cp2.watcher.getD w 0 = cp.watcher.getD w 0 := by
          intro w hw2 hwl
          have hwg : w ≠ litNegate GARBAGE_LIT := by rw [hl0]; omega
          have h2 := fr.watcher w hwg (fun _ => hwl)
          rw [h2, hw1]
        have htrans : ∀ jj, 2 ≤ jj → jj ≠ l → ∀ cj, EElem cp jj cj →
            nextO cp2 jj cj = nextO cp jj cj ∧ EElem cp2 jj cj ∧
            (cp2.clauses.getD cj default).getFlag flagDead
              = (cp.clauses.getD cj default).getFlag flagDead := by
          intro jj hjj2 hjjl cj hej
          have hej1 : EElem CP1 jj cj := EElem_congr cp CP1 jj cj (hcc cj) hclen1 hej
          obtain ⟨t1, t2, t3⟩ := sweep_transport CP1 cp2 l jj hjj2 hjjl (spines l) fr helL1 cj hej1
          exact ⟨t1.trans (nextO_congr jj cp CP1 cj (hcc cj)), t2, t3.trans (by rw [hcc cj])⟩
        have hinv2 : AllInv cp2 cp2.watcher.length (l + 1)
            (Function.update spines l ((spines l).filter
              (fun cj => !(cp.clauses.getD cj default).getFlag flagDead))) gsp2 := by
          refine ⟨rfl, ?_, hgi2, ?_, ?_⟩
          · rw [htch2, List.length_set, hinv.tlen, ← hW2eq]
          · intro jj hjj2 hjjW hjjl1
            by_cases hjjl : jj = l
            · subst hjjl
              rw [Function.update_same]
              have heqf : (spines jj).filter
                  (fun cj => !(CP1.clauses.getD cj default).getFlag flagDead)
                  = (spines jj).filter
                  (fun cj => !(cp.clauses.getD cj default).getFlag flagDead) := by
                apply List.filter_congr
                intro x hx
                show (!(CP1.clauses.getD x default).getFlag flagDead)
                  = (!(cp.clauses.getD x default).getFlag flagDead)
                rw [hcc x]
              rw [heqf] at hcho
              refine ⟨hcho, List.Nodup.filter _ hndL, ?_, ?_⟩
              · intro cj hm'
                obtain ⟨hm, hpred⟩ := List.mem_filter.mp hm'
                have hpf : (cp.clauses.getD cj default).getFlag flagDead = false := by
                  simpa using hpred
                rw [getFlag_congr _ _ (fr.flags cj) flagDead, hcc cj]
                exact hpf
              · intro cj hm'
                obtain ⟨hm, hpred⟩ := List.mem_filter.mp hm'
                have hpf : (CP1.clauses.getD cj default).getFlag flagDead = false := by
                  rw [hcc cj]
                  simpa using hpred
                obtain ⟨hp0, hp1, hp3⟩ := fr.spLive cj hm hpf
                exact EElem_of_lits CP1 cp2 jj cj hp0 hp1 (fr.flags cj) (fr.idx cj)
                  fr.clen (helL1 cj hm)
            · have hdone := hinv.done jj hjj2 (by rw [← hW2eq]; exact hjjW) (by omega)
              rw [Function.update_noteq hjjl]
              refine ⟨?_, hdone.nodup, ?_, ?_⟩
              · rw [hhead jj hjj2 hjjl, ← chainO_congr jj (spines jj) cp cp2 _
                  (fun cj hm => (htrans jj hjj2 hjjl cj (hdone.elems cj hm)).1)]
                exact hdone.chain
              · intro cj hm
                rw [(htrans jj hjj2 hjjl cj (hdone.elems cj hm)).2.2]
                exact hdone.live cj hm
              · intro cj hm
                exact (htrans jj hjj2 hjjl cj (hdone.elems cj hm)).2.1
          · intro jj hjj2 hjjW hjjl1
            have hjjl : jj ≠ l := by omega
            obtain ⟨htc, htn, hte, htt⟩ := hinv.todo jj hjj2 (by rw [← hW2eq]; exact hjjW)
              (by omega)
            rw [Function.update_noteq hjjl]
            refine ⟨?_, htn, ?_, ?_⟩
            · rw [hhead jj hjj2 hjjl, ← chainO_congr jj (spines jj) cp cp2 _
                (fun cj hm => (htrans jj hjj2 hjjl cj (hte cj hm)).1)]
              exact htc
            · intro cj hm
              exact (htrans jj hjj2 hjjl cj (hte cj hm)).2.1
            · intro cj hm hdj
              rw [htch2]
              have hdj' : (cp.clauses.getD cj default).getFlag flagDead = true := by
                rw [← (htrans jj hjj2 hjjl cj (hte cj hm)).2.2]
                exact hdj
              rw [getDv_set_ne false false (Ne.symm hjjl)]
              exact htt cj hm hdj'
        obtain ⟨spines3, gsp3, hlen3, hclean3, hgi3⟩ :=
          ih F cp2 (l + 1) _ gsp2 cp' hrun hinv2 (by omega) (by rw [hW2eq]; omega)
        exact ⟨spines3, gsp3, hlen3.trans hW2eq, hclean3, hgi3⟩
    · rw [if_neg htl] at hrun
      have hinv2 : AllInv cp cp.watcher.length (l + 1) spines gsp := by
        refine ⟨rfl, hinv.tlen, hinv.ginv, ?_, ?_⟩
        · intro jj hjj2 hjjW hjjl1
          by_cases hjjl : jj = l
          · subst hjjl
            obtain ⟨htc, htn, hte, htt⟩ := hinv.todo jj hjj2 hjjW (Nat.le_refl jj)
            refine ⟨htc, htn, ?_, hte⟩
            intro cj hm
            by_contra hdj
            have hdj' : (cp.clauses.getD cj default).getFlag flagDead = true := by
              cases hx : (cp.clauses.getD cj default).getFlag flagDead
              · exact absurd hx hdj
              · rfl
            exact htl (htt cj hm hdj')
          · exact hinv.done jj hjj2 hjjW (by omega)
        · intro jj hjj2 hjjW hjjl1
          exact hinv.todo jj hjj2 hjjW (by omega)
      exact ih F cp (l + 1) spines gsp cp' hrun hinv2 (by omega) (by omega)

/-! ### The recycle phase only touches dead clauses and the two list heads -/

theorem recycle_preserves : ∀ (gsp : List Nat) (F : Nat) (cp : ClausePack)
    (pri : Option (Nat × Nat)) (ci : Nat) (cp' : ClausePack),
    recycleLoop F cp pri ci = some cp' →
    chainG cp ci gsp = true →
    gsp.Nodup →
    (∀ d ∈ gsp, d ≠ NULL_CLAUSE ∧ d < cp.clauses.length ∧
      (cp.clauses.getD d default).getFlag flagDead = true) →
    (∀ c0 k0, pri = some (c0, k0) → c0 ∉ gsp ∧
      (cp.clauses.getD c0 default).getFlag flagDead = true) →
    (∀ x, (cp.clauses.getD x default).getFlag flagDead = false →
      cp'.clauses.getD x default = cp.clauses.getD x default) ∧
    (∀ w, 2 ≤ w → cp'.watcher.getD w 0 = cp.watcher.getD w 0) := by
  intro gsp
  induction gsp with
  | nil =>
    intro F cp pri ci cp' hrun hch hnd helems hpri
    have hci : ci = NULL_CLAUSE := by simpa [chainG] using hch
    cases F with
    | zero => simp [recycleLoop] at hrun
    | succ F =>
      rw [recycleLoop] at hrun
      rw [if_pos (by simp [hci])] at hrun
      cases hrun
      exact ⟨fun _ _ => rfl, fun _ _ => rfl⟩
  | cons d gsp ih =>
    intro F cp pri ci cp' hrun hch hnd helems hpri
    rw [chainG] at hch
    simp only [Bool.and_eq_true, beq_iff_eq, Bool.not_eq_true'] at hch
    obtain ⟨⟨hcid, hcin⟩, hchain⟩ := hch
    subst hcid
    have hcin' : ¬ (ci == NULL_CLAUSE) = true := by simp [hcin]
    have hndc := List.nodup_cons.mp hnd
    have hEci := helems ci (List.mem_cons_self ci gsp)
    have hg0 : litNegate GARBAGE_LIT = 0 := by decide
    have hr1 : litNegate RECYCLE_LIT = 1 := by decide
    cases F with
    | zero => simp [recycleLoop] at hrun
    | succ F =>
      rw [recycleLoop] at hrun
      rw [if_neg hcin'] at hrun
      dsimp only at hrun
      by_cases hg : ((cp.clauses.getD ci default).lit0 == GARBAGE_LIT
          && (cp.clauses.getD ci default).lit1 == GARBAGE_LIT) = true
      · -- fully collected: unlink from garbage, push on recycle
        rw [if_pos hg] at hrun
        obtain ⟨cC, hcC⟩ : ∃ x, cp.clauses.getD ci default = x := ⟨_, rfl⟩
        rw [hcC] at hrun
        obtain ⟨CPA, hCPA⟩ : ∃ x, writePri cp (litNegate GARBAGE_LIT) pri cC.nw0 = x := ⟨_, rfl⟩
        rw [hCPA] at hrun
        obtain ⟨RC, hRC⟩ : ∃ x, CPA.watcher.getD (litNegate RECYCLE_LIT) 0 = x := ⟨_, rfl⟩
        rw [hRC] at hrun
        obtain ⟨CA, hCA⟩ : ∃ x, CPA.clauses.getD ci default = x := ⟨_, rfl⟩
        rw [hCA] at hrun
        obtain ⟨C1, hC1⟩ : ∃ x, ({ CA with lit0 := RECYCLE_LIT, lit1 := RECYCLE_LIT, nw0 := RC, nw1 := RC } : Clause).setFlag flagLocked true = x := ⟨_, rfl⟩
        rw [hC1] at hrun
        obtain ⟨CP2, hCP2⟩ : ∃ x, ({ CPA with clauses := CPA.clauses.set ci C1, watcher := CPA.watcher.set (litNegate RECYCLE_LIT) ci } : ClausePack) = x := ⟨_, rfl⟩
        rw [hCP2] at hrun
        -- access lemmas for the new pack
        have hAcl : ∀ x, (∀ c0 k0, pri = some (c0, k0) → x ≠ c0) →
            CPA.clauses.getD x default = cp.clauses.getD x default := by
          intro x hx
          rw [← hCPA]
          exact writePri_clauses_ne _ _ _ _ _ hx
        have hAc0 : ∀ c0 k0, pri = some (c0, k0) → c0 < cp.clauses.length →
            CPA.clauses.getD c0 default = (cp.clauses.getD c0 default).setNwI k0 cC.nw0 := by
          intro c0 k0 hp hlt
          rw [← hCPA, hp]
          unfold writePri
          dsimp only
          exact getDv_set_self _ default hlt
        have hAw : ∀ w, 2 ≤ w → CPA.watcher.getD w 0 = cp.watcher.getD w 0 := by
          intro w hw
          rw [← hCPA]
          exact writePri_watcher _ _ _ _ _ (fun _ => by rw [hg0]; omega)
        have hAlen : CPA.clauses.length = cp.clauses.length := by
          rw [← hCPA]
          exact (writePri_watcher_list cp (litNegate GARBAGE_LIT) pri cC.nw0
            (fun _ _ _ => trivial)).2.1
        have h2cl : ∀ x, x ≠ ci → (∀ c0 k0, pri = some (c0, k0) → x ≠ c0) →
            CP2.clauses.getD x default = cp.clauses.getD x default := by
          intro x hx hxp
          rw [← hCP2]
          show ((CPA.clauses.set ci C1).getD x default) = cp.clauses.getD x default
          rw [getDv_set_ne _ default (fun he => hx he.symm)]
          exact hAcl x hxp
        have h2len : CP2.clauses.length = cp.clauses.length := by
          rw [← hCP2]
          show (CPA.clauses.set ci C1).length = cp.clauses.length
          rw [List.length_set, hAlen]
        have h2w : ∀ w, 2 ≤ w → CP2.watcher.getD w 0 = cp.watcher.getD w 0 := by
          intro w hw
          rw [← hCP2]
          show ((CPA.watcher.set (litNegate RECYCLE_LIT) ci).getD w 0) = cp.watcher.getD w 0
          rw [getD_set_ne _ (by rw [hr1]; omega)]
          exact hAw w hw
        have h2c0 : ∀ c0 k0, pri = some (c0, k0) →
            (CP2.clauses.getD c0 default).getFlag flagDead
              = (cp.clauses.getD c0 default).getFlag flagDead := by
          intro c0 k0 hp
          have hne : c0 ≠ ci := by
            intro he
            exact (hpri c0 k0 hp).1 (he ▸ List.mem_cons_self ci gsp)
          have hlt : c0 < cp.clauses.length := by
            by_cases h : c0 < cp.clauses.length
            · exact h
            · exfalso
              push_neg at h
              have h3 : cp.clauses.getD c0 default = default := by
                rw [List.getD_eq_getElem?_getD, List.getElem?_eq_none h]
                rfl
              have h4 := (hpri c0 k0 hp).2
              rw [h3] at h4
              exact Bool.noConfusion h4
          rw [← hCP2]
          show ((CPA.clauses.set ci C1).getD c0 default).getFlag flagDead
            = (cp.clauses.getD c0 default).getFlag flagDead
          rw [getDv_set_ne _ default (fun he => hne he.symm), hAc0 c0 k0 hp hlt]
          exact getFlag_congr _ _ (flags_setNwI _ _ _) flagDead
        -- the continuation follows the garbage chain
        have hlits : cC.lit0 = GARBAGE_LIT ∧ cC.lit1 = GARBAGE_LIT := by
          rw [← hcC]
          simpa using hg
        have hnext : nextG cp ci = cC.nw0 := by
          unfold nextG
          rw [hcC, if_pos (by simp [hlits.1])]
          rfl
        have hch2 : chainG CP2 cC.nw0 gsp = true := by
          rw [← chainG_congr gsp cp CP2 cC.nw0 ?hpt]
          · rw [← hnext]
            exact hchain
          case hpt =>
            intro dd hdd
            have h1 : dd ≠ ci := fun he => hndc.1 (he ▸ hdd)
            have h2 : ∀ a b, pri = some (a, b) → dd ≠ a :=
              fun a b hab he => (hpri a b hab).1 (he ▸ List.mem_cons_of_mem _ hdd)
            exact nextG_congr cp CP2 dd (h2cl dd h1 h2)
        have helems2 : ∀ dd ∈ gsp, dd ≠ NULL_CLAUSE ∧ dd < CP2.clauses.length ∧
            (CP2.clauses.getD dd default).getFlag flagDead = true := by
          intro dd hdd
          have h1 : dd ≠ ci := fun he => hndc.1 (he ▸ hdd)
          have h2 : ∀ a b, pri = some (a, b) → dd ≠ a :=
            fun a b hab he => (hpri a b hab).1 (he ▸ List.mem_cons_of_mem _ hdd)
          obtain ⟨e1, e2, e3⟩ := helems dd (List.mem_cons_of_mem _ hdd)
          exact ⟨e1, by rw [h2len]; exact e2, by rw [h2cl dd h1 h2]; exact e3⟩
        have hpri2 : ∀ c0 k0, pri = some (c0, k0) → c0 ∉ gsp ∧
            (CP2.clauses.getD c0 default).getFlag flagDead = true := by
          intro c0 k0 hp
          refine ⟨fun hm => (hpri c0 k0 hp).1 (List.mem_cons_of_mem _ hm), ?_⟩
          rw [h2c0 c0 k0 hp]
          exact (hpri c0 k0 hp).2
        obtain ⟨hrc, hrw⟩ := ih F CP2 pri cC.nw0 cp' hrun hch2 hndc.2 helems2 hpri2
        constructor
        · intro x hx
          have h1 : x ≠ ci := by
            intro he
            have h2 := hEci.2.2
            rw [← he] at h2
            rw [hx] at h2
            exact Bool.noConfusion h2
          have h2 : ∀ a b, pri = some (a, b) → x ≠ a := by
            intro a b hab he
            have h3 := (hpri a b hab).2
            rw [← he] at h3
            rw [hx] at h3
            exact Bool.noConfusion h3
          have heq := h2cl x h1 h2
          have hx2 : (CP2.clauses.getD x default).getFlag flagDead = false := by
            rw [heq]
            exact hx
          rw [hrc x hx2, heq]
        · intro w hw
          rw [hrw w hw, h2w w hw]
      · -- not fully collected: advance the cursor
        rw [if_neg hg] at hrun
        have hnext : nextG cp ci
            = (cp.clauses.getD ci default).nwI
                (if (cp.clauses.getD ci default).lit0 == GARBAGE_LIT then 0 else 1) := rfl
        rw [← hnext] at hrun
        have hdci := hEci.2.2
        have hpri2 : ∀ c0 k0,
            (some (ci, if (cp.clauses.getD ci default).lit0 == GARBAGE_LIT then 0 else 1)
              : Option (Nat × Nat)) = some (c0, k0) →
            c0 ∉ gsp ∧ (cp.clauses.getD c0 default).getFlag flagDead = true := by
          intro c0 k0 hp
          have h1 : c0 = ci := by
            injection hp with h
            injection h with ha hb
            exact ha.symm
          rw [h1]
          exact ⟨hndc.1, hdci⟩
        have hch2 : chainG cp (nextG cp ci) gsp = true := hchain
        exact ih F cp _ (nextG cp ci) cp' hrun hch2 hndc.2
          (fun dd hdd => helems dd (List.mem_cons_of_mem _ hdd)) hpri2

/-- C4: After `garbage_collect` returns on a `ClausePack` whose watch lists are
well-formed chains, whose garbage list satisfies its invariant, and in which
every `Dead` clause's watch-list occurrences are covered by the `touched` marks
of the lists holding them (both of its watched-literal negation slots being
touched), no `Dead` clause is reachable by following watcher links from any
ordinary (non-garbage, non-recycle) watch-list head `j ≥ 2`. -/
theorem garbage_collect_no_dead (F : Nat) (cp cp' : ClausePack)
    (spines : Nat → List Nat) (gsp : List Nat)
    (hrun : garbage_collect F cp = some cp')
    (hinv : AllInv cp cp.watcher.length 2 spines gsp) :
    ∀ j, 2 ≤ j → ∀ sp, chainO cp' j (cp'.watcher.getD j 0) sp = true →
      ∀ cj ∈ sp, (cp'.clauses.getD cj default).getFlag flagDead = false := by
  unfold garbage_collect at hrun
  rcases hS : gcSweepAll F (cp.watcher.length - 2) cp 2 with _ | cp1
  · rw [hS] at hrun
    exact Option.noConfusion hrun
  · rw [hS] at hrun
    dsimp only at hrun
    obtain ⟨spines2, gsp2, hlen1, hclean, hgi1⟩ :=
      gcSweep_main (cp.watcher.length - 2) F cp 2 spines gsp cp1 hS hinv (by omega) (by omega)
    have helems : ∀ d ∈ gsp2, d ≠ NULL_CLAUSE ∧ d < cp1.clauses.length ∧
        (cp1.clauses.getD d default).getFlag flagDead = true :=
      fun d hd => ⟨(hgi1.elems d hd).1, (hgi1.elems d hd).2.1, (hgi1.elems d hd).2.2.1⟩
    obtain ⟨hrc, hrw⟩ := recycle_preserves gsp2 F cp1 none
      (cp1.watcher.getD (litNegate GARBAGE_LIT) 0) cp' hrun hgi1.chain hgi1.nodup helems
      (fun c0 k0 h => nomatch h)
    intro j hj sp hsp cj hm
    by_cases hjW : j < cp1.watcher.length
    · have hcl := hclean j hj hjW
      have hnn : ∀ x ∈ spines2 j, nextO cp' j x = nextO cp1 j x := by
        intro x hx
        exact nextO_congr j cp1 cp' x (hrc x (hcl.live x hx))
      have hhd : cp'.watcher.getD j 0 = cp1.watcher.getD j 0 := hrw j hj
      have hch' : chainO cp' j (cp'.watcher.getD j 0) (spines2 j) = true := by
        rw [hhd, ← chainO_congr j (spines2 j) cp1 cp' _ hnn]
        exact hcl.chain
      have hspe : sp = spines2 j := chainO_uniq cp' j sp (spines2 j) _ hsp hch'
      rw [hspe] at hm
      rw [hrc cj (hcl.live cj hm)]
      exact hcl.live cj hm
    · push_neg at hjW
      have hh0 : cp1.watcher.getD j 0 = 0 := by
        rw [List.getD_eq_getElem?_getD, List.getElem?_eq_none hjW]
        rfl
      have hhd : cp'.watcher.getD j 0 = 0 := by
        rw [hrw j hj, hh0]
      rw [hhd] at hsp
      cases sp with
      | nil => cases hm
      | cons a sp2 =>
        rw [chainO] at hsp
        simp only [Bool.and_eq_true, beq_iff_eq, Bool.not_eq_true'] at hsp
        obtain ⟨⟨h1, h2⟩, h3⟩ := hsp
        have h4 : ((0 : Nat) == NULL_CLAUSE) = true := by decide
        rw [h4] at h2
        exact Bool.noConfusion h2

/-- Closed witness for `garbage_collect_no_dead`: running `garbage_collect` on
`exPack4` (one dead clause, both its lists touched) leaves the live clause 2
live, and the theorem applies to it as the sole member of list 3's chain. -/
theorem garbage_collect_no_dead_witness :
    (((garbage_collect 20 exPack4).getD default).clauses.getD 2 default).getFlag flagDead
      = false := by
  have hinv : AllInv exPack4 exPack4.watcher.length 2 exSpines4 [] := by
    refine ⟨rfl, by decide, ⟨by decide, by decide, ?_, by decide⟩, ?_, ?_⟩
    · intro d hd
      exact absurd hd (List.not_mem_nil d)
    · intro j hj2 _ hj2'
      exact absurd (Nat.lt_of_le_of_lt hj2 hj2') (Nat.lt_irrefl 2)
    · intro j hj2 hjW hjl
      have h6 : exPack4.watcher.length = 6 := by decide
      rw [h6] at hjW
      interval_cases j
      · refine ⟨by decide, by decide, ?_, by decide⟩
        intro cj hcj
        simp [exSpines4] at hcj
      · refine ⟨by decide, by decide, ?_, by decide⟩
        intro cj hcj
        simp [exSpines4] at hcj
        rcases hcj with rfl | rfl
        · exact ⟨by decide, by decide, by decide, by decide, by decide, by decide⟩
        · exact ⟨by decide, by decide, by decide, by decide, by decide, by decide⟩
      · refine ⟨by decide, by decide, ?_, by decide⟩
        intro cj hcj
        simp [exSpines4] at hcj
        subst hcj
        exact ⟨by decide, by decide, by decide, by decide, by decide, by decide⟩
      · refine ⟨by decide, by decide, ?_, by decide⟩
        intro cj hcj
        simp [exSpines4] at hcj
        subst hcj
        exact ⟨by decide, by decide, by decide, by decide, by decide, by decide⟩
  exact garbage_collect_no_dead 20 exPack4 ((garbage_collect 20 exPack4).getD default)
    exSpines4 [] rfl hinv 3 (by decide) [2] (by decide) 2 (by decide)

end M


namespace A

theorem set_getD_field {α β : Type} [Inhabited α] (f : α → β) (L : List α) (i : Nat)
    (v : α) (hf : f v = f (L.getD i default)) (x : Nat) :
    f ((L.set i v).getD x default) = f (L.getD x default) := by
  by_cases hx : x = i
  · rw [hx]
    by_cases hb : i < L.length
    · rw [getDv_set_self _ default hb, hf]
    · rw [List.set_eq_of_length_le (by omega)]
  · rw [getDv_set_ne _ default (fun he => hx he.symm)]

theorem seen_zero_getD (L : List Nat) (x : Nat) :
    (L.map (fun _ => (0 : Nat))).getD x 0 = 0 := by
  rw [List.getD_eq_getElem?_getD, List.getElem?_map]
  cases L[x]? with
  | none => rfl
  | some v => rfl

theorem bump_vi_anSeen (s : ASolver) (vi : Nat) : (s.bump_vi vi).anSeen = s.anSeen := rfl

theorem SCo_bump_vi (s0 s : ASolver) (vi : Nat) (h : SCo s0 s) : SCo s0 (s.bump_vi vi) := by
  refine ⟨?_, ?_, ?_, h.trail, h.tlim, h.slen, h.cl⟩
  · intro x
    unfold ASolver.bump_vi
    dsimp only
    rw [set_getD_field AVar.level s.vars vi { s.vars.getD vi default with activity := (s.vars.getD vi default).activity + s.varInc } rfl x]
    exact h.lev x
  · intro x
    unfold ASolver.bump_vi
    dsimp only
    rw [set_getD_field AVar.reason s.vars vi { s.vars.getD vi default with activity := (s.vars.getD vi default).activity + s.varInc } rfl x]
    exact h.rsn x
  · unfold ASolver.bump_vi
    dsimp only
    rw [List.length_set]
    exact h.vlen

theorem SCo_bump_ci (s0 s : ASolver) (ci : Nat) (h : SCo s0 s) : SCo s0 (s.bump_ci ci) := by
  refine ⟨h.lev, h.rsn, h.vlen, h.trail, h.tlim, h.slen, ?_⟩
  intro x
  unfold ASolver.bump_ci
  dsimp only
  rw [set_getD_field AClause.lits s.clauses ci { s.clauses.getD ci default with activity := (s.clauses.getD ci default).activity + s.claInc } rfl x]
  exact h.cl x

theorem SCo_rankset (s0 s : ASolver) (ci r2 : Nat) (h : SCo s0 s) :
    SCo s0 { s with clauses := s.clauses.set ci { (s.clauses.getD ci default) with rank := r2 } } := by
  refine ⟨h.lev, h.rsn, h.vlen, h.trail, h.tlim, h.slen, ?_⟩
  intro x
  dsimp only
  rw [set_getD_field AClause.lits s.clauses ci { (s.clauses.getD ci default) with rank := r2 } rfl x]
  exact h.cl x

theorem SCo_seenset (s0 s : ASolver) (vi w : Nat) (h : SCo s0 s) :
    SCo s0 { s with anSeen := s.anSeen.set vi w } := by
  refine ⟨h.lev, h.rsn, h.vlen, h.trail, h.tlim, ?_, h.cl⟩
  dsimp only
  rw [List.length_set]
  exact h.slen

theorem SCo_carry (s0 s s2 : ASolver) (h : SCo s0 s) (hv : s2.vars = s.vars)
    (hc : s2.clauses = s.clauses) (ht : s2.trail = s.trail) (hl : s2.trailLim = s.trailLim)
    (hs : s2.anSeen = s.anSeen) : SCo s0 s2 := by
  refine ⟨?_, ?_, ?_, ?_, ?_, ?_, ?_⟩
  · intro x
    rw [hv]
    exact h.lev x
  · intro x
    rw [hv]
    exact h.rsn x
  · rw [hv]
    exact h.vlen
  · rw [ht]
    exact h.trail
  · rw [hl]
    exact h.tlim
  · rw [hs]
    exact h.slen
  · intro x
    rw [hc]
    exact h.cl x

theorem SInv_carry (s0 s s2 : ASolver) (ti : Nat) (h : SInv s0 s ti)
    (hs : s2.anSeen = s.anSeen) : SInv s0 s2 ti := by
  constructor
  · intro x
    rw [hs]
    exact h.vals x
  · intro x hx
    rw [hs] at hx
    exact h.pos x hx

theorem SInv_mark (s0 s : ASolver) (ti vi : Nat) (h : SInv s0 s ti)
    (hj : ∃ j, j ≤ ti ∧ j < s0.trail.length ∧ litVi (s0.trail.getD j 0) = vi) :
    SInv s0 { s with anSeen := s.anSeen.set vi 1 } ti := by
  constructor
  · intro x
    dsimp only
    by_cases hx : x = vi
    · rw [hx]
      by_cases hb : vi < s.anSeen.length
      · rw [getDv_set_self 1 0 hb]
        right
        rfl
      · rw [List.set_eq_of_length_le (by omega)]
        exact h.vals vi
    · rw [getDv_set_ne 1 0 (fun he => hx he.symm)]
      exact h.vals x
  · intro x hx
    dsimp only at hx
    by_cases hxe : x = vi
    · rw [hxe]
      exact hj
    · rw [getDv_set_ne 1 0 (fun he => hxe he.symm)] at hx
      exact h.pos x hx

theorem LInv_carry (s0 s s2 : ASolver) (b : Nat) (h : LInv s0 s b)
    (hL : s2.anLearntLits = s.anLearntLits) : LInv s0 s2 b := by
  obtain ⟨t, ht, hall⟩ := h.shape
  exact ⟨⟨t, by rw [hL]; exact ht, hall⟩, h.blt⟩

theorem LInv_push (s0 s : ASolver) (b : Nat) (q : Nat) (h : LInv s0 s b)
    (hl0 : 0 < (s0.vars.getD (litVi q) default).level)
    (hld : (s0.vars.getD (litVi q) default).level < s0.trailLim.length) :
    LInv s0 { s with anLearntLits := s.anLearntLits ++ [q] }
      (max b (s0.vars.getD (litVi q) default).level) := by
  obtain ⟨t, ht, hall⟩ := h.shape
  refine ⟨⟨t ++ [q], ?_, ?_⟩, ?_⟩
  · dsimp only
    rw [ht]
    rfl
  · intro l hl
    rcases List.mem_append.mp hl with hm | hm
    · obtain ⟨g1, g2⟩ := hall l hm
      exact ⟨g1, le_trans g2 (Nat.le_max_left _ _)⟩
    · have h2 : l = q := by simpa using hm
      rw [h2]
      exact ⟨hl0, Nat.le_max_right _ _⟩
  · exact Nat.max_lt.mpr ⟨h.blt, hld⟩

theorem filter_length_mark : ∀ (L : List Nat) (P P2 : Nat → Bool) (vi : Nat), L.Nodup →
    vi ∈ L → P vi = false → P2 vi = true → (∀ x, x ≠ vi → P2 x = P x) →
    (L.filter P2).length = (L.filter P).length + 1 := by
  intro L
  induction L with
  | nil =>
    intro P P2 vi hnd hvi
    cases hvi
  | cons a L ih =>
    intro P P2 vi hnd hvi hP hP2 hag
    rcases List.mem_cons.mp hvi with he | hm
    · rw [List.filter_cons, List.filter_cons, ← he, hP, hP2]
      rw [if_pos rfl, if_neg Bool.false_ne_true]
      have hLf : L.filter P2 = L.filter P := by
        apply List.filter_congr
        intro x hx
        apply hag
        intro hxe
        rw [hxe, he] at hx
        exact (List.nodup_cons.mp hnd).1 hx
      rw [hLf]
      rfl
    · have hane : a ≠ vi := by
        intro he
        rw [he] at hnd
        exact (List.nodup_cons.mp hnd).1 hm
      rw [List.filter_cons, List.filter_cons, hag a hane]
      by_cases hpa : P a = true
      · rw [if_pos hpa, if_pos hpa]
        simp only [List.length_cons]
        rw [ih P P2 vi (List.nodup_cons.mp hnd).2 hm hP hP2 hag]
      · rw [if_neg hpa, if_neg hpa]
        exact ih P P2 vi (List.nodup_cons.mp hnd).2 hm hP hP2 hag

theorem filter_length_clear : ∀ (L : List Nat) (P P2 : Nat → Bool) (vi : Nat), L.Nodup →
    vi ∈ L → P vi = true → P2 vi = false → (∀ x, x ≠ vi → P2 x = P x) →
    (L.filter P2).length + 1 = (L.filter P).length := by
  intro L P P2 vi hnd hvi hP hP2 hag
  have h2 := filter_length_mark L P2 P vi hnd hvi hP2 hP (fun x hx => (hag x hx).symm)
  omega

theorem card_mark (vars0 : List AVar) (seen : List Nat) (dl vi : Nat)
    (hvi : vi < vars0.length) (hsl : seen.length = vars0.length)
    (hold : seen.getD vi 0 ≠ 1) (hlev : (vars0.getD vi default).level = dl) :
    seenDlCard vars0 (seen.set vi 1) dl = seenDlCard vars0 seen dl + 1 := by
  unfold seenDlCard
  apply filter_length_mark _ _ _ vi (List.nodup_range _) (List.mem_range.mpr hvi)
  · rw [Bool.and_eq_false_iff]
    left
    rw [beq_eq_false_iff_ne]
    exact hold
  · rw [Bool.and_eq_true]
    constructor
    · rw [getDv_set_self 1 0 (by omega)]
      rfl
    · rw [hlev]
      exact beq_self_eq_true _
  · intro x hx
    rw [getDv_set_ne 1 0 (Ne.symm hx)]

theorem card_mark_same (vars0 : List AVar) (seen : List Nat) (dl vi w : Nat)
    (hlev : ¬ (vars0.getD vi default).level = dl) :
    seenDlCard vars0 (seen.set vi w) dl = seenDlCard vars0 seen dl := by
  unfold seenDlCard
  congr 1
  apply List.filter_congr
  intro x hx
  by_cases hxe : x = vi
  · rw [hxe]
    have hb : ((vars0.getD vi default).level == dl) = false := by
      rw [beq_eq_false_iff_ne]
      exact hlev
    rw [hb, Bool.and_false, Bool.and_false]
  · rw [getDv_set_ne w 0 (Ne.symm hxe)]

theorem card_clear (vars0 : List AVar) (seen : List Nat) (dl vi : Nat)
    (hvi : vi < vars0.length) (hsl : seen.length = vars0.length)
    (hold : seen.getD vi 0 = 1) (hlev : (vars0.getD vi default).level = dl) :
    seenDlCard vars0 (seen.set vi 0) dl + 1 = seenDlCard vars0 seen dl := by
  unfold seenDlCard
  apply filter_length_clear _ _ _ vi (List.nodup_range _) (List.mem_range.mpr hvi)
  · rw [Bool.and_eq_true]
    constructor
    · rw [hold]
      rfl
    · rw [hlev]
      exact beq_self_eq_true _
  · rw [Bool.and_eq_false_iff]
    left
    rw [beq_eq_false_iff_ne]
    rw [getDv_set_self 0 0 (by omega)]
    decide
  · intro x hx
    rw [getDv_set_ne 0 0 (Ne.symm hx)]

theorem card_pos (vars0 : List AVar) (seen : List Nat) (dl : Nat)
    (h : 1 ≤ seenDlCard vars0 seen dl) :
    ∃ vi, vi < vars0.length ∧ seen.getD vi 0 = 1 ∧ (vars0.getD vi default).level = dl := by
  unfold seenDlCard at h
  obtain ⟨x, hx⟩ := List.exists_mem_of_ne_nil
    ((List.range vars0.length).filter
      (fun vi => seen.getD vi 0 == 1 && ((vars0.getD vi default).level == dl)))
    (fun he => by rw [he] at h; simp at h)
  obtain ⟨hxr, hxp⟩ := List.mem_filter.mp hx
  rw [Bool.and_eq_true] at hxp
  exact ⟨x, List.mem_range.mp hxr, beq_iff_eq.mp hxp.1, beq_iff_eq.mp hxp.2⟩

theorem card_pos_of (vars0 : List AVar) (seen : List Nat) (dl vi : Nat)
    (hvi : vi < vars0.length) (hseen : seen.getD vi 0 = 1)
    (hlev : (vars0.getD vi default).level = dl) :
    1 ≤ seenDlCard vars0 seen dl := by
  unfold seenDlCard
  have hmem : vi ∈ (List.range vars0.length).filter
      (fun x => seen.getD x 0 == 1 && ((vars0.getD x default).level == dl)) := by
    rw [List.mem_filter]
    refine ⟨List.mem_range.mpr hvi, ?_⟩
    rw [Bool.and_eq_true, hseen, hlev]
    exact ⟨rfl, beq_self_eq_true _⟩
  exact List.length_pos.mpr (fun he => by rw [he] at hmem; cases hmem)

theorem findSeen_spec (s : ASolver) : ∀ (ti j : Nat), j ≤ ti →
    s.anSeen.getD (litVi (s.trail.getD j 0)) 0 ≠ 0 →
    ∃ ti2, findSeen s ti = some ti2 ∧ j ≤ ti2 ∧ ti2 ≤ ti ∧
      s.anSeen.getD (litVi (s.trail.getD ti2 0)) 0 ≠ 0 ∧
      ∀ k, ti2 < k → k ≤ ti → s.anSeen.getD (litVi (s.trail.getD k 0)) 0 = 0 := by
  intro ti
  induction ti with
  | zero =>
    intro j hj hseen
    have hj0 : j = 0 := by omega
    rw [hj0] at hseen
    refine ⟨0, ?_, by omega, by omega, hseen, ?_⟩
    · rw [findSeen]
      have hb : (s.anSeen.getD (litVi (s.trail.getD 0 0)) 0 == 0) = false :=
        beq_eq_false_iff_ne.mpr hseen
      rw [hb, if_neg Bool.false_ne_true]
    · intro k hk1 hk2
      exact absurd hk2 (by omega)
  | succ t ih =>
    intro j hj hseen
    by_cases hc : s.anSeen.getD (litVi (s.trail.getD (t + 1) 0)) 0 = 0
    · have hj2 : j ≤ t := by
        rcases Nat.lt_or_ge j (t + 1) with h | h
        · omega
        · exfalso
          have hje : j = t + 1 := by omega
          rw [hje] at hseen
          exact hseen hc
      obtain ⟨ti2, h1, h2, h3, h4, h5⟩ := ih j hj2 hseen
      refine ⟨ti2, ?_, h2, by omega, h4, ?_⟩
      · rw [findSeen]
        have hb : (s.anSeen.getD (litVi (s.trail.getD (t + 1) 0)) 0 == 0) = true :=
          beq_iff_eq.mpr hc
        rw [hb, if_pos rfl]
        exact h1
      · intro k hk1 hk2
        rcases Nat.lt_or_ge k (t + 1) with h | h
        · exact h5 k hk1 (by omega)
        · have hke : k = t + 1 := by omega
          rw [hke]
          exact hc
    · refine ⟨t + 1, ?_, by omega, by omega, hc, ?_⟩
      · rw [findSeen]
        have hb : (s.anSeen.getD (litVi (s.trail.getD (t + 1) 0)) 0 == 0) = false :=
          beq_eq_false_iff_ne.mpr hc
        rw [hb, if_neg Bool.false_ne_true]
      · intro k hk1 hk2
        exact absurd hk2 (by omega)


theorem analyzeScan_spec (s0 : ASolver) (dl : Nat) (hdl : dl = s0.trailLim.length)
    (hdl0 : 0 < dl)
    (hLevLe : ∀ i, i < s0.trail.length →
      (s0.vars.getD (litVi (s0.trail.getD i 0)) default).level ≤ dl) :
    ∀ (L : List Nat) (s : ASolver) (b : Nat) (pc : Int) (ti : Nat) (s2 : ASolver)
      (b2 : Nat) (pc2 : Int),
    analyzeScan dl L s b pc = (s2, b2, pc2) →
    SCo s0 s → SInv s0 s ti → LInv s0 s b →
    pc = ((seenDlCard s0.vars s.anSeen dl : Nat) : Int) →
    ScanOK s0 ti L →
    SCo s0 s2 ∧ SInv s0 s2 ti ∧ LInv s0 s2 b2 ∧
    pc2 = ((seenDlCard s0.vars s2.anSeen dl : Nat) : Int) ∧
    b ≤ b2 ∧ pc ≤ pc2 ∧
    ((∃ q ∈ L, (s0.vars.getD (litVi q) default).level = dl) → 1 ≤ pc2) := by
  intro L
  induction L with
  | nil =>
    intro s b pc ti s2 b2 pc2 hrun hSCo hSInv hLInv hpc hOK
    injection hrun with h1 h2
    injection h2 with h2a h2b
    rw [← h1, ← h2a, ← h2b]
    refine ⟨hSCo, hSInv, hLInv, hpc, Nat.le_refl _, le_refl _, ?_⟩
    intro hex
    obtain ⟨q, hq, _⟩ := hex
    cases hq
  | cons q rest ih =>
    intro s b pc ti s2 b2 pc2 hrun hSCo hSInv hLInv hpc hOK
    rw [analyzeScan] at hrun
    dsimp only at hrun
    obtain ⟨hqb, j, hj1, hj2, hj3⟩ := hOK q (List.mem_cons_self _ _)
    have hOKr : ScanOK s0 ti rest := fun x hx => hOK x (List.mem_cons_of_mem _ hx)
    by_cases h1 : (s.anSeen.getD (litVi q) 0 == 0 &&
        decide (0 < (s.vars.getD (litVi q) default).level)) = true
    · rw [if_pos h1] at hrun
      rw [Bool.and_eq_true] at h1
      have hseen0 : s.anSeen.getD (litVi q) 0 = 0 := beq_iff_eq.mp h1.1
      have hlev0 : 0 < (s.vars.getD (litVi q) default).level := of_decide_eq_true h1.2
      have hlev0o : 0 < (s0.vars.getD (litVi q) default).level := by
        rw [← hSCo.lev (litVi q)]
        exact hlev0
      have hCb : SCo s0 (s.bump_vi (litVi q)) := SCo_bump_vi s0 s (litVi q) hSCo
      have hCm : SCo s0 { s.bump_vi (litVi q) with
          anSeen := (s.bump_vi (litVi q)).anSeen.set (litVi q) 1 } :=
        SCo_seenset s0 (s.bump_vi (litVi q)) (litVi q) 1 hCb
      have hIb : SInv s0 (s.bump_vi (litVi q)) ti :=
        SInv_carry s0 s (s.bump_vi (litVi q)) ti hSInv rfl
      have hIm : SInv s0 { s.bump_vi (litVi q) with
          anSeen := (s.bump_vi (litVi q)).anSeen.set (litVi q) 1 } ti :=
        SInv_mark s0 (s.bump_vi (litVi q)) ti (litVi q) hIb ⟨j, hj1, hj2, hj3⟩
      have hLb : LInv s0 (s.bump_vi (litVi q)) b :=
        LInv_carry s0 s (s.bump_vi (litVi q)) b hLInv rfl
      have hLm : LInv s0 { s.bump_vi (litVi q) with
          anSeen := (s.bump_vi (litVi q)).anSeen.set (litVi q) 1 } b :=
        LInv_carry s0 (s.bump_vi (litVi q)) _ b hLb rfl
      by_cases h2 : dl ≤ (s.vars.getD (litVi q) default).level
      · rw [if_pos h2] at hrun
        have hlevdl : (s0.vars.getD (litVi q) default).level = dl := by
          have hle := hLevLe j hj2
          rw [hj3] at hle
          have h2o : dl ≤ (s0.vars.getD (litVi q) default).level := by
            rw [← hSCo.lev (litVi q)]
            exact h2
          omega
        have hcard : seenDlCard s0.vars (s.anSeen.set (litVi q) 1) dl =
            seenDlCard s0.vars s.anSeen dl + 1 :=
          card_mark s0.vars s.anSeen dl (litVi q) hqb hSCo.slen
            (by rw [hseen0]; decide) hlevdl
        obtain ⟨s3, hs3⟩ : ∃ x, (if 0 < (({ s.bump_vi (litVi q) with
            anSeen := (s.bump_vi (litVi q)).anSeen.set (litVi q) 1 } :
              ASolver).vars.getD (litVi q) default).reason then
            { ({ s.bump_vi (litVi q) with
                anSeen := (s.bump_vi (litVi q)).anSeen.set (litVi q) 1 } : ASolver) with
              anLastDl := ({ s.bump_vi (litVi q) with
                anSeen := (s.bump_vi (litVi q)).anSeen.set (litVi q) 1 } :
                  ASolver).anLastDl ++ [q] }
          else { s.bump_vi (litVi q) with
            anSeen := (s.bump_vi (litVi q)).anSeen.set (litVi q) 1 }) = x := ⟨_, rfl⟩
        rw [hs3] at hrun
        have hs3facts : SCo s0 s3 ∧ SInv s0 s3 ti ∧ LInv s0 s3 b ∧
            s3.anSeen = s.anSeen.set (litVi q) 1 := by
          by_cases hr : 0 < (({ s.bump_vi (litVi q) with
              anSeen := (s.bump_vi (litVi q)).anSeen.set (litVi q) 1 } :
                ASolver).vars.getD (litVi q) default).reason
          · rw [if_pos hr] at hs3
            rw [← hs3]
            exact ⟨SCo_carry s0 _ _ hCm rfl rfl rfl rfl rfl,
              SInv_carry s0 _ _ ti hIm rfl,
              LInv_carry s0 _ _ b hLm rfl, rfl⟩
          · rw [if_neg hr] at hs3
            rw [← hs3]
            exact ⟨hCm, hIm, hLm, rfl⟩
        obtain ⟨hC3, hI3, hL3, hS3⟩ := hs3facts
        have hpc3 : pc + 1 = ((seenDlCard s0.vars s3.anSeen dl : Nat) : Int) := by
          rw [hS3, hcard, hpc]
          omega
        obtain ⟨g1, g2, g3, g4, g5, g6, g7⟩ :=
          ih s3 b (pc + 1) ti s2 b2 pc2 hrun hC3 hI3 hL3 hpc3 hOKr
        refine ⟨g1, g2, g3, g4, g5, by omega, ?_⟩
        intro _
        have hpcnn : 0 ≤ pc := by
          rw [hpc]
          omega
        omega
      · rw [if_neg h2] at hrun
        have hlevlt : (s0.vars.getD (litVi q) default).level < dl := by
          have h2o := h2
          rw [hSCo.lev (litVi q)] at h2o
          omega
        have hleq : (s.vars.getD (litVi q) default).level =
            (s0.vars.getD (litVi q) default).level := hSCo.lev (litVi q)
        rw [hleq] at hrun
        have hcard : seenDlCard s0.vars (s.anSeen.set (litVi q) 1) dl =
            seenDlCard s0.vars s.anSeen dl :=
          card_mark_same s0.vars s.anSeen dl (litVi q) 1 (by omega)
        have hL3 : LInv s0 { ({ s.bump_vi (litVi q) with
            anSeen := (s.bump_vi (litVi q)).anSeen.set (litVi q) 1 } : ASolver) with
            anLearntLits := ({ s.bump_vi (litVi q) with
              anSeen := (s.bump_vi (litVi q)).anSeen.set (litVi q) 1 } :
                ASolver).anLearntLits ++ [q] }
            (max b (s0.vars.getD (litVi q) default).level) :=
          LInv_push s0 _ b q hLm hlev0o (by rw [← hdl]; exact hlevlt)
        have hpc3 : pc = ((seenDlCard s0.vars (s.anSeen.set (litVi q) 1) dl : Nat) : Int) := by
          rw [hcard]
          exact hpc
        obtain ⟨g1, g2, g3, g4, g5, g6, g7⟩ :=
          ih _ (max b (s0.vars.getD (litVi q) default).level) pc ti s2 b2 pc2 hrun
            (SCo_carry s0 _ _ hCm rfl rfl rfl rfl rfl)
            (SInv_carry s0 _ _ ti hIm rfl) hL3 hpc3 hOKr
        refine ⟨g1, g2, g3, g4, le_trans (Nat.le_max_left _ _) g5, g6, ?_⟩
        intro hex
        obtain ⟨qq, hqq, hqlev⟩ := hex
        rcases List.mem_cons.mp hqq with hqe | hqm
        · exfalso
          rw [hqe] at hqlev
          omega
        · exact g7 ⟨qq, hqm, hqlev⟩
    · rw [if_neg h1] at hrun
      obtain ⟨g1, g2, g3, g4, g5, g6, g7⟩ :=
        ih s b pc ti s2 b2 pc2 hrun hSCo hSInv hLInv hpc hOKr
      refine ⟨g1, g2, g3, g4, g5, g6, ?_⟩
      intro hex
      obtain ⟨qq, hqq, hqlev⟩ := hex
      rcases List.mem_cons.mp hqq with hqe | hqm
      · rw [Bool.not_eq_true, Bool.and_eq_false_iff] at h1
        rcases h1 with ha | hb
        · have hseen1 : s.anSeen.getD (litVi q) 0 = 1 := by
            rcases hSInv.vals (litVi q) with h0 | hone
            · exfalso
              rw [beq_eq_false_iff_ne] at ha
              exact ha h0
            · exact hone
          have hqdl : (s0.vars.getD (litVi q) default).level = dl := by
            rw [← hqe]
            exact hqlev
          have hcp := card_pos_of s0.vars s.anSeen dl (litVi q) hqb hseen1 hqdl
          have hpcge : 1 ≤ pc := by
            rw [hpc]
            omega
          omega
        · exfalso
          have hlz : ¬ 0 < (s.vars.getD (litVi q) default).level := by
            intro hlt
            rw [decide_eq_true hlt] at hb
            exact Bool.noConfusion hb
          apply hlz
          rw [hSCo.lev (litVi q), ← hqe, hqlev]
          exact hdl0
      · exact g7 ⟨qq, hqm, hqlev⟩


theorem analyzeLoop_spec (s0 : ASolver) (dl : Nat) (hdl : dl = s0.trailLim.length)
    (hdl0 : 0 < dl)
    (hMono : ∀ i j, i ≤ j → j < s0.trail.length →
      (s0.vars.getD (litVi (s0.trail.getD i 0)) default).level ≤
      (s0.vars.getD (litVi (s0.trail.getD j 0)) default).level)
    (hLevLe : ∀ i, i < s0.trail.length →
      (s0.vars.getD (litVi (s0.trail.getD i 0)) default).level ≤ dl)
    (hTrailVB : ∀ l ∈ s0.trail, litVi l < s0.vars.length)
    (hTrail2 : ∀ l ∈ s0.trail, 2 ≤ l)
    (hRsn : ∀ i, i < s0.trail.length →
      ∀ q ∈ (s0.clauses.getD
          ((s0.vars.getD (litVi (s0.trail.getD i 0)) default).reason) default).lits.drop 1,
        litVi q < s0.vars.length ∧
        ∃ j, j < i ∧ litVi (s0.trail.getD j 0) = litVi q) :
    ∀ (fuel : Nat) (s : ASolver) (ci p ti b : Nat) (pc : Int) (sR : ASolver) (pR bR : Nat),
    analyzeLoop dl fuel s ci p ti b pc = some (sR, pR, bR) →
    SCo s0 s → SInv s0 s ti → LInv s0 s b →
    pc = ((seenDlCard s0.vars s.anSeen dl : Nat) : Int) →
    ti < s0.trail.length →
    ScanOK s0 ti ((s.clauses.getD ci default).lits.drop (if p == NULL_LIT then 0 else 1)) →
    (1 ≤ pc ∨ ∃ q ∈ (s.clauses.getD ci default).lits.drop (if p == NULL_LIT then 0 else 1),
      (s0.vars.getD (litVi q) default).level = dl) →
    SCo s0 sR ∧
    (s0.vars.getD (litVi pR) default).level = dl ∧
    pR ∈ s0.trail ∧
    LInv s0 sR bR := by
  intro fuel
  induction fuel with
  | zero =>
    intro s ci p ti b pc sR pR bR hrun
    exact Option.noConfusion hrun
  | succ fuel ih =>
    intro s ci p ti b pc sR pR bR hrun hSCo hSInv hLInv hpc hti hOK hPC
    rw [analyzeLoop] at hrun
    dsimp only at hrun
    obtain ⟨s1, hs1e⟩ : ∃ x,
        (if 0 < (s.clauses.getD ci default).rank then
          (if 2 < (s.clauses.getD ci default).rank &&
              decide (lbd_of (s.bump_ci ci) (s.clauses.getD ci default).lits + 1 <
                (s.clauses.getD ci default).rank) then
            { s.bump_ci ci with clauses := (s.bump_ci ci).clauses.set ci { ((s.bump_ci ci).clauses.getD ci default) with rank := lbd_of (s.bump_ci ci) (s.clauses.getD ci default).lits } }
          else s.bump_ci ci)
        else s) = x := ⟨_, rfl⟩
    rw [hs1e] at hrun
    have hs1facts : SCo s0 s1 ∧ SInv s0 s1 ti ∧ LInv s0 s1 b ∧ s1.anSeen = s.anSeen := by
      rw [← hs1e]
      by_cases h1 : 0 < (s.clauses.getD ci default).rank
      · rw [if_pos h1]
        by_cases h2 : (2 < (s.clauses.getD ci default).rank &&
            decide (lbd_of (s.bump_ci ci) (s.clauses.getD ci default).lits + 1 <
              (s.clauses.getD ci default).rank)) = true
        · rw [if_pos h2]
          exact ⟨SCo_rankset s0 (s.bump_ci ci) ci _ (SCo_bump_ci s0 s ci hSCo),
            SInv_carry s0 s _ ti hSInv rfl, LInv_carry s0 s _ b hLInv rfl, rfl⟩
        · rw [if_neg h2]
          exact ⟨SCo_bump_ci s0 s ci hSCo, SInv_carry s0 s _ ti hSInv rfl,
            LInv_carry s0 s _ b hLInv rfl, rfl⟩
      · rw [if_neg h1]
        exact ⟨hSCo, hSInv, hLInv, rfl⟩
    obtain ⟨hC1, hI1, hL1, hSeen1⟩ := hs1facts
    obtain ⟨SC, hSC⟩ : ∃ x, analyzeScan dl
        ((s.clauses.getD ci default).lits.drop (if p == NULL_LIT then 0 else 1))
        s1 b pc = x := ⟨_, rfl⟩
    rw [hSC] at hrun
    obtain ⟨sc1, scb, scpc⟩ := SC
    dsimp only at hrun
    have hpc1 : pc = ((seenDlCard s0.vars s1.anSeen dl : Nat) : Int) := by
      rw [hSeen1]
      exact hpc
    obtain ⟨hSCsc, hSIsc, hLIsc, hCsc, hble, hpcle, hpcdl⟩ :=
      analyzeScan_spec s0 dl hdl hdl0 hLevLe _ s1 b pc ti sc1 scb scpc hSC
        hC1 hI1 hL1 hpc1 hOK
    have hscpc1 : 1 ≤ scpc := by
      rcases hPC with h | h
      · omega
      · exact hpcdl h
    have hcard1 : 1 ≤ seenDlCard s0.vars sc1.anSeen dl := by omega
    obtain ⟨vi, hviN, hviSeen, hviLev⟩ := card_pos s0.vars sc1.anSeen dl hcard1
    obtain ⟨j, hj1, hj2, hj3⟩ := hSIsc.pos vi hviSeen
    have hseenj : sc1.anSeen.getD (litVi (sc1.trail.getD j 0)) 0 ≠ 0 := by
      rw [hSCsc.trail, hj3, hviSeen]
      decide
    obtain ⟨ti2, hFS, hjle, hti2le, hseenti2, hmax⟩ := findSeen_spec sc1 ti j hj1 hseenj
    rw [hFS] at hrun
    dsimp only at hrun
    have htp : sc1.trail.getD ti2 0 = s0.trail.getD ti2 0 := by rw [hSCsc.trail]
    rw [htp] at hrun hseenti2
    rw [hSCsc.rsn (litVi (s0.trail.getD ti2 0))] at hrun
    have hti2len : ti2 < s0.trail.length := by omega
    have hlevti2 : (s0.vars.getD (litVi (s0.trail.getD ti2 0)) default).level = dl := by
      have hlevj : (s0.vars.getD (litVi (s0.trail.getD j 0)) default).level = dl := by
        rw [hj3]
        exact hviLev
      have hle1 := hMono j ti2 hjle hti2len
      have hle2 := hLevLe ti2 hti2len
      omega
    have hvilt : litVi (s0.trail.getD ti2 0) < s0.vars.length :=
      hTrailVB _ (P.getD_mem 0 hti2len)
    have hseen1v : sc1.anSeen.getD (litVi (s0.trail.getD ti2 0)) 0 = 1 := by
      rcases hSIsc.vals (litVi (s0.trail.getD ti2 0)) with h0 | h1
      · exact absurd h0 hseenti2
      · exact h1
    have hclear := card_clear s0.vars sc1.anSeen dl (litVi (s0.trail.getD ti2 0))
      hvilt hSCsc.slen hseen1v hlevti2
    have hSC3 : SCo s0 { sc1 with
        anSeen := sc1.anSeen.set (litVi (s0.trail.getD ti2 0)) 0 } :=
      SCo_seenset s0 sc1 (litVi (s0.trail.getD ti2 0)) 0 hSCsc
    have hL3 : LInv s0 { sc1 with
        anSeen := sc1.anSeen.set (litVi (s0.trail.getD ti2 0)) 0 } scb :=
      LInv_carry s0 sc1 _ scb hLIsc rfl
    have hmemti2 : s0.trail.getD ti2 0 ∈ s0.trail := P.getD_mem 0 hti2len
    by_cases hbr : scpc - 1 ≤ 0
    · rw [if_pos hbr] at hrun
      injection hrun with h2
      simp only [Prod.mk.injEq] at h2
      obtain ⟨ha, hb2, hc2⟩ := h2
      subst ha
      subst hb2
      subst hc2
      exact ⟨hSC3, hlevti2, hmemti2, hL3⟩
    · rw [if_neg hbr] at hrun
      have hI3 : SInv s0 { sc1 with
          anSeen := sc1.anSeen.set (litVi (s0.trail.getD ti2 0)) 0 } (ti2 - 1) := by
        constructor
        · intro x
          dsimp only
          by_cases hx : x = litVi (s0.trail.getD ti2 0)
          · rw [hx]
            have hb3 : litVi (s0.trail.getD ti2 0) < sc1.anSeen.length := by
              rw [hSCsc.slen]
              exact hvilt
            rw [getDv_set_self 0 0 hb3]
            left
            rfl
          · rw [getDv_set_ne 0 0 (Ne.symm hx)]
            exact hSIsc.vals x
        · intro x hx
          dsimp only at hx
          by_cases hxe : x = litVi (s0.trail.getD ti2 0)
          · exfalso
            have hb3 : litVi (s0.trail.getD ti2 0) < sc1.anSeen.length := by
              rw [hSCsc.slen]
              exact hvilt
            rw [hxe, getDv_set_self 0 0 hb3] at hx
            exact absurd hx (by decide)
          · rw [getDv_set_ne 0 0 (Ne.symm hxe)] at hx
            obtain ⟨j2, hj21, hj22, hj23⟩ := hSIsc.pos x hx
            rcases Nat.lt_or_ge j2 ti2 with hlt | hge
            · exact ⟨j2, by omega, hj22, hj23⟩
            · exfalso
              rcases Nat.eq_or_lt_of_le hge with heq | hgt
              · apply hxe
                rw [← hj23, ← heq]
              · have h0 := hmax j2 hgt hj21
                rw [hSCsc.trail] at h0
                rw [hj23] at h0
                rw [h0] at hx
                exact absurd hx (by decide)
      have hpc3 : scpc - 1 = ((seenDlCard s0.vars
          (sc1.anSeen.set (litVi (s0.trail.getD ti2 0)) 0) dl : Nat) : Int) := by
        omega
      have hbfalse : (s0.trail.getD ti2 0 == NULL_LIT) = false := by
        rw [beq_eq_false_iff_ne]
        have h2 := hTrail2 _ hmemti2
        unfold NULL_LIT
        omega
      have hOK2 : ScanOK s0 (ti2 - 1) ((({ sc1 with
          anSeen := sc1.anSeen.set (litVi (s0.trail.getD ti2 0)) 0 } :
            ASolver).clauses.getD
          ((s0.vars.getD (litVi (s0.trail.getD ti2 0)) default).reason) default).lits.drop
          (if s0.trail.getD ti2 0 == NULL_LIT then 0 else 1)) := by
        rw [hbfalse, if_neg Bool.false_ne_true]
        intro q hq
        rw [hSC3.cl] at hq
        obtain ⟨hqb, j2, hj21, hj22⟩ := hRsn ti2 hti2len q hq
        exact ⟨hqb, j2, by omega, by omega, hj22⟩
      have hPC2 : 1 ≤ scpc - 1 ∨ ∃ q ∈ (({ sc1 with
          anSeen := sc1.anSeen.set (litVi (s0.trail.getD ti2 0)) 0 } :
            ASolver).clauses.getD
          ((s0.vars.getD (litVi (s0.trail.getD ti2 0)) default).reason) default).lits.drop
          (if s0.trail.getD ti2 0 == NULL_LIT then 0 else 1),
          (s0.vars.getD (litVi q) default).level = dl := by
        left
        omega
      exact ih _ _ _ _ _ _ sR pR bR hrun hSC3 hI3 hL3 hpc3 (by omega) hOK2 hPC2


theorem clearTo_learnt : ∀ (k top1 : Nat) (s : ASolver),
    (clearTo top1 k s).anLearntLits = s.anLearntLits := by
  intro k
  induction k with
  | zero =>
    intro top1 s
    rfl
  | succ k2 ih =>
    intro top1 s
    rw [clearTo]
    exact ih top1 _

theorem removableScan_learnt : ∀ (L : List Nat) (levelMap : List Bool) (top1 : Nat)
    (s : ASolver), (removableScan levelMap top1 L s).1.anLearntLits = s.anLearntLits := by
  intro L
  induction L with
  | nil =>
    intro levelMap top1 s
    rfl
  | cons q rest ih =>
    intro levelMap top1 s
    rw [removableScan]
    by_cases h1 : (s.anSeen.getD (litVi q) 0 != 1 &&
        ((s.vars.getD (litVi q) default).level % 256 != 0)) = true
    · rw [if_pos h1]
      by_cases h2 : ((s.vars.getD (litVi q) default).reason != NULL_CLAUSE &&
          levelMap.getD ((s.vars.getD (litVi q) default).level % 256) false) = true
      · rw [if_pos h2]
        exact ih levelMap top1 _
      · rw [if_neg h2]
        exact clearTo_learnt _ top1 s
    · rw [if_neg h1]
      exact ih levelMap top1 s

theorem removableLoop_learnt : ∀ (fuel : Nat) (levelMap : List Bool) (top1 : Nat)
    (s : ASolver) (r : ASolver × Bool), removableLoop levelMap top1 fuel s = some r →
    r.1.anLearntLits = s.anLearntLits := by
  intro fuel
  induction fuel with
  | zero =>
    intro levelMap top1 s r hrun
    exact Option.noConfusion hrun
  | succ fuel ih =>
    intro levelMap top1 s r hrun
    rw [removableLoop] at hrun
    obtain ⟨G, hG⟩ : ∃ x, s.anStack.getLast? = x := ⟨_, rfl⟩
    rw [hG] at hrun
    cases G with
    | none =>
      injection hrun with h2
      rw [← h2]
    | some sl =>
      dsimp only at hrun
      by_cases hr2 : (removableScan levelMap top1
          (s.clauses.getD ((s.vars.getD (litVi sl) default).reason) default).lits
          { s with anStack := s.anStack.dropLast }).2 = true
      · rw [if_pos hr2] at hrun
        have h3 := ih levelMap top1 _ r hrun
        rw [h3, removableScan_learnt]
      · rw [if_neg hr2] at hrun
        injection hrun with h2
        rw [← h2]
        dsimp only
        rw [removableScan_learnt]

theorem analyze_removable_learnt (rfuel : Nat) (s : ASolver) (l : Nat)
    (levelMap : List Bool) (s2 : ASolver) (rem : Bool)
    (h : analyze_removable rfuel s l levelMap = some (s2, rem)) :
    s2.anLearntLits = s.anLearntLits := by
  unfold analyze_removable at h
  exact removableLoop_learnt rfuel levelMap s.anToClear.length { s with anStack := [l] } (s2, rem) h

theorem glucoseBump_learnt : ∀ (L : List Nat) (s : ASolver) (r : Nat),
    (glucoseBump L s r).anLearntLits = s.anLearntLits := by
  intro L
  induction L with
  | nil =>
    intro s r
    rfl
  | cons l rest ih =>
    intro s r
    rw [glucoseBump]
    rw [ih]
    by_cases hc : r < (s.clauses.getD ((s.vars.getD (litVi l) default).reason)
        default).lits.length
    · rw [if_pos hc]
      rfl
    · rw [if_neg hc]

theorem clearSeen_learnt : ∀ (L : List Nat) (s : ASolver),
    (clearSeen L s).anLearntLits = s.anLearntLits := by
  intro L
  induction L with
  | nil =>
    intro s
    rfl
  | cons l rest ih =>
    intro s
    rw [clearSeen]
    exact ih _

theorem take_getD_zero (L : List Nat) (m : Nat) (hm : 1 ≤ m) :
    (L.take m).getD 0 0 = L.getD 0 0 := by
  cases L with
  | nil => rw [List.take_nil]
  | cons a t =>
    cases m with
    | zero => omega
    | succ m2 => rfl

theorem take_getD_lt : ∀ (L : List Nat) (m k : Nat), k < m →
    (L.take m).getD k 0 = L.getD k 0 := by
  intro L
  induction L with
  | nil =>
    intro m k h
    rw [List.take_nil]
  | cons a t ih =>
    intro m k h
    cases m with
    | zero => omega
    | succ m2 =>
      rw [List.take_succ_cons]
      cases k with
      | zero => rfl
      | succ k2 => exact ih m2 k2 (by omega)

theorem simplifyLoop_spec (levelMap : List Bool) (rfuel n : Nat) (T : List Nat) :
    ∀ (fuel i j : Nat) (s s4 : ASolver) (jR : Nat),
    simplifyLoop levelMap rfuel n fuel i j s = some (s4, jR) →
    s.anLearntLits.length = n →
    1 ≤ j → j ≤ i → 1 ≤ i → i ≤ n →
    (∀ k, 1 ≤ k → k < n → s.anLearntLits.getD k 0 ∈ T) →
    1 ≤ jR ∧
    s4.anLearntLits.getD 0 0 = s.anLearntLits.getD 0 0 ∧
    (∀ k, 1 ≤ k → k < s4.anLearntLits.length → s4.anLearntLits.getD k 0 ∈ T) := by
  intro fuel
  induction fuel with
  | zero =>
    intro i j s s4 jR hrun
    exact Option.noConfusion hrun
  | succ fuel ih =>
    intro i j s s4 jR hrun hlen hj hji hi1 hin hmem
    rw [simplifyLoop] at hrun
    by_cases hieq : (i == n) = true
    · rw [if_pos hieq] at hrun
      injection hrun with h2
      simp only [Prod.mk.injEq] at h2
      obtain ⟨ha, hb⟩ := h2
      subst ha
      subst hb
      refine ⟨hj, ?_, ?_⟩
      · dsimp only
        exact take_getD_zero _ _ (by omega)
      · intro k hk1 hk2
        dsimp only at hk2 ⊢
        rw [List.length_take] at hk2
        obtain ⟨hka, hkb⟩ := Nat.lt_min.mp hk2
        rw [take_getD_lt _ _ _ hka]
        exact hmem k hk1 (by omega)
    · rw [if_neg hieq] at hrun
      dsimp only at hrun
      have hiLt : i < n := by
        rcases Nat.lt_or_ge i n with h | h
        · exact h
        · exfalso
          apply hieq
          have hie : i = n := by omega
          rw [hie]
          exact beq_self_eq_true _
      have hlmem : s.anLearntLits.getD i 0 ∈ T := hmem i hi1 hiLt
      by_cases hkeep : ((s.vars.getD (litVi (s.anLearntLits.getD i 0))
          default).reason == NULL_CLAUSE) = true
      · rw [if_pos hkeep] at hrun
        have hmem2 : ∀ k, 1 ≤ k → k < n →
            (({ s with anLearntLits := s.anLearntLits.set j (s.anLearntLits.getD i 0) } :
              ASolver)).anLearntLits.getD k 0 ∈ T := by
          intro k hk1 hk2
          dsimp only
          by_cases hkj : k = j
          · rw [hkj, getDv_set_self _ 0 (by omega)]
            exact hlmem
          · rw [getDv_set_ne _ 0 (Ne.symm hkj)]
            exact hmem k hk1 hk2
        obtain ⟨g1, g2, g3⟩ := ih (i + 1) (j + 1) _ s4 jR hrun
          (by dsimp only; rw [List.length_set]; exact hlen)
          (by omega) (by omega) (by omega) (by omega) hmem2
        refine ⟨g1, ?_, g3⟩
        rw [g2]
        dsimp only
        rw [getDv_set_ne _ 0 (by omega : j ≠ 0)]
      · rw [if_neg hkeep] at hrun
        obtain ⟨R, hR⟩ : ∃ x, analyze_removable rfuel s
            (s.anLearntLits.getD i 0) levelMap = x := ⟨_, rfl⟩
        rw [hR] at hrun
        cases R with
        | none => exact Option.noConfusion hrun
        | some r2 =>
          obtain ⟨s2, rem⟩ := r2
          dsimp only at hrun
          have hs2l : s2.anLearntLits = s.anLearntLits :=
            analyze_removable_learnt rfuel s _ levelMap s2 rem hR
          by_cases hrem : (!rem) = true
          · rw [if_pos hrem] at hrun
            have hmem2 : ∀ k, 1 ≤ k → k < n →
                (({ s2 with anLearntLits := s2.anLearntLits.set j (s.anLearntLits.getD i 0) } : ASolver)).anLearntLits.getD k 0 ∈ T := by
              intro k hk1 hk2
              dsimp only
              rw [hs2l]
              by_cases hkj : k = j
              · rw [hkj, getDv_set_self _ 0 (by omega)]
                exact hlmem
              · rw [getDv_set_ne _ 0 (Ne.symm hkj)]
                exact hmem k hk1 hk2
            obtain ⟨g1, g2, g3⟩ := ih (i + 1) (j + 1) _ s4 jR hrun
              (by dsimp only; rw [List.length_set, hs2l]; exact hlen)
              (by omega) (by omega) (by omega) (by omega) hmem2
            refine ⟨g1, ?_, g3⟩
            rw [g2]
            dsimp only
            rw [hs2l, getDv_set_ne _ 0 (by omega : j ≠ 0)]
          · rw [if_neg hrem] at hrun
            obtain ⟨g1, g2, g3⟩ := ih (i + 1) j s2 s4 jR hrun
              (by rw [hs2l]; exact hlen) (by omega) (by omega) (by omega) (by omega)
              (by intro k hk1 hk2; rw [hs2l]; exact hmem k hk1 hk2)
            refine ⟨g1, ?_, g3⟩
            rw [g2, hs2l]


theorem drop_one_mem_getD (L : List Nat) (x : Nat) (hx : x ∈ L.drop 1) :
    ∃ k, 1 ≤ k ∧ k < L.length ∧ L.getD k 0 = x := by
  cases L with
  | nil =>
    exact absurd hx (by simp)
  | cons a t =>
    have hx2 : x ∈ t := hx
    obtain ⟨i, hi, hieq⟩ := List.getElem_of_mem hx2
    refine ⟨i + 1, by omega, by simp only [List.length_cons]; omega, ?_⟩
    show t.getD i 0 = x
    rw [List.getD_eq_getElem?_getD, List.getElem?_eq_getElem hi]
    exact hieq

/-- C2: for every conflict analyzed at decision level dl > 0 (under the
solver's trail/reason well-formedness: trail levels are monotone and bounded
by dl, reason-clause tails lie strictly earlier on the trail, and the conflict
clause's variables are assigned with at least one at level dl), the learnt
clause produced by analyze() has its asserting literal - the negation of a
trail literal whose variable is at level dl - at position 0, every other
literal is at a positive level at most the returned backjump level bl with
bl < dl, and exactly one literal of the learnt clause is at level dl. -/
theorem analyze_spec (fuel : Nat) (s : ASolver) (confl : Nat)
    (s8 : ASolver) (bR : Nat) (learnt : List Nat)
    (hrun : analyze fuel s confl = some (s8, bR, learnt))
    (hdl0 : 0 < s.trailLim.length)
    (hSeenLen : s.anSeen.length = s.vars.length)
    (hMono : ∀ i j, i ≤ j → j < s.trail.length →
      (s.vars.getD (litVi (s.trail.getD i 0)) default).level ≤
      (s.vars.getD (litVi (s.trail.getD j 0)) default).level)
    (hLevLe : ∀ i, i < s.trail.length →
      (s.vars.getD (litVi (s.trail.getD i 0)) default).level ≤ s.trailLim.length)
    (hTrailVB : ∀ l ∈ s.trail, litVi l < s.vars.length)
    (hTrail2 : ∀ l ∈ s.trail, 2 ≤ l)
    (hRsn : ∀ i, i < s.trail.length →
      ∀ q ∈ (s.clauses.getD
          ((s.vars.getD (litVi (s.trail.getD i 0)) default).reason) default).lits.drop 1,
        litVi q < s.vars.length ∧
        ∃ j, j < i ∧ litVi (s.trail.getD j 0) = litVi q)
    (hConfl : ∀ q ∈ (s.clauses.getD confl default).lits, litVi q < s.vars.length ∧
      ∃ j, j < s.trail.length ∧ litVi (s.trail.getD j 0) = litVi q)
    (hConflDl : ∃ q ∈ (s.clauses.getD confl default).lits,
      (s.vars.getD (litVi q) default).level = s.trailLim.length) :
    bR < s.trailLim.length ∧
    (∃ pL ∈ s.trail, learnt.getD 0 0 = litNegate pL ∧
      (s.vars.getD (litVi pL) default).level = s.trailLim.length) ∧
    (∀ l ∈ learnt.drop 1, 0 < (s.vars.getD (litVi l) default).level ∧
      (s.vars.getD (litVi l) default).level ≤ bR ∧
      (s.vars.getD (litVi l) default).level < s.trailLim.length) ∧
    learnt.countP
      (fun l => (s.vars.getD (litVi l) default).level == s.trailLim.length) = 1 := by
  have htne : 0 < s.trail.length := by
    obtain ⟨q, hq, hqlev⟩ := hConflDl
    obtain ⟨hqb, j, hjlen, hje⟩ := hConfl q hq
    omega
  unfold analyze at hrun
  dsimp only at hrun
  obtain ⟨R1, hR1⟩ : ∃ x, analyzeLoop s.trailLim.length fuel
      { s with anSeen := s.anSeen.map (fun _ => (0 : Nat)), anLearntLits := [0] }
      confl NULL_LIT (s.trail.length - 1) 0 0 = x := ⟨_, rfl⟩
  rw [hR1] at hrun
  cases R1 with
  | none => exact Option.noConfusion hrun
  | some r =>
    obtain ⟨s1, p, b⟩ := r
    dsimp only at hrun
    have hc0 : seenDlCard s.vars (s.anSeen.map (fun _ => (0 : Nat)))
        s.trailLim.length = 0 := by
      unfold seenDlCard
      rw [List.length_eq_zero]
      rw [List.filter_eq_nil]
      intro a ha
      rw [seen_zero_getD]
      simp
    have hpc0 : (0 : Int) = ((seenDlCard s.vars (s.anSeen.map (fun _ => (0 : Nat)))
        s.trailLim.length : Nat) : Int) := by
      rw [hc0]
      rfl
    obtain ⟨hSCoR, hlevP, hpmem, hLIR⟩ := analyzeLoop_spec
      { s with anSeen := s.anSeen.map (fun _ => (0 : Nat)), anLearntLits := [0] }
      s.trailLim.length rfl hdl0 hMono hLevLe hTrailVB hTrail2 hRsn
      fuel _ confl NULL_LIT (s.trail.length - 1) 0 0 s1 p b hR1
      ⟨fun _ => rfl, fun _ => rfl, rfl, rfl, rfl,
        (by dsimp only; rw [List.length_map]; exact hSeenLen), fun _ => rfl⟩
      (by
        constructor
        · intro x
          dsimp only
          rw [seen_zero_getD]
          left
          rfl
        · intro x hx
          dsimp only at hx
          rw [seen_zero_getD] at hx
          exact absurd hx (by decide))
      ⟨⟨[], rfl, by intro l hl; cases hl⟩, hdl0⟩
      hpc0
      (show s.trail.length - 1 < s.trail.length by omega)
      (by
        intro q hq
        rw [if_pos (show (NULL_LIT == NULL_LIT) = true from rfl), List.drop_zero] at hq
        obtain ⟨hqb, j, hjlen, hje⟩ := hConfl q hq
        exact ⟨hqb, j, by omega, hjlen, hje⟩)
      (Or.inr (by
        rw [if_pos (show (NULL_LIT == NULL_LIT) = true from rfl), List.drop_zero]
        exact hConflDl))
    obtain ⟨t, ht, htall⟩ := hLIR.shape
    obtain ⟨R2, hR2⟩ : ∃ x, simplifyLoop
        (buildLevelMap { s1 with anLearntLits := s1.anLearntLits.set 0 (litNegate p) })
        fuel (s1.anLearntLits.set 0 (litNegate p)).length
        ((s1.anLearntLits.set 0 (litNegate p)).length + 1) 1 1
        { s1 with anLearntLits := s1.anLearntLits.set 0 (litNegate p), anStack := [], anToClear := (s1.anLearntLits.set 0 (litNegate p)).getD 0 0 :: (s1.anLearntLits.set 0 (litNegate p)).drop 1 } = x := ⟨_, rfl⟩
    rw [hR2] at hrun
    cases R2 with
    | none => exact Option.noConfusion hrun
    | some r2 =>
      obtain ⟨s4, jR⟩ := r2
      dsimp only at hrun
      have hnlen : 1 ≤ (s1.anLearntLits.set 0 (litNegate p)).length := by
        rw [List.length_set, ht]
        simp
      obtain ⟨g1, g2, g3⟩ := simplifyLoop_spec
        (buildLevelMap { s1 with anLearntLits := s1.anLearntLits.set 0 (litNegate p) })
        fuel (s1.anLearntLits.set 0 (litNegate p)).length t
        ((s1.anLearntLits.set 0 (litNegate p)).length + 1) 1 1 _ s4 jR hR2 rfl
        (Nat.le_refl 1) (Nat.le_refl 1) (Nat.le_refl 1) hnlen
        (by
          intro k hk1 hk2
          dsimp only
          rw [List.length_set, ht] at hk2
          simp only [List.length_cons] at hk2
          rw [ht, List.set_cons_zero]
          cases k with
          | zero => omega
          | succ m =>
            show t.getD m 0 ∈ t
            exact P.getD_mem 0 (by omega))
      injection hrun with h2
      simp only [Prod.mk.injEq] at h2
      obtain ⟨ha, hbq, hlearnte⟩ := h2
      have hlfinal : learnt = s4.anLearntLits.take jR := by
        rw [← hlearnte]
        rw [clearSeen_learnt]
        dsimp only
        rw [glucoseBump_learnt]
      have hheadv : (({ s1 with anLearntLits := s1.anLearntLits.set 0 (litNegate p), anStack := [], anToClear := (s1.anLearntLits.set 0 (litNegate p)).getD 0 0 :: (s1.anLearntLits.set 0 (litNegate p)).drop 1 } : ASolver)).anLearntLits.getD 0 0 = litNegate p := by
        show (s1.anLearntLits.set 0 (litNegate p)).getD 0 0 = litNegate p
        rw [ht, List.set_cons_zero]
        rfl
      have hlg0 : learnt.getD 0 0 = litNegate p := by
        rw [hlfinal, take_getD_zero _ _ g1, g2, hheadv]
      have htailT : ∀ x, x ∈ learnt.drop 1 → x ∈ t := by
        intro x hx
        rw [hlfinal] at hx
        obtain ⟨k, hk1, hk2, hk3⟩ := drop_one_mem_getD _ x hx
        rw [List.length_take] at hk2
        obtain ⟨hka, hkb⟩ := Nat.lt_min.mp hk2
        rw [take_getD_lt _ _ _ hka] at hk3
        rw [← hk3]
        exact g3 k hk1 hkb
      have hp2 : 2 ≤ p := hTrail2 p hpmem
      have hblt : b < s.trailLim.length := hLIR.blt
      have htfacts : ∀ l ∈ learnt.drop 1,
          0 < (s.vars.getD (litVi l) default).level ∧
          (s.vars.getD (litVi l) default).level ≤ bR ∧
          (s.vars.getD (litVi l) default).level < s.trailLim.length := by
        intro l hl
        obtain ⟨f1, f2⟩ := htall l (htailT l hl)
        have f2s : (s.vars.getD (litVi l) default).level ≤ b := f2
        refine ⟨f1, ?_, by omega⟩
        rw [← hbq]
        exact f2s
      refine ⟨by rw [← hbq]; exact hblt, ⟨p, hpmem, hlg0, hlevP⟩, htfacts, ?_⟩
      cases hlearn : learnt with
      | nil =>
        exfalso
        rw [hlearn] at hlg0
        have hgn : 2 ≤ litNegate p := M.litNegate_ge_two p hp2
        have hz : (([] : List Nat)).getD 0 0 = 0 := rfl
        rw [hz] at hlg0
        omega
      | cons h0 tl =>
        rw [List.countP_cons]
        have hh0 : h0 = litNegate p := by
          rw [hlearn] at hlg0
          exact hlg0
        have hPh : ((s.vars.getD (litVi h0) default).level == s.trailLim.length) = true := by
          rw [hh0, litVi_negate, hlevP]
          exact beq_self_eq_true _
        have htl0 : tl.countP
            (fun l => (s.vars.getD (litVi l) default).level == s.trailLim.length) = 0 := by
          rw [List.countP_eq_zero]
          intro a ha
          intro hpa
          have hat : a ∈ learnt.drop 1 := by
            rw [hlearn]
            exact ha
          obtain ⟨f1, f2, f3⟩ := htfacts a hat
          have := beq_iff_eq.mp hpa
          omega
        rw [htl0, if_pos hPh]


theorem analyze_spec_witness :
    ((analyze 10 exAnSolver 3).getD (exAnSolver, 0, [])).2.2.countP
      (fun l => (exAnSolver.vars.getD (litVi l) default).level ==
        exAnSolver.trailLim.length) = 1 ∧
    ((analyze 10 exAnSolver 3).getD (exAnSolver, 0, [])).2.1 <
      exAnSolver.trailLim.length := by
  have h := analyze_spec 10 exAnSolver 3
    ((analyze 10 exAnSolver 3).getD (exAnSolver, 0, [])).1
    ((analyze 10 exAnSolver 3).getD (exAnSolver, 0, [])).2.1
    ((analyze 10 exAnSolver 3).getD (exAnSolver, 0, [])).2.2
    (by rfl)
    (by decide)
    (by decide)
    (by
      intro i j hij hj
      have hj3 : j < 3 := hj
      have hall : ∀ k, k < 3 →
          (exAnSolver.vars.getD (litVi (exAnSolver.trail.getD k 0)) default).level = 1 := by
        decide
      have h1 := hall i (by omega)
      have h2 := hall j hj3
      omega)
    (by decide)
    (by decide)
    (by decide)
    (by decide)
    (by decide)
    (by decide)
  exact ⟨h.2.2.2, h.1⟩

end A

end Splr
